import Mathlib

/-!
# The SQL processor of ilogtail: plan compiler and plan executor

A shallow embedding of `plugins/processor/sql` (`define.go`, `plan_generator.go`,
`plan_executor.go`, `processor_sql.go`) and of the scalar function
`functions/aes_encrypt`, followed by theorems about the embedded code.

Conventions of the embedding.

* A Go function returning `(T, error)` becomes a function into `Result T`.
* The receiver `p *ProcessorSql` is passed explicitly where the method reads one
  of its fields and is left out where the method never looks at it
  (`genExpr`, `genNonCondExpr`, `getName`).
* Package level functions and tables of the package that live outside the files
  above, and the standard library routines whose exact behaviour is not needed,
  are collected in the structure `Env` and passed as a parameter.
* Logging calls have no effect on any result and are dropped.
-/

namespace Sql

universe u

/-! ## Outcomes -/

/-- Outcome of a Go call. `ok a` is a normal return with a nil error. `err msg`
is a return with a non-nil error; every such return in the embedded sources
pairs the error with the zero value of the result type (`false`, `""`, `nil`),
so the value is not recorded. `panic msg` is a run-time fault: a nil
dereference, a failed type assertion, an index out of range or an integer
division by zero. -/
inductive Result (α : Type u) : Type u where
  | ok (a : α)
  | err (msg : String)
  | panic (msg : String)
  deriving DecidableEq

namespace Result

/-- Sequencing: the first error or fault ends the computation. -/
def bind {α β : Type u} : Result α → (α → Result β) → Result β
  | ok a, f => f a
  | err e, _ => err e
  | panic e, _ => panic e

instance : Monad Result where
  pure := Result.ok
  bind := Result.bind

/-- The call returned normally with a nil error. -/
def isOk {α : Type u} : Result α → Bool
  | ok _ => true
  | _ => false

/-- The call returned a non-nil error. -/
def isErr {α : Type u} : Result α → Bool
  | err _ => true
  | _ => false

/-- The call faulted. -/
def isPanic {α : Type u} : Result α → Bool
  | panic _ => true
  | _ => false

@[simp] theorem ok_bind {α β : Type u} (a : α) (f : α → Result β) :
    (ok a >>= f) = f a := rfl

@[simp] theorem err_bind {α β : Type u} (e : String) (f : α → Result β) :
    (err e >>= f) = err e := rfl

@[simp] theorem panic_bind {α β : Type u} (e : String) (f : α → Result β) :
    (panic e >>= f) = panic e := rfl

@[simp] theorem pure_eq_ok {α : Type u} (a : α) : (pure a : Result α) = ok a := rfl

end Result

/-! ## Records -/

/-- Modelled from the spec: `models.KeyValues[string]` (package `pkg/models`, not
among the embedded files), the record type behind `LogContentType` and
`models.LogContents`. The spec describes it as an ordered mapping from string
key to string value with unique keys; `Get` of an absent key is the zero value
`""`. -/
structure KeyValues where
  entries : List (String × String)
  deriving DecidableEq, Repr

namespace KeyValues

/-- The value `models.NewKeyValues` / `models.NewLogContents` returns. -/
def empty : KeyValues := ⟨[]⟩

/-- The method `Contains(key)`. -/
def Contains (kv : KeyValues) (key : String) : Bool :=
  (kv.entries.lookup key).isSome

/-- The method `Get(key)`: the bound value, or `""` when the key is absent. -/
def Get (kv : KeyValues) (key : String) : String :=
  (kv.entries.lookup key).getD ""

/-- The method `Add(key, value)`: rebinds an existing key in place, otherwise
appends the binding. -/
def Add (kv : KeyValues) (key value : String) : KeyValues :=
  if kv.Contains key then
    ⟨kv.entries.map (fun e => if e.1 == key then (key, value) else e)⟩
  else
    ⟨kv.entries ++ [(key, value)]⟩

end KeyValues

/-- The declaration `type LogContentType models.KeyValues[string]`. -/
abbrev LogContentType := KeyValues

/-! ## Standard library values -/

/-- The values of Go's `float64` as far as comparison is concerned: not-a-number,
the two infinities, and the finite values, each of which denotes a rational
number (both zeros denote `0`). -/
inductive Float64 where
  | nan
  | inf (negative : Bool)
  | fin (q : ℚ)
  deriving DecidableEq

namespace Float64

/-- Go's `l < r` on `float64`: false as soon as one side is not a number. -/
def lt : Float64 → Float64 → Bool
  | nan, _ => false
  | _, nan => false
  | inf true, inf true => false
  | inf true, _ => true
  | inf false, _ => false
  | fin _, inf negative => !negative
  | fin a, fin b => decide (a < b)

/-- Go's `l > r` on `float64`. -/
def gt (l r : Float64) : Bool := lt r l

end Float64

/-- A compiled `*regexp.Regexp`, identified by the pattern text it was compiled
from; how it matches is left to `Env.evaluateRegex` and `Env.evaluateLike`. -/
structure Regexp where
  expr : String
  deriving DecidableEq, Repr

/-! ## define.go -/

def Lt : String := "<"
def Eq : String := "="
def Gt : String := ">"
def Neq : String := "!="
def Regex : String := "REGEXP"
def Nregex : String := "NOT REGEXP"
def Like : String := "LIKE"
def Nlike : String := "NOT LIKE"
def And : String := "AND"
def Or : String := "OR"

abbrev ExprType := Int

def NoneType : ExprType := 0
def AttrType : ExprType := 1
def ConstType : ExprType := 2
def FuncType : ExprType := 3
def CondType : ExprType := 4
def CaseType : ExprType := 5

/-- The interface `Function`, as an object: the methods close over a private
state, which `Init` may replace. `Init` returns the new state and the error
(`none` for nil). -/
structure Function : Type 1 where
  State : Type
  state : State
  Init : State → List String → State × Option String
  Process : State → List String → Result String
  Name : State → String

namespace Function

/-- The call `f.Init(param...)`: the object afterwards and the returned error. -/
def init (f : Function) (param : List String) : Function × Option String :=
  ({ f with state := (f.Init f.state param).1 }, (f.Init f.state param).2)

/-- The call `f.Process(param...)`. -/
def process (f : Function) (param : List String) : Result String :=
  f.Process f.state param

/-- The call `f.Name()`. -/
def name (f : Function) : String :=
  f.Name f.state

end Function

/-- The struct `Comp_`; `PreVal` is `none` for a nil pointer. -/
structure Comp_ where
  Name : String
  PreVal : Option Regexp
  deriving DecidableEq, Repr

mutual

/-- A value of the interface `Expr_`: `nil` is the interface's zero value, the
other constructors are the pointer types that implement it (`*Attr_`,
`*Const_`, `*Func_`, `*Cond_`, `*Case_`, `*None_`). -/
inductive Expr_ : Type 1 where
  | nil
  | Attr_ (Name : String)
  | Const_ (Value : String)
  | Func_ (Param : List Expr_) (Function : Function)
  | Cond_ (c : Cond_)
  | Case_ (c : Case_)
  | None_

/-- The struct `Cond_` (behind a non-nil `*Cond_`). -/
inductive Cond_ : Type 1 where
  | mk (Lexpr Rexpr : Expr_) (Comp : Comp_)

/-- The struct `Case_`; `ElseExpr` is `Expr_.nil` when it was never assigned. -/
inductive Case_ : Type 1 where
  | mk (CondExpr : List Cond_) (ThenExpr : List Expr_) (ElseExpr : Expr_)

end

namespace Cond_

def Lexpr : Cond_ → Expr_
  | mk l _ _ => l

def Rexpr : Cond_ → Expr_
  | mk _ r _ => r

def Comp : Cond_ → Comp_
  | mk _ _ c => c

end Cond_

namespace Case_

def CondExpr : Case_ → List Cond_
  | mk cs _ _ => cs

def ThenExpr : Case_ → List Expr_
  | mk _ ts _ => ts

def ElseExpr : Case_ → Expr_
  | mk _ _ e => e

end Case_

/-- The method `GetType`; calling it on the nil interface faults. -/
def Expr_.GetType : Expr_ → Result ExprType
  | .nil => .panic "invalid memory address or nil pointer dereference"
  | .Attr_ _ => .ok AttrType
  | .Const_ _ => .ok ConstType
  | .Func_ _ _ => .ok FuncType
  | .Cond_ _ => .ok CondType
  | .Case_ _ => .ok CaseType
  | .None_ => .ok NoneType

/-- The struct `Field_`. -/
structure Field_ : Type 1 where
  Expr : Expr_
  Alias : String

/-- The struct `PredicateOper_`; `Root` is `none` for a nil `*Cond_`. -/
structure PredicateOper_ : Type 1 where
  Root : Option Cond_

/-- The struct `ProjectOper_`. -/
structure ProjectOper_ : Type 1 where
  Fields : List Field_

/-- The struct `SelectPlan`; both operators are `none` in the zero value
`SelectPlan{}`. -/
structure SelectPlan : Type 1 where
  ProjectOper : Option ProjectOper_
  PredicateOper : Option PredicateOper_

/-- The struct `ProcessorSql` without its `context`, which only feeds the
logger. -/
structure ProcessorSql : Type 1 where
  Script : String
  NoKeyError : Bool
  Plan : SelectPlan

/-! ## The syntax tree of `github.com/xwb1989/sqlparser` -/

namespace sqlparser

mutual

/-- The interface `sqlparser.Expr`. Of each node type the fields the compiler
reads are kept (`ColName.Name` and `FuncExpr.Name` as the text their `String()`
returns, `SQLVal.Val` as the text `string(Val)`). `Other` stands for the node
types the compiler never names (`*sqlparser.RangeCond`, `*sqlparser.IsExpr`,
`*sqlparser.Subquery`, ...) and carries the text `%T` prints for it. A nil
`CaseExpr.Expr` or `CaseExpr.Else` is `none`. -/
inductive Expr : Type where
  | AndExpr (Left Right : Expr)
  | OrExpr (Left Right : Expr)
  | NotExpr (expr : Expr)
  | ParenExpr (expr : Expr)
  | ComparisonExpr (Operator : String) (Left Right : Expr)
  | SQLVal (Val : String)
  | NullVal
  | ColName (Name : String)
  | BinaryExpr (Operator : String) (Left Right : Expr)
  | UnaryExpr (Operator : String) (expr : Expr)
  | FuncExpr (Name : String) (Exprs : List SelectExpr)
  | CaseExpr (expr : Option Expr) (Whens : List When) (Else : Option Expr)
  | Other (typeName : String)

/-- The interface `sqlparser.SelectExpr`; `As` is the text `As.String()` returns,
`""` when the expression is not renamed. -/
inductive SelectExpr : Type where
  | StarExpr
  | AliasedExpr (expr : Expr) (As : String)
  | Nextval (expr : Expr)

/-- The struct `sqlparser.When`. -/
inductive When : Type where
  | mk (Cond Val : Expr)

end

def RegexpStr : String := "regexp"
def NotRegexpStr : String := "not regexp"
def LikeStr : String := "like"
def NotLikeStr : String := "not like"

/-- What `%T` prints for an expression. -/
def Expr.typeName : Expr → String
  | .AndExpr _ _ => "*sqlparser.AndExpr"
  | .OrExpr _ _ => "*sqlparser.OrExpr"
  | .NotExpr _ => "*sqlparser.NotExpr"
  | .ParenExpr _ => "*sqlparser.ParenExpr"
  | .ComparisonExpr _ _ _ => "*sqlparser.ComparisonExpr"
  | .SQLVal _ => "*sqlparser.SQLVal"
  | .NullVal => "*sqlparser.NullVal"
  | .ColName _ => "*sqlparser.ColName"
  | .BinaryExpr _ _ _ => "*sqlparser.BinaryExpr"
  | .UnaryExpr _ _ => "*sqlparser.UnaryExpr"
  | .FuncExpr _ _ => "*sqlparser.FuncExpr"
  | .CaseExpr _ _ _ => "*sqlparser.CaseExpr"
  | .Other typeName => typeName

/-- What `%T` prints for a select expression. -/
def SelectExpr.typeName : SelectExpr → String
  | .StarExpr => "*sqlparser.StarExpr"
  | .AliasedExpr _ _ => "*sqlparser.AliasedExpr"
  | .Nextval _ => "sqlparser.Nextval"

/-- The struct `sqlparser.Select`, reduced to the two fields the compiler reads;
`Where` is `none` for a nil `*Where` and otherwise holds `Where.Expr`. -/
structure Select where
  SelectExprs : List SelectExpr
  Where : Option Expr

/-- The interface `sqlparser.Statement`: a `*sqlparser.Select`, or a statement
of another type (`*sqlparser.Insert`, `*sqlparser.Update`, ...), of which only
the type's name is kept. -/
inductive Statement where
  | Select (stmt : Select)
  | Other (typeName : String)

end sqlparser

/-! ## What the package takes from outside the embedded files -/

/-- The functions and tables the embedded files call but do not define.

* `ToUpper`, `ToLower`: `strings.ToUpper`, `strings.ToLower`.
* `ParseFloat`: `strconv.ParseFloat(s, 64)`; `none` when the returned error is
  non-nil.
* `FunctionMap`: the package level registry `FunctionMap`, from a key to the
  factory stored under it; `none` for a key without entry, `some none` for an
  entry holding a nil factory, `some (some f)` for a factory returning the
  fresh object `f`.
* `isZeroNumber`, `evaluateRegex`, `evaluateLike`, `preEvaluateRegex`,
  `preEvaluateLike`: the helpers of package `sql` of those names.
* `Parse`: `sqlparser.Parse`.
-/
structure Env : Type 1 where
  ToUpper : String → String
  ToLower : String → String
  ParseFloat : String → Option Float64
  FunctionMap : String → Option (Option Function)
  isZeroNumber : String → Bool
  evaluateRegex : String → String → Option Regexp → Result Bool
  evaluateLike : String → String → Option Regexp → Result Bool
  preEvaluateRegex : String → Result (Option Regexp)
  preEvaluateLike : String → Result (Option Regexp)
  Parse : String → Result sqlparser.Statement

/-! ## plan_executor.go -/

/-- The function `strconv.FormatBool`. -/
def FormatBool (b : Bool) : String :=
  if b then "true" else "false"

/-- The text of `fmt.Errorf("condition node has unexpected children type ltype: %d, rtype: %d", ltype, rtype)`. -/
def unexpectedChildren (ltype rtype : ExprType) : String :=
  "condition node has unexpected children type ltype: " ++ toString ltype ++
    ", rtype: " ++ toString rtype

/-- The method `evaluateCompare`. -/
def evaluateCompare (env : Env) (left right comp : String) (pattern : Option Regexp) :
    Result Bool :=
  if comp = Eq then
    .ok (decide (left = right))
  else if comp = Neq then
    .ok (decide (left ≠ right))
  else if comp = Gt then
    match env.ParseFloat left with
    | none => .err "now only support pure number compare in >"
    | some l =>
      match env.ParseFloat right with
      | none => .err "now only support pure number compare in >"
      | some r => .ok (Float64.gt l r)
  else if comp = Lt then
    match env.ParseFloat left with
    | none => .err "now only support pure number compare in <"
    | some l =>
      match env.ParseFloat right with
      | none => .err "now only support pure number compare in <"
      | some r => .ok (Float64.lt l r)
  else if comp = Regex then
    env.evaluateRegex left right pattern
  else if comp = Like then
    env.evaluateLike left right pattern
  else if comp = Nregex then
    match env.evaluateRegex left right pattern with
    | .ok res => .ok (!res)
    | .err e => .err e
    | .panic e => .panic e
  else if comp = Nlike then
    match env.evaluateLike left right pattern with
    | .ok res => .ok (!res)
    | .err e => .err e
    | .panic e => .panic e
  else
    .ok false

/-- The text of the fault of a failed type assertion to `*Cond_`. -/
def notCond : String := "interface conversion: sql.Expr_ is not *sql.Cond_"

/-- The text of the fault of a failed type assertion to `*Func_`. -/
def notFunc : String := "interface conversion: sql.Expr_ is not *sql.Func_"

/-- The text of `fmt.Errorf("attribute %s not found", name)`. -/
def attributeNotFound (name : String) : String :=
  "attribute " ++ name ++ " not found"

theorem sizeOf_getElem_lt {α : Type u} [SizeOf α] (xs : List α) (i : Nat)
    (h : i < xs.length) : sizeOf xs[i] < sizeOf xs :=
  List.sizeOf_lt_of_mem (List.getElem_mem h)

mutual

/-- The method `traverse`. -/
def traverse (env : Env) (p : ProcessorSql) (node : Cond_) (content : LogContentType) :
    Result Bool := do
  let ltype ← node.Lexpr.GetType
  let rtype ← node.Rexpr.GetType
  if ltype = CondType then
    if rtype = CondType then
      evaluateConditionPairs env p node content
    else
      .err (unexpectedChildren ltype rtype)
  else if rtype = CondType then
    .err (unexpectedChildren ltype rtype)
  else
    evaluateCondition env p node content
termination_by (sizeOf node, 2)
decreasing_by all_goals (apply Prod.Lex.right; omega)

/-- The method `evaluateConditionPairs`. The type assertions `node.Lexpr.(*Cond_)`
and `node.Rexpr.(*Cond_)` fault on a child of any other type. -/
def evaluateConditionPairs (env : Env) (p : ProcessorSql) (node : Cond_)
    (content : LogContentType) : Result Bool :=
  match node with
  | .mk lexpr rexpr comp =>
    if comp.Name = And then
      match lexpr with
      | .Cond_ l => do
        let left ← traverse env p l content
        if !left then
          .ok false
        else
          match rexpr with
          | .Cond_ r => do
            let right ← traverse env p r content
            .ok right
          | _ => .panic notCond
      | _ => .panic notCond
    else if comp.Name = Or then
      match lexpr with
      | .Cond_ l => do
        let left ← traverse env p l content
        if left then
          .ok true
        else
          match rexpr with
          | .Cond_ r => do
            let right ← traverse env p r content
            .ok right
          | _ => .panic notCond
      | _ => .panic notCond
    else
      .ok false
termination_by (sizeOf node, 1)
decreasing_by all_goals (simp_wf; apply Prod.Lex.left; omega)

/-- The method `evaluateCondition`. When the right operand is `*None_` and the
comparator is neither `=` nor `!=`, control falls through to the general
comparison. -/
def evaluateCondition (env : Env) (p : ProcessorSql) (node : Cond_)
    (content : LogContentType) : Result Bool :=
  match node with
  | .mk lexpr rexpr comp =>
    let general : Result Bool := do
      let left ← getValue env p lexpr content
      let right ← getValue env p rexpr content
      evaluateCompare env left right comp.Name comp.PreVal
    match rexpr with
    | .None_ => do
      let left ← getValue env p lexpr content
      let isZeroNumber := env.isZeroNumber left
      if comp.Name = Eq then
        .ok isZeroNumber
      else if comp.Name = Neq then
        .ok (!isZeroNumber)
      else
        general
    | _ => general
termination_by (sizeOf node, 0)
decreasing_by all_goals (simp_wf; apply Prod.Lex.left; omega)

/-- The method `getValue`. -/
def getValue (env : Env) (p : ProcessorSql) (node : Expr_) (content : LogContentType) :
    Result String :=
  match node with
  | .Attr_ name =>
    let res := content.Get name
    if res = "" ∧ p.NoKeyError = true ∧ content.Contains name = false then
      .err (attributeNotFound name)
    else
      .ok res
  | .Const_ value => .ok value
  | .Func_ param function => evaluteFunc env p (.Func_ param function) content
  | .Case_ c => evaluateCase env p c content
  | _ => .err "unknown expression type"
termination_by (sizeOf node, 2)
decreasing_by
  · simp_wf; apply Prod.Lex.right; omega
  · simp_wf; apply Prod.Lex.left; omega

/-- The method `evaluteFunc`. -/
def evaluteFunc (env : Env) (p : ProcessorSql) (node : Expr_) (content : LogContentType) :
    Result String :=
  match node with
  | .Func_ items function => do
    let param ← evaluteFuncLoop env p items [] content
    let res ← function.process param
    .ok res
  | _ => .panic notFunc
termination_by (sizeOf node, 1)
decreasing_by all_goals (simp_wf; apply Prod.Lex.left; omega)

/-- The loop `for _, item := range node.(*Func_).Param` of `evaluteFunc`, from
the items still to visit and the slice `param` built so far to the final
`param`. An item of any other type than the four listed is passed over. -/
def evaluteFuncLoop (env : Env) (p : ProcessorSql) (items : List Expr_) (param : List String)
    (content : LogContentType) : Result (List String) :=
  match items with
  | [] => .ok param
  | item :: rest =>
    match item with
    | .Attr_ name =>
      let res := content.Get name
      if res = "" ∧ p.NoKeyError = true ∧ content.Contains name = false then
        .err (attributeNotFound name)
      else
        evaluteFuncLoop env p rest (param ++ [res]) content
    | .Const_ value => evaluteFuncLoop env p rest (param ++ [value]) content
    | .Func_ ps f => do
      let res ← evaluteFunc env p (.Func_ ps f) content
      evaluteFuncLoop env p rest (param ++ [res]) content
    | .Cond_ c => do
      let res ← traverse env p c content
      evaluteFuncLoop env p rest (param ++ [FormatBool res]) content
    | _ => evaluteFuncLoop env p rest param content
termination_by (sizeOf items, 0)
decreasing_by all_goals (simp_wf; apply Prod.Lex.left; omega)

/-- The method `evaluateCase`. -/
def evaluateCase (env : Env) (p : ProcessorSql) (node : Case_) (content : LogContentType) :
    Result String :=
  match node with
  | .mk conds thens els => evaluateCaseLoop env p conds 0 thens els content
termination_by (sizeOf node, 1)
decreasing_by all_goals (simp_wf; apply Prod.Lex.left; omega)

/-- The loop `for idx, cond := range node.CondExpr` of `evaluateCase` together
with the return that follows it: `conds` are the conditions still to visit and
`idx` is the index of the first of them; `thens` and `els` are `node.ThenExpr`
and `node.ElseExpr`. -/
def evaluateCaseLoop (env : Env) (p : ProcessorSql) (conds : List Cond_) (idx : Nat)
    (thens : List Expr_) (els : Expr_) (content : LogContentType) : Result String :=
  match conds with
  | [] => getValue env p els content
  | cond :: rest => do
    let res ← evaluateCondition env p cond content
    if res then
      if h : idx < thens.length then
        getValue env p thens[idx] content
      else
        .panic "index out of range"
    else
      evaluateCaseLoop env p rest (idx + 1) thens els content
termination_by (sizeOf conds + sizeOf thens + sizeOf els, 0)
decreasing_by
  all_goals simp_wf
  all_goals apply Prod.Lex.left
  all_goals first
    | omega
    | (have hlt := sizeOf_getElem_lt thens idx h; omega)

end

/-- The method `predicate`. Reading `Root` through a nil `PredicateOper` faults. -/
def predicate (env : Env) (p : ProcessorSql) (content : LogContentType) : Result Bool :=
  match p.Plan.PredicateOper with
  | none => .panic "invalid memory address or nil pointer dereference"
  | some oper =>
    match oper.Root with
    | none => .ok true
    | some root => traverse env p root content

/-- The loop `for _, item := range p.Plan.ProjectOper.Fields` of `project`, from
the fields still to visit and the record `out` built so far. -/
def projectLoop (env : Env) (p : ProcessorSql) (fields : List Field_) (out : KeyValues)
    (content : LogContentType) : Result KeyValues :=
  match fields with
  | [] => .ok out
  | item :: rest => do
    let res ← getValue env p item.Expr content
    projectLoop env p rest (out.Add item.Alias res) content

/-- The method `project`. Reading `Fields` through a nil `ProjectOper` faults. -/
def project (env : Env) (p : ProcessorSql) (content : LogContentType) : Result KeyValues :=
  match p.Plan.ProjectOper with
  | none => .panic "invalid memory address or nil pointer dereference"
  | some oper => projectLoop env p oper.Fields KeyValues.empty content

/-! ## plan_generator.go -/

mutual

/-- The method `getName`. -/
def getName : Expr_ → String
  | .Attr_ name => name
  | .Func_ param function => function.name ++ "(" ++ getNameLoop param ++ ")"
  | .Const_ value => value
  | .None_ => ""
  | .Cond_ (.mk lexpr rexpr comp) => getName lexpr ++ " " ++ comp.Name ++ " " ++ getName rexpr
  | _ => ""

/-- The loop `for _, item := range expr.Param` of `getName`: the text it appends
to `name`. -/
def getNameLoop : List Expr_ → String
  | [] => ""
  | item :: rest =>
    match item with
    | .Attr_ name => name ++ getNameLoop rest
    | .Const_ value => value ++ getNameLoop rest
    | .Func_ ps f => getName (.Func_ ps f) ++ getNameLoop rest
    | _ => getNameLoop rest

end

/-- The comparator of a lowered comparison, as `genExpr` and `genNonCondExpr`
both build it from the operator and the lowered right operand: the operator
upper-cased, and the pattern precompiled when the operator is a regexp or like
operator and the right operand is a constant. -/
def genComp (env : Env) (operator : String) (right : Expr_) : Result Comp_ :=
  let name := env.ToUpper operator
  if operator = sqlparser.RegexpStr ∨ operator = sqlparser.NotRegexpStr then
    match right with
    | .Const_ value => do
      let preVal ← env.preEvaluateRegex value
      .ok ⟨name, preVal⟩
    | _ => .ok ⟨name, none⟩
  else if operator = sqlparser.LikeStr ∨ operator = sqlparser.NotLikeStr then
    match right with
    | .Const_ value => do
      let preVal ← env.preEvaluateLike value
      .ok ⟨name, preVal⟩
    | _ => .ok ⟨name, none⟩
  else
    .ok ⟨name, none⟩

/-- The loop `for _, item := range expr.Param` of `genNonCondExpr`, which renders
the lowered arguments for `Init`. -/
def initParams : List Expr_ → List String
  | [] => []
  | item :: rest =>
    match item with
    | .Attr_ name => name :: initParams rest
    | .Const_ value => value :: initParams rest
    | .Func_ ps f => getName (.Func_ ps f) :: initParams rest
    | .Cond_ c => getName (.Cond_ c) :: initParams rest
    | _ => initParams rest

/-- The text of the fault of the type assertion `stmt.(*sqlparser.AliasedExpr)`. -/
def notAliased (stmt : sqlparser.SelectExpr) : String :=
  "interface conversion: sqlparser.SelectExpr is " ++ stmt.typeName ++
    ", not *sqlparser.AliasedExpr"

/-- The text of `fmt.Errorf("unsupported expression type: %T", leafNode)`. -/
def unsupportedExpression (typeName : String) : String :=
  "unsupported expression type: " ++ typeName

mutual

/-- The method `genNonCondExpr`. The value `Init` returns is discarded. -/
def genNonCondExpr (env : Env) : sqlparser.Expr → Result Expr_
  | .ColName name => .ok (.Attr_ name)
  | .SQLVal val => .ok (.Const_ val)
  | .FuncExpr name exprs => do
    let param ← genFuncParam env exprs []
    let functionName := env.ToLower name
    match env.FunctionMap functionName with
    | some (some creator) =>
      let res := creator
      let res := (res.init (initParams param)).1
      .ok (.Func_ param res)
    | _ => .err ("unsupported function: " ++ functionName)
  | .NullVal => .ok (.Const_ "NULL")
  | leafNode => .err (unsupportedExpression leafNode.typeName)

/-- The loop `for _, stmt := range leafNode.Exprs` of `genNonCondExpr`, from the
arguments still to visit and the slice `expr.Param` built so far. An argument
of a type without a case in the switch adds nothing. -/
def genFuncParam (env : Env) : List sqlparser.SelectExpr → List Expr_ → Result (List Expr_)
  | [], param => .ok param
  | stmt :: rest, param =>
    match stmt with
    | .AliasedExpr e _ =>
      match e with
      | .ColName name => genFuncParam env rest (param ++ [.Attr_ name])
      | .SQLVal val => genFuncParam env rest (param ++ [.Const_ val])
      | .FuncExpr name exprs => do
        let res ← genNonCondExpr env (.FuncExpr name exprs)
        genFuncParam env rest (param ++ [res])
      | .ComparisonExpr operator l r => do
        let left ← genNonCondExpr env l
        let right ← genNonCondExpr env r
        match genComp env operator right with
        | .ok comp => genFuncParam env rest (param ++ [.Cond_ (.mk left right comp)])
        | .err e => .err e
        | .panic e => .panic e
      | .NullVal => genFuncParam env rest (param ++ [.Const_ "NULL"])
      | _ => genFuncParam env rest param
    | _ => .panic (notAliased stmt)

end

/-- The method `genExpr`. -/
def genExpr (env : Env) : sqlparser.Expr → Result Expr_
  | .ComparisonExpr operator l r => do
    let left ← genNonCondExpr env l
    let right ← genNonCondExpr env r
    match genComp env operator right with
    | .ok comp => .ok (.Cond_ (.mk left right comp))
    | .err e => .err e
    | .panic e => .panic e
  | .AndExpr l r => do
    let left ← genExpr env l
    let right ← genExpr env r
    .ok (.Cond_ (.mk left right ⟨And, none⟩))
  | .OrExpr l r => do
    let left ← genExpr env l
    let right ← genExpr env r
    .ok (.Cond_ (.mk left right ⟨Or, none⟩))
  | .ColName name => do
    let expr ← genNonCondExpr env (.ColName name)
    .ok (.Cond_ (.mk expr .None_ ⟨Neq, none⟩))
  | .SQLVal val => do
    let expr ← genNonCondExpr env (.SQLVal val)
    .ok (.Cond_ (.mk expr .None_ ⟨Neq, none⟩))
  | .FuncExpr name exprs => do
    let expr ← genNonCondExpr env (.FuncExpr name exprs)
    .ok (.Cond_ (.mk expr .None_ ⟨Neq, none⟩))
  | .NullVal => do
    let expr ← genNonCondExpr env .NullVal
    .ok (.Cond_ (.mk expr .None_ ⟨Neq, none⟩))
  | .UnaryExpr _ e => do
    let expr ← genNonCondExpr env e
    .ok (.Cond_ (.mk expr .None_ ⟨Eq, none⟩))
  | .NotExpr e => do
    let expr ← genNonCondExpr env e
    .ok (.Cond_ (.mk expr .None_ ⟨Eq, none⟩))
  | .ParenExpr e => genExpr env e
  | expr => .err (unsupportedExpression expr.typeName)

/-- The text of the fault of the type assertion `stmt.Expr.(*sqlparser.ColName)`. -/
def notColName (e : sqlparser.Expr) : String :=
  "interface conversion: sqlparser.Expr is " ++ e.typeName ++ ", not *sqlparser.ColName"

/-- The text of the fault of a type assertion to `*sqlparser.SQLVal`. -/
def notSQLVal (e : sqlparser.Expr) : String :=
  "interface conversion: sqlparser.Expr is " ++ e.typeName ++ ", not *sqlparser.SQLVal"

/-- The error of `genProjectOper` for a `WHEN` that does not lower to a condition. -/
def whenNonCondition : String :=
  "not support: select CASE WHEN non-condition!! THEN expression ELSE expression END;"

/-- The loop `for _, stmtIn := range stmt.Whens` of `genProjectOper` for the form
`CASE attribute WHEN expression THEN expression`, where `operand` is
`stmt.Expr`; `conds` and `thens` are `caseExpr.CondExpr` and
`caseExpr.ThenExpr` as built so far. -/
def genWhensSimple (env : Env) (operand : sqlparser.Expr) :
    List sqlparser.When → List Cond_ → List Expr_ → Result (List Cond_ × List Expr_)
  | [], conds, thens => .ok (conds, thens)
  | .mk cond val :: rest, conds, thens =>
    match operand with
    | .ColName name => do
      let res ← genNonCondExpr env cond
      let condition := Cond_.mk (.Attr_ name) res ⟨Eq, none⟩
      let res ← genNonCondExpr env val
      genWhensSimple env operand rest (conds ++ [condition]) (thens ++ [res])
    | _ => .panic (notColName operand)

/-- The loop `for _, stmtIn := range stmt.Whens` of `genProjectOper` for the form
`CASE WHEN condition THEN expression`. -/
def genWhensSearched (env : Env) :
    List sqlparser.When → List Cond_ → List Expr_ → Result (List Cond_ × List Expr_)
  | [], conds, thens => .ok (conds, thens)
  | .mk cond val :: rest, conds, thens => do
    let condExpr ← genExpr env cond
    match condExpr with
    | .Cond_ c =>
      match val with
      | .SQLVal v => genWhensSearched env rest (conds ++ [c]) (thens ++ [.Const_ v])
      | _ => .panic (notSQLVal val)
    | _ => .err whenNonCondition

/-- The lowering of a selected `CASE` expression in `genProjectOper`: the
`Case_` stored in the new field. -/
def genCase (env : Env) (operand : Option sqlparser.Expr) (whens : List sqlparser.When)
    (els : Option sqlparser.Expr) : Result Case_ :=
  match operand with
  | some e => do
    let (conds, thens) ← genWhensSimple env e whens [] []
    match els with
    | some elseExpr => do
      let res ← genNonCondExpr env elseExpr
      .ok (.mk conds thens res)
    | none => .ok (.mk conds thens .nil)
  | none => do
    let (conds, thens) ← genWhensSearched env whens [] []
    match els with
    | some elseExpr =>
      match elseExpr with
      | .SQLVal v => .ok (.mk conds thens (.Const_ v))
      | _ => .panic (notSQLVal elseExpr)
    | none => .ok (.mk conds thens .nil)

/-- The loop `for _, field := range stmt.SelectExprs` of `genProjectOper`: from
the select expressions still to visit and `p.Plan.ProjectOper.Fields` as built
so far, to the final `Fields` and the outcome. -/
def genProjectLoop (env : Env) :
    List sqlparser.SelectExpr → List Field_ → List Field_ × Result Unit
  | [], fields => (fields, .ok ())
  | field :: rest, fields =>
    match field with
    | .AliasedExpr (.CaseExpr operand whens els) asName =>
      match genCase env operand whens els with
      | .ok caseExpr => genProjectLoop env rest (fields ++ [⟨.Case_ caseExpr, asName⟩])
      | .err e => (fields, .err e)
      | .panic e => (fields, .panic e)
    | .AliasedExpr e asName =>
      match genNonCondExpr env e with
      | .ok expr =>
        let name := if asName = "" then getName expr else asName
        genProjectLoop env rest (fields ++ [⟨expr, name⟩])
      | .err e => (fields, .err e)
      | .panic e => (fields, .panic e)
    | .StarExpr => genProjectLoop env rest fields
    | stmtOut => (fields, .err (unsupportedExpression stmtOut.typeName))

/-- The method `genProjectOper`: the processor afterwards and the outcome. -/
def genProjectOper (env : Env) (p : ProcessorSql) (stmt : sqlparser.Select) :
    ProcessorSql × Result Unit :=
  let r := genProjectLoop env stmt.SelectExprs []
  ({ p with Plan := { p.Plan with ProjectOper := some ⟨r.1⟩ } }, r.2)

/-- The method `genPredicateOper`: the processor afterwards and the outcome. -/
def genPredicateOper (env : Env) (p : ProcessorSql) (stmt : sqlparser.Select) :
    ProcessorSql × Result Unit :=
  let p1 : ProcessorSql := { p with Plan := { p.Plan with PredicateOper := some ⟨none⟩ } }
  match stmt.Where with
  | none => (p1, .ok ())
  | some whereExpr =>
    match genExpr env whereExpr with
    | .err e => (p1, .err e)
    | .panic e => (p1, .panic e)
    | .ok root =>
      match root with
      | .Cond_ c => ({ p with Plan := { p.Plan with PredicateOper := some ⟨some c⟩ } }, .ok ())
      | _ => (p1, .err "error in genExpr: select expression where non-condition")

/-! ## processor_sql.go -/

/-- The method `Init`: the processor afterwards and the outcome. When the parsed
statement is not a `*sqlparser.Select` the method returns the variable `err`,
which holds the nil error of the successful `sqlparser.Parse`. -/
def ProcessorSql.Init (env : Env) (p : ProcessorSql) : ProcessorSql × Result Unit :=
  match env.Parse p.Script with
  | .err e => (p, .err e)
  | .panic e => (p, .panic e)
  | .ok astNode =>
    match astNode with
    | .Select selectStmt =>
      let p1 : ProcessorSql := { p with Plan := ⟨none, none⟩ }
      match genProjectOper env p1 selectStmt with
      | (p2, .err e) => (p2, .err e)
      | (p2, .panic e) => (p2, .panic e)
      | (p2, .ok ()) => genPredicateOper env p2 selectStmt
    | _ => (p, .ok ())

/-- The processor the factory registered in `init()` returns. -/
def newProcessorSql : ProcessorSql :=
  { Script := "", NoKeyError := true, Plan := ⟨none, none⟩ }

/-! ## functions/aes_encrypt/aes_encrypt.go -/

/-- The bytes of a Go string (its UTF-8 encoding), each as a number below 256. -/
def stringBytes (s : String) : List Nat :=
  s.data.flatMap (fun c => (String.utf8EncodeChar c).map UInt8.toNat)

/-- The string `string(b)` of a byte slice, for slices of ASCII bytes. -/
def bytesString (b : List Nat) : String :=
  String.mk (b.map Char.ofNat)

namespace hex

/-- The value of one hexadecimal digit, `none` for any other byte. -/
def fromHexChar (c : Nat) : Option Nat :=
  if 48 ≤ c ∧ c ≤ 57 then some (c - 48)
  else if 97 ≤ c ∧ c ≤ 102 then some (c - 97 + 10)
  else if 65 ≤ c ∧ c ≤ 70 then some (c - 65 + 10)
  else none

def ErrLength : String := "encoding/hex: odd length hex string"

/-- The text of an `InvalidByteError` (the byte is printed as a number). -/
def InvalidByteError (c : Nat) : String :=
  "encoding/hex: invalid byte: " ++ toString c

/-- The function `encoding/hex.Decode` on the bytes still to read and the bytes
decoded so far: the decoded bytes and the error (`none` for nil). -/
def Decode : List Nat → List Nat → List Nat × Option String
  | [], dst => (dst, none)
  | [p], dst =>
    match fromHexChar p with
    | none => (dst, some (InvalidByteError p))
    | some _ => (dst, some ErrLength)
  | p :: q :: rest, dst =>
    match fromHexChar p with
    | none => (dst, some (InvalidByteError p))
    | some a =>
      match fromHexChar q with
      | none => (dst, some (InvalidByteError q))
      | some b => Decode rest (dst ++ [a * 16 + b])

/-- The function `encoding/hex.DecodeString`. -/
def DecodeString (s : String) : List Nat × Option String :=
  Decode (stringBytes s) []

/-- The digit `hextable[n]`. -/
def hexDigit (n : Nat) : Char :=
  "0123456789abcdef".data.getD n '0'

/-- The function `encoding/hex.EncodeToString`. -/
def EncodeToString (src : List Nat) : String :=
  String.mk (src.flatMap (fun b => [hexDigit (b / 16 % 16), hexDigit (b % 16)]))

end hex

/-- What `aes_encrypt.go` takes from `crypto/aes` and `crypto/rand`.

* `encryptBlock key block`: the 16 bytes the `cipher.Block` of
  `aes.NewCipher(key)` encrypts the 16 byte `block` to.
* `randRead n`: the `n` bytes `io.ReadFull(rand.Reader, buf)` stores in a
  buffer of length `n`, `none` when it returns an error.
-/
structure Crypto where
  encryptBlock : List Nat → List Nat → List Nat
  randRead : Nat → Option (List Nat)

namespace aes

/-- The constant `aes.BlockSize`. -/
def BlockSize : Int := 16

/-- The function `crypto/aes.NewCipher`: a block cipher, identified by its key,
for a key of 16, 24 or 32 bytes, and a `KeySizeError` for any other key. -/
def NewCipher (key : List Nat) : Except String (List Nat) :=
  if key.length = 16 ∨ key.length = 24 ∨ key.length = 32 then
    .ok key
  else
    .error ("crypto/aes: invalid key size " ++ toString key.length)

end aes

/-- The struct `Aes_encrypt`. `cipher` is `none` for the nil interface and
otherwise the key of the AES block cipher; `key` is `[]` for a nil slice; `iv` is
`none` for a nil slice. -/
structure Aes_encrypt where
  cipher : Option (List Nat)
  blockSize : Int
  key : List Nat
  iv : Option (List Nat)
  deriving DecidableEq, Repr

namespace Aes_encrypt

/-- The zero value `Aes_encrypt{}`. -/
def zero : Aes_encrypt := ⟨none, 0, [], none⟩

/-- The method `parseKey`: the object afterwards and the returned error. -/
def parseKey (f : Aes_encrypt) (key : String) : Aes_encrypt × Option String :=
  let decoded := hex.DecodeString key
  let f : Aes_encrypt := { f with key := decoded.1 }
  match decoded.2 with
  | some e => (f, some ("aes_encrypt decodes key from hex error: " ++ e ++ ", try hex"))
  | none =>
    match aes.NewCipher f.key with
    | .ok c => ({ f with cipher := some c, blockSize := aes.BlockSize }, none)
    | .error e =>
      ({ f with cipher := none }, some ("aes_encrypt create cipher with key error: " ++ e))

/-- The method `parseIV`: the object afterwards and the returned error. -/
def parseIV (f : Aes_encrypt) : Aes_encrypt × Option String :=
  let iv := String.mk (List.replicate (16 * 2) '0')
  let decoded := hex.DecodeString iv
  let f : Aes_encrypt := { f with iv := some decoded.1 }
  match decoded.2 with
  | some e => (f, some ("aes_encrypt decodes IV " ++ iv ++ " error: " ++ e))
  | none =>
    if (decoded.1.length : Int) ≠ f.blockSize then
      (f, some ("aes_encrypt finds size mismatch between IV(" ++ toString decoded.1.length ++
        ") and BlockSize(" ++ toString f.blockSize ++ "), must be same"))
    else
      (f, none)

/-- The method `Init`: the object afterwards and the returned error. -/
def Init (f : Aes_encrypt) (param : List String) : Aes_encrypt × Option String :=
  if param.length < 2 then
    (f, some "aes_encrypt: need at least 2 parameters")
  else
    match f.parseKey (param.getD 1 "") with
    | (f, some e) => (f, some e)
    | (f, none) =>
      match f.parseIV with
      | (f, some e) => (f, some e)
      | (f, none) => (f, none)

/-- The method `paddingWithPKCS7`. The remainder faults on a zero block size;
a negative padding size faults when the slice `dataBytes[len(data):]` is
taken (or already in `make`). The block size is an `Int` here and an `int` of
64 bits in the source: the two agree as long as `len(data) + paddingSize` is a
length `make` can allocate, which holds for the block sizes 0 and 16, the only
ones `parseKey` leaves (see `afterInits`). -/
def paddingWithPKCS7 (f : Aes_encrypt) (data : String) : Result (List Nat) :=
  let dataBytes := stringBytes data
  if f.blockSize = 0 then
    .panic "runtime error: integer divide by zero"
  else
    let paddingSize : Int := f.blockSize - Int.tmod dataBytes.length f.blockSize
    if paddingSize < 0 then
      .panic "runtime error: slice bounds out of range"
    else
      .ok (dataBytes ++ List.replicate paddingSize.toNat (paddingSize.toNat % 256))

/-- The bytewise exclusive or of two blocks. -/
def xorBytes (a b : List Nat) : List Nat :=
  List.zipWith Nat.xor a b

/-- What `CryptBlocks` of a CBC encrypter computes from the source blocks. -/
def cbc (crypto : Crypto) (key iv src : List Nat) : List Nat :=
  ((src.toChunks 16).foldl
    (fun (acc : List Nat × List Nat) block =>
      let c := crypto.encryptBlock key (xorBytes block acc.2)
      (acc.1 ++ c, c))
    ([], iv)).1

/-- Storing `out` at the start of the slice `dst`, whose length does not change. -/
def store (dst out : List Nat) : List Nat :=
  (out ++ dst.drop out.length).take dst.length

/-- The calls `cipher.NewCBCEncrypter(f.cipher, iv)` and
`mode.CryptBlocks(dst, src)`: the contents of `dst` afterwards. The first
faults on a nil cipher and on an `iv` that is not one block long, the second on
a source that is not a whole number of blocks or is longer than `dst`. -/
def cryptBlocks (crypto : Crypto) (cipher : Option (List Nat)) (iv dst src : List Nat) :
    Result (List Nat) :=
  match cipher with
  | none => .panic "invalid memory address or nil pointer dereference"
  | some key =>
    if (iv.length : Int) ≠ aes.BlockSize then
      .panic "cipher.NewCBCEncrypter: IV length must equal block size"
    else if src.length % 16 ≠ 0 then
      .panic "crypto/cipher: input not full blocks"
    else if dst.length < src.length then
      .panic "crypto/cipher: output smaller than input"
    else
      .ok (store dst (cbc crypto key iv src))

/-- The method `encrypt`. -/
def encrypt (crypto : Crypto) (f : Aes_encrypt) (plaintext : String) : Result (List Nat) := do
  let paddingData ← f.paddingWithPKCS7 plaintext
  match f.iv with
  | some iv =>
    let ciphertext := List.replicate paddingData.length 0
    cryptBlocks crypto f.cipher iv ciphertext paddingData
  | none =>
    if f.blockSize + paddingData.length < 0 then
      .panic "runtime error: makeslice: len out of range"
    else
      let ciphertext := List.replicate (f.blockSize + paddingData.length).toNat 0
      if f.blockSize < 0 then
        .panic "runtime error: slice bounds out of range"
      else
        match crypto.randRead f.blockSize.toNat with
        | none => .err "construct IV error"
        | some iv =>
          let ciphertext := store ciphertext iv
          let rest ← cryptBlocks crypto f.cipher iv (ciphertext.drop f.blockSize.toNat)
            paddingData
          .ok (ciphertext.take f.blockSize.toNat ++ rest)

/-- The method `Process`. -/
def Process (crypto : Crypto) (f : Aes_encrypt) (param : List String) : Result String :=
  if param.length < 2 then
    .err "aes_encrypt: need at least 2 parameters"
  else if param.getD 0 "" = "NULL" ∨ param.getD 1 "" = "NULL" then
    .ok "NULL"
  else
    match f.encrypt crypto (param.getD 0 "") with
    | .ok ciphertext => .ok (hex.EncodeToString ciphertext)
    | .err e => .err ("encrypt field " ++ param.getD 0 "" ++ " error: " ++ e)
    | .panic e => .panic e

/-- The method `Name`. -/
def Name (_ : Aes_encrypt) : String := "aes_encrypt"

/-- An `*Aes_encrypt` as a value of the interface `Function`. -/
def toFunction (crypto : Crypto) (f : Aes_encrypt) : Function :=
  { State := Aes_encrypt
    state := f
    Init := Init
    Process := Process crypto
    Name := Name }

/-- The factory stored in `sql.FunctionMap["aes_encrypt"]`, applied. -/
def creator (crypto : Crypto) : Function :=
  toFunction crypto zero

/-- The objects the package builds. The fields of `Aes_encrypt` are unexported, the
factory returns `&Aes_encrypt{}`, and `Init` (with `parseKey` and `parseIV`,
which only `Init` calls) is the only method that assigns a field. So an object
is the zero object after the calls `Init(calls[0]...)`, `Init(calls[1]...)`,
and so on, in order, whatever each call returned. -/
def afterInits (calls : List (List String)) : Aes_encrypt :=
  calls.foldl (fun f param => (f.Init param).1) zero

end Aes_encrypt

/-! ## A concrete environment

The theorems below hold for every `Env`. To evaluate the embedded code on
concrete inputs, the parameters are instantiated as follows. -/

namespace Example

/-- The function `strings.ToLower` on ASCII text. -/
def ToLower (s : String) : String :=
  String.mk (s.data.map Char.toLower)

/-- The function `strings.ToUpper` on ASCII text. -/
def ToUpper (s : String) : String :=
  String.mk (s.data.map Char.toUpper)

/-- The number a non-empty string of decimal digits denotes. -/
def digits (cs : List Char) : Option Nat :=
  if cs = [] then none
  else cs.foldl
    (fun acc c => acc.bind fun n => if c.isDigit then some (10 * n + (c.toNat - 48)) else none)
    (some 0)

/-- The function `strconv.ParseFloat(s, 64)` on decimal integers with an optional
sign, of magnitude up to `2 ^ 53` (which a `float64` holds exactly); on a
string that holds no number at all, such as `"abc"` or `""`, the result is
`none`, as for `strconv`. Numbers written in any other way are not accepted by
this instance. -/
def ParseFloat (s : String) : Option Float64 :=
  let signed : Bool × List Char :=
    match s.data with
    | '-' :: rest => (true, rest)
    | '+' :: rest => (false, rest)
    | cs => (false, cs)
  match digits signed.2 with
  | some n =>
    if n ≤ 2 ^ 53 then
      some (.fin (if signed.1 then -(n : ℚ) else (n : ℚ)))
    else none
  | none => none

/-- Modelled from the spec: the helper `isZeroNumber` of package `sql` (not among
the embedded files). The zero value is "the string is empty, or parses as a
numeric literal equal to 0 (e.g., `"0"`, `"0.0"`)". This instance reads decimal
literals: an optional sign, then digits with at most one point; such a literal
equals 0 when it has a digit and all its digits are `0`. So `""`, `"0"` and
`"0.0"` are zero values, and `"0.1"`, `"5"` and `"abc"` are not; `"00"`, which
the spec leaves open, is one. -/
def isZeroNumber (s : String) : Bool :=
  let body : List Char :=
    match s.data with
    | '-' :: rest => rest
    | '+' :: rest => rest
    | cs => cs
  let ds : List Char := body.filter (fun c => c != '.')
  s = "" ||
    (!ds.isEmpty && ds.all (fun c => c == '0') &&
      decide ((body.filter (fun c => c == '.')).length ≤ 1))

/-- A cipher and a random source for the evaluations below, none of which
reaches them: the block is returned as it is, the random bytes are zero. -/
def crypto : Crypto :=
  { encryptBlock := fun _ block => block
    randRead := fun n => some (List.replicate n 0) }

/-- The registry after the `init()` of package `aes_encrypt` has run. -/
def FunctionMap (name : String) : Option (Option Function) :=
  if name = "aes_encrypt" then some (some (Aes_encrypt.creator crypto)) else none

/-- The function `sqlparser.Parse` on the scripts used below; the answer to any
other script is the error of this instance. -/
def Parse (script : String) : Result sqlparser.Statement :=
  if script = "insert into t values (1)" then
    .ok (.Other "*sqlparser.Insert")
  else if script = "update t set a = 1" then
    .ok (.Other "*sqlparser.Update")
  else if script = "select id as x from t where id != 0" then
    .ok (.Select
      { SelectExprs := [.AliasedExpr (.ColName "id") "x"]
        Where := some (.ComparisonExpr "!=" (.ColName "id") (.SQLVal "0")) })
  else
    .err "script outside the examples"

/-- The environment of the evaluations below. The regular expression helpers,
which no evaluation below reaches, answer with an error. -/
def env : Env :=
  { ToUpper := ToUpper
    ToLower := ToLower
    ParseFloat := ParseFloat
    FunctionMap := FunctionMap
    isZeroNumber := isZeroNumber
    evaluateRegex := fun _ _ _ => .err "regular expressions are outside the examples"
    evaluateLike := fun _ _ _ => .err "regular expressions are outside the examples"
    preEvaluateRegex := fun _ => .err "regular expressions are outside the examples"
    preEvaluateLike := fun _ => .err "regular expressions are outside the examples"
    Parse := Parse }

/-- A processor in strict mode, before `Init`. -/
def strict : ProcessorSql := newProcessorSql

/-- A processor with strict mode off, before `Init`. -/
def lenient : ProcessorSql := { newProcessorSql with NoKeyError := false }

/-- The record `{"id": "5"}`. -/
def five : LogContentType := ⟨[("id", "5")]⟩

/-- The record `{"id": "0"}`. -/
def zero : LogContentType := ⟨[("id", "0")]⟩

/-- The condition a bare `id` in a WHERE clause lowers to: false on `zero`, true
on `five`. -/
def idTruthy : Cond_ := .mk (.Attr_ "id") .None_ ⟨Neq, none⟩

/-- The condition a `NOT id` lowers to: true on `zero`, false on `five`. -/
def idFalsy : Cond_ := .mk (.Attr_ "id") .None_ ⟨Eq, none⟩

/-- The statement `SELECT id AS x WHERE id != 0` as a syntax tree. -/
def selectId : sqlparser.Select :=
  { SelectExprs := [.AliasedExpr (.ColName "id") "x"]
    Where := some (.ComparisonExpr "!=" (.ColName "id") (.SQLVal "0")) }

/-- The statement `SELECT CASE status WHEN "1" THEN "ok" ELSE "bad" END AS s` as a
syntax tree. -/
def selectCase : sqlparser.Select :=
  { SelectExprs :=
      [.AliasedExpr
        (.CaseExpr (some (.ColName "status")) [.mk (.SQLVal "1") (.SQLVal "ok")]
          (some (.SQLVal "bad"))) "s"]
    Where := none }

/-- The select expression `CASE WHEN a = 1 AND b = 2 THEN "x" ELSE "y" END AS r` as
a syntax tree. -/
def caseWhenAnd : sqlparser.SelectExpr :=
  .AliasedExpr
    (.CaseExpr none
      [.mk (.AndExpr (.ComparisonExpr "=" (.ColName "a") (.SQLVal "1"))
          (.ComparisonExpr "=" (.ColName "b") (.SQLVal "2"))) (.SQLVal "x")]
      (some (.SQLVal "y"))) "r"

/-- The condition `a = 1 AND b = 2`, lowered. -/
def aAndB : Cond_ :=
  .mk (.Cond_ (.mk (.Attr_ "a") (.Const_ "1") ⟨Eq, none⟩))
    (.Cond_ (.mk (.Attr_ "b") (.Const_ "2") ⟨Eq, none⟩)) ⟨And, none⟩

/-- The select expression `CASE WHEN a = 1 THEN b ELSE c END AS r` as a syntax
tree. -/
def caseWhenColumns : sqlparser.SelectExpr :=
  .AliasedExpr
    (.CaseExpr none [.mk (.ComparisonExpr "=" (.ColName "a") (.SQLVal "1")) (.ColName "b")]
      (some (.ColName "c"))) "r"

/-- The select expression `CASE a WHEN 1 THEN b ELSE c END AS r` as a syntax tree. -/
def caseColumns : sqlparser.SelectExpr :=
  .AliasedExpr
    (.CaseExpr (some (.ColName "a")) [.mk (.SQLVal "1") (.ColName "b")]
      (some (.ColName "c"))) "r"

/-- The call `aes_encrypt(a = 1, b)` as a syntax tree. -/
def callWithComparison : sqlparser.Expr :=
  .FuncExpr "aes_encrypt"
    [.AliasedExpr (.ComparisonExpr "=" (.ColName "a") (.SQLVal "1")) "",
      .AliasedExpr (.ColName "b") ""]

/-- The call `aes_encrypt(b)` as a syntax tree. -/
def callWithColumn : sqlparser.Expr :=
  .FuncExpr "aes_encrypt" [.AliasedExpr (.ColName "b") ""]

/-- The call `aes_encrypt(a + 1, "000102030405060708090a0b0c0d0e0f")` as a syntax
tree. -/
def callWithArithmetic : sqlparser.Expr :=
  .FuncExpr "aes_encrypt"
    [.AliasedExpr (.BinaryExpr "+" (.ColName "a") (.SQLVal "1")) "",
      .AliasedExpr (.SQLVal "000102030405060708090a0b0c0d0e0f") ""]

/-- The statement `SELECT CASE status WHEN "1" THEN "ok" END AS s`, a CASE without
ELSE, as a syntax tree. -/
def selectCaseNoElse : sqlparser.Select :=
  { SelectExprs :=
      [.AliasedExpr
        (.CaseExpr (some (.ColName "status")) [.mk (.SQLVal "1") (.SQLVal "ok")] none) "s"]
    Where := none }

/-- The select expression
`CASE WHEN a = 1 OR b = 2 THEN "x" WHEN a = 1 THEN "y" ELSE "z" END AS r` as a
syntax tree. -/
def caseWhenOr : sqlparser.SelectExpr :=
  .AliasedExpr
    (.CaseExpr none
      [.mk (.OrExpr (.ComparisonExpr "=" (.ColName "a") (.SQLVal "1"))
          (.ComparisonExpr "=" (.ColName "b") (.SQLVal "2"))) (.SQLVal "x"),
        .mk (.ComparisonExpr "=" (.ColName "a") (.SQLVal "1")) (.SQLVal "y")]
      (some (.SQLVal "z"))) "r"

/-- The condition `a = 1 OR b = 2`, lowered. -/
def aOrB : Cond_ :=
  .mk (.Cond_ (.mk (.Attr_ "a") (.Const_ "1") ⟨Eq, none⟩))
    (.Cond_ (.mk (.Attr_ "b") (.Const_ "2") ⟨Eq, none⟩)) ⟨Or, none⟩

/-- The condition `a = 1`, lowered. -/
def aIsOne : Cond_ := .mk (.Attr_ "a") (.Const_ "1") ⟨Eq, none⟩

/-- The statement `SELECT id AS x, "c" AS x` as a syntax tree. -/
def selectRepeatedAlias : sqlparser.Select :=
  { SelectExprs := [.AliasedExpr (.ColName "id") "x", .AliasedExpr (.SQLVal "c") "x"]
    Where := none }

/-- A comparison that reads the key `missing`, absent from both records, and so
reports an error in strict mode. -/
def readsMissing : Cond_ := .mk (.Attr_ "missing") (.Const_ "1") ⟨Eq, none⟩

end Example

/-! ## Definitions that follow the specification -/

/-- Follows the spec's words on function-call evaluation: the string an argument
of a call resolves to, "Attribute via lookup, Constant verbatim, nested
FunctionCall recursively, and a Condition argument by evaluating it as a
predicate and rendering the boolean result as the literal string `"true"` /
`"false"`". The spec names no other kind of argument; for those the result is
`none`. -/
def argumentValue (env : Env) (p : ProcessorSql) (content : LogContentType) :
    Expr_ → Option (Result String)
  | .Attr_ name => some (getValue env p (.Attr_ name) content)
  | .Const_ value => some (.ok value)
  | .Func_ param function => some (evaluteFunc env p (.Func_ param function) content)
  | .Cond_ c =>
    match traverse env p c content with
    | .ok b => some (.ok (if b then "true" else "false"))
    | .err e => some (.err e)
    | .panic e => some (.panic e)
  | _ => none

/-- The expressions `genNonCondExpr` can return: an attribute, a constant or a
function call. -/
def Expr_.isOperand : Expr_ → Bool
  | .Attr_ _ => true
  | .Const_ _ => true
  | .Func_ _ _ => true
  | _ => false

/-- Whether an expression is a condition. -/
def Expr_.isCond : Expr_ → Bool
  | .Cond_ _ => true
  | _ => false

/-- Follows the spec's words on the Condition invariant: "if either child is a
Condition, the comparator MUST be AND or OR and the other child MUST also be a
Condition". So either both children are conditions and the comparator is
`AND` or `OR`, or neither child is a condition. -/
def condShape (lexpr rexpr : Expr_) (comp : Comp_) : Bool :=
  (lexpr.isCond && rexpr.isCond && (comp.Name == And || comp.Name == Or)) ||
    (!lexpr.isCond && !rexpr.isCond)

/-- Neither operand of the node is the nil interface. -/
def operandsPresent (lexpr rexpr : Expr_) : Bool :=
  match lexpr, rexpr with
  | .nil, _ => false
  | _, .nil => false
  | _, _ => true

/-- Follows the spec's words on a leaf comparison whose right operand is the
`None` sentinel: the comparator is `=` or `!=`, "any other comparator in this
shape ... must not occur post-compilation". -/
def noneComparator (rexpr : Expr_) (comp : Comp_) : Bool :=
  match rexpr with
  | .None_ => comp.Name == Eq || comp.Name == Neq
  | _ => true

mutual

/-- Every condition node anywhere in the expression (among the operands of a
condition, the parameters of a call, the branches of a CASE) satisfies `P`,
a property of the node's two operands and comparator. -/
def Expr_.everyCond (P : Expr_ → Expr_ → Comp_ → Bool) : Expr_ → Bool
  | .Func_ param _ => everyCondList P param
  | .Cond_ c => c.everyCond P
  | .Case_ c => c.everyCond P
  | _ => true

/-- Every condition node from this one downwards satisfies `P`. -/
def Cond_.everyCond (P : Expr_ → Expr_ → Comp_ → Bool) : Cond_ → Bool
  | .mk lexpr rexpr comp => P lexpr rexpr comp && lexpr.everyCond P && rexpr.everyCond P

/-- Every condition node in the CASE satisfies `P`. -/
def Case_.everyCond (P : Expr_ → Expr_ → Comp_ → Bool) : Case_ → Bool
  | .mk conds thens els =>
    everyCondConds P conds && everyCondList P thens && els.everyCond P

/-- Every condition node in the expressions of the list satisfies `P`. -/
def everyCondList (P : Expr_ → Expr_ → Comp_ → Bool) : List Expr_ → Bool
  | [] => true
  | e :: es => e.everyCond P && everyCondList P es

/-- Every condition node in the conditions of the list satisfies `P`. -/
def everyCondConds (P : Expr_ → Expr_ → Comp_ → Bool) : List Cond_ → Bool
  | [] => true
  | c :: cs => c.everyCond P && everyCondConds P cs

end

/-- Every condition node of the plan, in the projected fields and in the
predicate tree, satisfies `P`. -/
def SelectPlan.everyCond (P : Expr_ → Expr_ → Comp_ → Bool) (plan : SelectPlan) : Bool :=
  (match plan.ProjectOper with
    | none => true
    | some oper => everyCondList P (oper.Fields.map (fun f => f.Expr))) &&
  (match plan.PredicateOper with
    | none => true
    | some oper =>
      match oper.Root with
      | none => true
      | some root => root.everyCond P)

/-- What the compiler guarantees of the condition nodes it builds, as a
requirement on a property `P` of such nodes: `P` holds of a comparison of two
operands, of an operand paired with the `None_` sentinel under `!=` or `=`,
and of two conditions joined by `AND` or `OR`. -/
def HoldsOfCompiled (P : Expr_ → Expr_ → Comp_ → Bool) : Prop :=
  (∀ (l r : Expr_) (comp : Comp_), l.isOperand = true → r.isOperand = true →
    P l r comp = true) ∧
  (∀ l : Expr_, l.isOperand = true →
    P l .None_ ⟨Neq, none⟩ = true ∧ P l .None_ ⟨Eq, none⟩ = true) ∧
  (∀ l r : Cond_,
    P (.Cond_ l) (.Cond_ r) ⟨And, none⟩ = true ∧ P (.Cond_ l) (.Cond_ r) ⟨Or, none⟩ = true)

mutual

/-- Follows the spec's words on the derived alias: "attribute → its name;
constant → its literal; function call → `name(arg1arg2...)` with arguments
rendered recursively; condition → `"<left> <op> <right>"`". Any other
expression renders as the empty string. -/
def canonicalName : Expr_ → String
  | .Attr_ name => name
  | .Const_ value => value
  | .Func_ param function => function.name ++ "(" ++ canonicalNames param ++ ")"
  | .Cond_ (.mk lexpr rexpr comp) =>
    canonicalName lexpr ++ " " ++ comp.Name ++ " " ++ canonicalName rexpr
  | _ => ""

/-- The renderings of the arguments of a call, one after the other. -/
def canonicalNames : List Expr_ → String
  | [] => ""
  | item :: rest => canonicalName item ++ canonicalNames rest

end

mutual

/-- No call that `getName` renders in the expression has a comparison among its
arguments. -/
def plainArguments : Expr_ → Bool
  | .Func_ param _ => plainArgumentList param
  | .Cond_ (.mk lexpr rexpr _) => plainArguments lexpr && plainArguments rexpr
  | _ => true

/-- No argument in the list is a comparison, and no call that `getName` renders in
the arguments has one among its arguments. -/
def plainArgumentList : List Expr_ → Bool
  | [] => true
  | item :: rest =>
    match item with
    | .Cond_ _ => false
    | .Func_ ps f => plainArguments (.Func_ ps f) && plainArgumentList rest
    | _ => plainArgumentList rest

end

end Sql

/-! # Theorems -/

namespace Sql

/-! ## The condition tree -/

/-- On a node whose two children are conditions `traverse` is
`evaluateConditionPairs`. -/
theorem traverse_pairs (env : Env) (p : ProcessorSql) (l r : Cond_) (comp : Comp_)
    (content : LogContentType) :
    traverse env p (.mk (.Cond_ l) (.Cond_ r) comp) content =
      evaluateConditionPairs env p (.mk (.Cond_ l) (.Cond_ r) comp) content := by
  rw [traverse]
  simp [Cond_.Lexpr, Cond_.Rexpr, Expr_.GetType]

/-- On a node without a condition among its children `traverse` is
`evaluateCondition`. -/
theorem traverse_leaf (env : Env) (p : ProcessorSql) (l r : Expr_) (comp : Comp_)
    (content : LogContentType) (lt rt : ExprType) (hl : l.GetType = .ok lt)
    (hr : r.GetType = .ok rt) (hlt : lt ≠ CondType) (hrt : rt ≠ CondType) :
    traverse env p (.mk l r comp) content = evaluateCondition env p (.mk l r comp) content := by
  rw [traverse]
  simp [Cond_.Lexpr, Cond_.Rexpr, hl, hr, hlt, hrt]

/-- C1. A SELECT without WHERE clause compiles to a predicate operator whose `Root`
is nil, `genPredicateOper` reports no error, and `predicate` then returns
true with no error on every record. -/
theorem predicate_without_where (env : Env) (p : ProcessorSql) (stmt : sqlparser.Select)
    (content : LogContentType) (h : stmt.Where = none) :
    (genPredicateOper env p stmt).2 = .ok () ∧
    (genPredicateOper env p stmt).1.Plan.PredicateOper.map (fun o => o.Root) = some none ∧
    predicate env (genPredicateOper env p stmt).1 content = .ok true := by
  simp [genPredicateOper, h, predicate]

theorem predicate_without_where_witness :
    (genPredicateOper Example.env Example.strict
        ⟨[.AliasedExpr (.ColName "id") "x"], none⟩).2 = .ok () ∧
    (genPredicateOper Example.env Example.strict
        ⟨[.AliasedExpr (.ColName "id") "x"], none⟩).1.Plan.PredicateOper.map
          (fun o => o.Root) = some none ∧
    predicate Example.env
      (genPredicateOper Example.env Example.strict
        ⟨[.AliasedExpr (.ColName "id") "x"], none⟩).1 ⟨[("id", "5")]⟩ = .ok true :=
  predicate_without_where Example.env Example.strict
    ⟨[.AliasedExpr (.ColName "id") "x"], none⟩ ⟨[("id", "5")]⟩ rfl

/-- C2. For an AND node over two conditions: when the left child evaluates to
false without error, the node evaluates to false without error, whatever the
right child is; when the left child evaluates to true, the outcome of the node
(value, error or fault) is the outcome of the right child. This holds for
`evaluateConditionPairs` and for `traverse`, which agree on such a node. -/
theorem and_short_circuit (env : Env) (p : ProcessorSql) (l r : Cond_) (pre : Option Regexp)
    (content : LogContentType) :
    (traverse env p l content = .ok false →
      evaluateConditionPairs env p (.mk (.Cond_ l) (.Cond_ r) ⟨And, pre⟩) content = .ok false ∧
      traverse env p (.mk (.Cond_ l) (.Cond_ r) ⟨And, pre⟩) content = .ok false) ∧
    (traverse env p l content = .ok true →
      evaluateConditionPairs env p (.mk (.Cond_ l) (.Cond_ r) ⟨And, pre⟩) content =
        traverse env p r content ∧
      traverse env p (.mk (.Cond_ l) (.Cond_ r) ⟨And, pre⟩) content =
        traverse env p r content) := by
  refine ⟨fun h => ?_, fun h => ?_⟩
  · rw [traverse_pairs, evaluateConditionPairs]
    simp [h]
  · rw [traverse_pairs, evaluateConditionPairs]
    simp [h]
    cases traverse env p r content <;> rfl

theorem and_short_circuit_witness :
    traverse Example.env Example.strict Example.readsMissing Example.zero =
      .err (attributeNotFound "missing") ∧
    (traverse Example.env Example.strict Example.idTruthy Example.zero = .ok false ∧
      traverse Example.env Example.strict
        (.mk (.Cond_ Example.idTruthy) (.Cond_ Example.readsMissing) ⟨And, none⟩)
        Example.zero = .ok false) ∧
    (traverse Example.env Example.strict Example.idTruthy Example.five = .ok true ∧
      traverse Example.env Example.strict
        (.mk (.Cond_ Example.idTruthy) (.Cond_ Example.idFalsy) ⟨And, none⟩)
        Example.five = traverse Example.env Example.strict Example.idFalsy Example.five) := by
  have hz : traverse Example.env Example.strict Example.idTruthy Example.zero = .ok false := by
    simp [traverse, evaluateCondition, getValue, Example.idTruthy, Example.zero, Cond_.Lexpr,
      Cond_.Rexpr, Expr_.GetType, KeyValues.Get, KeyValues.Contains, AttrType, NoneType,
      CondType, Neq, Eq, Example.env]
    decide
  have hf : traverse Example.env Example.strict Example.idTruthy Example.five = .ok true := by
    simp [traverse, evaluateCondition, getValue, Example.idTruthy, Example.five, Cond_.Lexpr,
      Cond_.Rexpr, Expr_.GetType, KeyValues.Get, KeyValues.Contains, AttrType, NoneType,
      CondType, Neq, Eq, Example.env]
    decide
  refine ⟨?_, ⟨hz, ?_⟩, ⟨hf, ?_⟩⟩
  · simp [traverse, evaluateCondition, getValue, Example.readsMissing, Example.zero,
      Example.strict, newProcessorSql, Cond_.Lexpr, Cond_.Rexpr, Expr_.GetType, KeyValues.Get,
      KeyValues.Contains, AttrType, ConstType, CondType]
    rfl
  · exact ((and_short_circuit Example.env Example.strict Example.idTruthy Example.readsMissing
      none Example.zero).1 hz).2
  · exact ((and_short_circuit Example.env Example.strict Example.idTruthy Example.idFalsy
      none Example.five).2 hf).2

/-- C3. For an OR node over two conditions: when the left child evaluates to true
without error, the node evaluates to true without error, whatever the right
child is; when the left child evaluates to false, the outcome of the node
(value, error or fault) is the outcome of the right child. -/
theorem or_short_circuit (env : Env) (p : ProcessorSql) (l r : Cond_) (pre : Option Regexp)
    (content : LogContentType) :
    (traverse env p l content = .ok true →
      evaluateConditionPairs env p (.mk (.Cond_ l) (.Cond_ r) ⟨Or, pre⟩) content = .ok true ∧
      traverse env p (.mk (.Cond_ l) (.Cond_ r) ⟨Or, pre⟩) content = .ok true) ∧
    (traverse env p l content = .ok false →
      evaluateConditionPairs env p (.mk (.Cond_ l) (.Cond_ r) ⟨Or, pre⟩) content =
        traverse env p r content ∧
      traverse env p (.mk (.Cond_ l) (.Cond_ r) ⟨Or, pre⟩) content =
        traverse env p r content) := by
  refine ⟨fun h => ?_, fun h => ?_⟩
  · rw [traverse_pairs, evaluateConditionPairs]
    simp [h, And, Or]
  · rw [traverse_pairs, evaluateConditionPairs]
    simp [h, And, Or]
    cases traverse env p r content <;> rfl

theorem or_short_circuit_witness :
    traverse Example.env Example.strict Example.readsMissing Example.five =
      .err (attributeNotFound "missing") ∧
    (traverse Example.env Example.strict Example.idTruthy Example.five = .ok true ∧
      traverse Example.env Example.strict
        (.mk (.Cond_ Example.idTruthy) (.Cond_ Example.readsMissing) ⟨Or, none⟩)
        Example.five = .ok true) ∧
    (traverse Example.env Example.strict Example.idTruthy Example.zero = .ok false ∧
      traverse Example.env Example.strict
        (.mk (.Cond_ Example.idTruthy) (.Cond_ Example.idFalsy) ⟨Or, none⟩)
        Example.zero = traverse Example.env Example.strict Example.idFalsy Example.zero) := by
  have hz : traverse Example.env Example.strict Example.idTruthy Example.zero = .ok false := by
    simp [traverse, evaluateCondition, getValue, Example.idTruthy, Example.zero, Cond_.Lexpr,
      Cond_.Rexpr, Expr_.GetType, KeyValues.Get, KeyValues.Contains, AttrType, NoneType,
      CondType, Neq, Eq, Example.env]
    decide
  have hf : traverse Example.env Example.strict Example.idTruthy Example.five = .ok true := by
    simp [traverse, evaluateCondition, getValue, Example.idTruthy, Example.five, Cond_.Lexpr,
      Cond_.Rexpr, Expr_.GetType, KeyValues.Get, KeyValues.Contains, AttrType, NoneType,
      CondType, Neq, Eq, Example.env]
    decide
  refine ⟨?_, ⟨hf, ?_⟩, ⟨hz, ?_⟩⟩
  · simp [traverse, evaluateCondition, getValue, Example.readsMissing, Example.five,
      Example.strict, newProcessorSql, Cond_.Lexpr, Cond_.Rexpr, Expr_.GetType, KeyValues.Get,
      KeyValues.Contains, AttrType, ConstType, CondType]
    rfl
  · exact ((or_short_circuit Example.env Example.strict Example.idTruthy Example.readsMissing
      none Example.five).1 hf).2
  · exact ((or_short_circuit Example.env Example.strict Example.idTruthy Example.idFalsy
      none Example.zero).2 hz).2

/-! ## Init -/

/-- Whenever the parser returns a statement that is not a `*sqlparser.Select`,
`Init` returns a nil error and leaves the processor, its plan included, as it
was. -/
theorem Init_other_statement (env : Env) (p : ProcessorSql) (typeName : String)
    (h : env.Parse p.Script = .ok (.Other typeName)) :
    ProcessorSql.Init env p = (p, .ok ()) := by
  simp [ProcessorSql.Init, h]

/-- C4, on the code. For the script `insert into t values (1)`, which the parser
accepts as an `*sqlparser.Insert`, `Init` returns a nil error; the plan is
left unbuilt (both operators nil), and `predicate` on that processor faults. -/
theorem Init_insert_reports_success :
    Example.env.Parse "insert into t values (1)" = .ok (.Other "*sqlparser.Insert") ∧
    (ProcessorSql.Init Example.env
      { Example.strict with Script := "insert into t values (1)" }).2 = .ok () ∧
    (ProcessorSql.Init Example.env
      { Example.strict with Script := "insert into t values (1)" }).1.Plan.ProjectOper.isNone
        = true ∧
    (ProcessorSql.Init Example.env
      { Example.strict with Script := "insert into t values (1)" }).1.Plan.PredicateOper.isNone
        = true ∧
    (predicate Example.env
      (ProcessorSql.Init Example.env
        { Example.strict with Script := "insert into t values (1)" }).1 Example.five).isPanic
        = true := by
  have h := Init_other_statement Example.env
    { Example.strict with Script := "insert into t values (1)" } "*sqlparser.Insert" rfl
  rw [h]
  exact ⟨rfl, rfl, rfl, rfl, rfl⟩

/-! ## Function binding -/

/-- When the arguments of a call lower without error and the lower-cased name has
a factory in `FunctionMap`, `genNonCondExpr` returns the bound call, whatever
`Init` returns. -/
theorem genNonCondExpr_registered (env : Env) (name : String)
    (exprs : List sqlparser.SelectExpr) (param : List Expr_) (creator : Function)
    (hp : genFuncParam env exprs [] = .ok param)
    (hf : env.FunctionMap (env.ToLower name) = some (some creator)) :
    genNonCondExpr env (.FuncExpr name exprs) =
      .ok (.Func_ param (creator.init (initParams param)).1) := by
  simp [genNonCondExpr, hp, hf]

/-- C5, on the code. In `aes_encrypt(a, "00")` the key `"00"` decodes to one byte
and `Init` of the registered function returns an error on the rendered
arguments `["a", "00"]`; `genNonCondExpr` nevertheless returns a bound
function call with no error, and evaluating that call on a record faults. -/
theorem genNonCondExpr_ignores_Init_error :
    initParams [.Attr_ "a", .Const_ "00"] = ["a", "00"] ∧
    ((Aes_encrypt.creator Example.crypto).init ["a", "00"]).2 =
      some "aes_encrypt create cipher with key error: crypto/aes: invalid key size 1" ∧
    genNonCondExpr Example.env
      (.FuncExpr "aes_encrypt" [.AliasedExpr (.ColName "a") "", .AliasedExpr (.SQLVal "00") ""])
      = .ok (.Func_ [.Attr_ "a", .Const_ "00"]
          ((Aes_encrypt.creator Example.crypto).init ["a", "00"]).1) ∧
    getValue Example.env Example.strict
      (.Func_ [.Attr_ "a", .Const_ "00"]
        ((Aes_encrypt.creator Example.crypto).init ["a", "00"]).1) ⟨[("a", "text")]⟩
      = .panic "runtime error: integer divide by zero" := by
  refine ⟨rfl, by decide, rfl, ?_⟩
  simp [getValue, evaluteFunc, evaluteFuncLoop, KeyValues.Get, KeyValues.Contains]
  rfl

/-- A call whose lower-cased name has no entry or a nil factory in `FunctionMap`
never lowers to an expression, for every argument list. -/
theorem genNonCondExpr_unregistered_not_ok (env : Env) (name : String)
    (exprs : List sqlparser.SelectExpr)
    (hf : env.FunctionMap (env.ToLower name) = none ∨
      env.FunctionMap (env.ToLower name) = some none) :
    (genNonCondExpr env (.FuncExpr name exprs)).isOk = false := by
  rw [genNonCondExpr]
  cases genFuncParam env exprs [] with
  | ok param => rcases hf with hf | hf <;> simp [hf, Result.isOk]
  | err e => rfl
  | panic e => rfl

/-- A call whose lower-cased name has no entry or a nil factory in `FunctionMap`
lowers to the error `unsupported function` as soon as lowering its arguments
returns normally. -/
theorem genNonCondExpr_unregistered (env : Env) (name : String)
    (exprs : List sqlparser.SelectExpr) (param : List Expr_)
    (hp : genFuncParam env exprs [] = .ok param)
    (hf : env.FunctionMap (env.ToLower name) = none ∨
      env.FunctionMap (env.ToLower name) = some none) :
    genNonCondExpr env (.FuncExpr name exprs) =
      .err ("unsupported function: " ++ env.ToLower name) := by
  rw [genNonCondExpr]
  rcases hf with hf | hf <;> simp [hp, hf]

/-- C6, on the code. The name `nosuch` has no entry in the registry, and lowering
the call `nosuch(*)` faults in the type assertion on its argument instead of
returning a compile error. A name that differs from the key `aes_encrypt`
only in letter case resolves. -/
theorem genNonCondExpr_star_argument_faults :
    Example.env.FunctionMap (Example.env.ToLower "nosuch") = none ∧
    genNonCondExpr Example.env (.FuncExpr "nosuch" [.StarExpr]) =
      .panic "interface conversion: sqlparser.SelectExpr is *sqlparser.StarExpr, not *sqlparser.AliasedExpr" ∧
    (genNonCondExpr Example.env (.FuncExpr "nosuch" [.AliasedExpr (.ColName "a") ""])) =
      .err "unsupported function: nosuch" ∧
    (genNonCondExpr Example.env
      (.FuncExpr "AES_Encrypt" [.AliasedExpr (.ColName "a") "", .AliasedExpr (.NullVal) ""])).isOk
      = true := by
  exact ⟨rfl, rfl, rfl, rfl⟩

/-! ## Attribute lookup -/

/-- A key the record does not contain reads as the empty string. -/
theorem KeyValues.Get_of_not_Contains (kv : KeyValues) (key : String)
    (h : kv.Contains key = false) : kv.Get key = "" := by
  unfold KeyValues.Contains at h
  unfold KeyValues.Get
  cases hl : kv.entries.lookup key with
  | none => rfl
  | some v => simp [hl] at h

/-- C7. `getValue` on an attribute returns an error exactly when strict mode is on
and the record does not contain the key, and it never faults; otherwise it
returns the value `Get` reads. So a key bound to the empty string yields the
empty string without error in either mode, and with strict mode off an absent
key yields the empty string without error. -/
theorem getValue_attribute (env : Env) (p : ProcessorSql) (name : String)
    (content : LogContentType) :
    ((getValue env p (.Attr_ name) content).isErr = true ↔
      (p.NoKeyError = true ∧ content.Contains name = false)) ∧
    (getValue env p (.Attr_ name) content).isPanic = false ∧
    (¬ (p.NoKeyError = true ∧ content.Contains name = false) →
      getValue env p (.Attr_ name) content = .ok (content.Get name)) ∧
    (content.Contains name = true → content.Get name = "" →
      getValue env p (.Attr_ name) content = .ok "") ∧
    (p.NoKeyError = false → content.Contains name = false →
      getValue env p (.Attr_ name) content = .ok "") := by
  rw [getValue]
  by_cases hc : content.Contains name = false
  · have hg := KeyValues.Get_of_not_Contains content name hc
    cases hk : p.NoKeyError <;> simp [hc, hg, hk, Result.isErr, Result.isPanic]
  · have hc2 : content.Contains name = true := by simpa using hc
    simp [hc2, Result.isErr, Result.isPanic]

theorem getValue_attribute_witness :
    (getValue Example.env Example.strict (.Attr_ "missing") Example.five).isErr = true ∧
    getValue Example.env Example.strict (.Attr_ "k") ⟨[("k", "")]⟩ = .ok "" ∧
    getValue Example.env Example.lenient (.Attr_ "missing") Example.five = .ok "" := by
  have h1 := getValue_attribute Example.env Example.strict "missing" Example.five
  have h2 := getValue_attribute Example.env Example.strict "k" ⟨[("k", "")]⟩
  have h3 := getValue_attribute Example.env Example.lenient "missing" Example.five
  exact ⟨h1.1.2 ⟨rfl, rfl⟩, h2.2.2.2.1 rfl rfl, h3.2.2.2.2 rfl rfl⟩

/-! ## Ordering comparisons -/

/-- C8. For the comparators `>` and `<`, `evaluateCompare` returns an error
exactly when `strconv.ParseFloat` rejects one of the two operands, and it
never faults; when both operands parse, the result is the `float64`
comparison of the two parsed values, which for finite values is the order of
the numbers they denote. -/
theorem evaluateCompare_ordering (env : Env) (left right : String)
    (pattern : Option Regexp) :
    ((evaluateCompare env left right Gt pattern).isErr = true ↔
      (env.ParseFloat left = none ∨ env.ParseFloat right = none)) ∧
    ((evaluateCompare env left right Lt pattern).isErr = true ↔
      (env.ParseFloat left = none ∨ env.ParseFloat right = none)) ∧
    (evaluateCompare env left right Gt pattern).isPanic = false ∧
    (evaluateCompare env left right Lt pattern).isPanic = false ∧
    (∀ l r : Float64, env.ParseFloat left = some l → env.ParseFloat right = some r →
      evaluateCompare env left right Gt pattern = .ok (Float64.gt l r) ∧
      evaluateCompare env left right Lt pattern = .ok (Float64.lt l r)) ∧
    (∀ a b : ℚ, env.ParseFloat left = some (.fin a) → env.ParseFloat right = some (.fin b) →
      evaluateCompare env left right Gt pattern = .ok (decide (a > b)) ∧
      evaluateCompare env left right Lt pattern = .ok (decide (a < b))) := by
  unfold evaluateCompare
  cases hl : env.ParseFloat left <;> cases hr : env.ParseFloat right <;>
    simp [Gt, Lt, Eq, Neq, Result.isErr, Result.isPanic, Float64.gt]
  intro a b ha hb
  subst ha hb
  simp [Float64.lt]

theorem evaluateCompare_ordering_witness :
    (evaluateCompare Example.env "abc" "1" Gt none).isErr = true ∧
    (evaluateCompare Example.env "abc" "1" Lt none).isErr = true ∧
    evaluateCompare Example.env "10" "9" Gt none = .ok true ∧
    evaluateCompare Example.env "10" "9" Lt none = .ok false := by
  have h1 := evaluateCompare_ordering Example.env "abc" "1" none
  have h2 := evaluateCompare_ordering Example.env "10" "9" none
  have h10 : Example.env.ParseFloat "10" = some (.fin 10) := by decide
  have h9 : Example.env.ParseFloat "9" = some (.fin 9) := by decide
  refine ⟨h1.1.2 (Or.inl rfl), h1.2.1.2 (Or.inl rfl), ?_, ?_⟩
  · rw [(h2.2.2.2.2.2 10 9 h10 h9).1]
    decide
  · rw [(h2.2.2.2.2.2 10 9 h10 h9).2]
    decide

/-! ## CASE -/

/-- The loop of `evaluateCase` passes over conditions that evaluate to false. -/
theorem evaluateCaseLoop_skip (env : Env) (p : ProcessorSql) (pre rest : List Cond_)
    (idx : Nat) (thens : List Expr_) (els : Expr_) (content : LogContentType)
    (hpre : ∀ c ∈ pre, evaluateCondition env p c content = .ok false) :
    evaluateCaseLoop env p (pre ++ rest) idx thens els content =
      evaluateCaseLoop env p rest (idx + pre.length) thens els content := by
  induction pre generalizing idx with
  | nil => simp
  | cons c cs ih =>
    have hc : evaluateCondition env p c content = .ok false := hpre c (List.mem_cons_self c cs)
    have hcs : ∀ d ∈ cs, evaluateCondition env p d content = .ok false :=
      fun d hd => hpre d (List.mem_cons_of_mem c hd)
    rw [List.cons_append, evaluateCaseLoop]
    simp only [hc, Result.ok_bind]
    rw [ih (idx + 1) hcs]
    simp [Nat.add_assoc, Nat.add_comm 1]

/-- The loop of `evaluateCase` (and `getValue` on the Case node), with the
conditions evaluated by `evaluateCondition` as `evaluateCase` does: when a branch's
condition evaluates to true and the conditions of all earlier branches
evaluate to false without error, the outcome is that of the branch's THEN
expression; when every condition evaluates to false, the outcome is that of
the ELSE expression. The
plan compiled from `CASE status WHEN "1" THEN "ok" ELSE "bad" END AS s`
projects `{status: "1"}` to `{s: "ok"}` and `{status: "2"}` to `{s: "bad"}`. -/
theorem evaluateCase_first_match (env : Env) (p : ProcessorSql) (conds : List Cond_)
    (thens : List Expr_) (els : Expr_) (content : LogContentType) :
    (∀ (pre : List Cond_) (cond : Cond_) (post : List Cond_) (t : Expr_),
      conds = pre ++ cond :: post →
      (∀ c ∈ pre, evaluateCondition env p c content = .ok false) →
      evaluateCondition env p cond content = .ok true →
      thens[pre.length]? = some t →
      evaluateCase env p (.mk conds thens els) content = getValue env p t content ∧
      getValue env p (.Case_ (.mk conds thens els)) content = getValue env p t content) ∧
    ((∀ c ∈ conds, evaluateCondition env p c content = .ok false) →
      evaluateCase env p (.mk conds thens els) content = getValue env p els content ∧
      getValue env p (.Case_ (.mk conds thens els)) content = getValue env p els content) ∧
    ((genProjectOper env p Example.selectCase).2 = .ok () ∧
      project env (genProjectOper env p Example.selectCase).1 ⟨[("status", "1")]⟩ =
        .ok ⟨[("s", "ok")]⟩ ∧
      project env (genProjectOper env p Example.selectCase).1 ⟨[("status", "2")]⟩ =
        .ok ⟨[("s", "bad")]⟩) := by
  have hcase : getValue env p (.Case_ (.mk conds thens els)) content =
      evaluateCase env p (.mk conds thens els) content := by
    rw [getValue]
  rw [hcase]
  refine ⟨?_, ?_, ?_⟩
  · intro pre cond post t hconds hpre hcond ht
    have hlt : pre.length < thens.length := by
      rcases List.getElem?_eq_some.mp ht with ⟨h, _⟩
      exact h
    have hget : thens[pre.length] = t := by
      rcases List.getElem?_eq_some.mp ht with ⟨_, h⟩
      exact h
    have hval : evaluateCase env p (.mk conds thens els) content = getValue env p t content := by
      rw [evaluateCase, hconds, evaluateCaseLoop_skip env p pre (cond :: post) 0 thens els
        content hpre, evaluateCaseLoop]
      simp [hcond, hlt, hget]
    exact ⟨hval, hval⟩
  · intro hall
    have hval : evaluateCase env p (.mk conds thens els) content =
        getValue env p els content := by
      rw [evaluateCase]
      have h := evaluateCaseLoop_skip env p conds [] 0 thens els content hall
      rw [List.append_nil] at h
      rw [h, evaluateCaseLoop]
    exact ⟨hval, hval⟩
  · simp [genProjectOper, genProjectLoop, genCase, genWhensSimple, genNonCondExpr,
      Example.selectCase, project, projectLoop, getValue, evaluateCase, evaluateCaseLoop,
      evaluateCondition, evaluateCompare, KeyValues.Get, KeyValues.Contains, KeyValues.Add,
      KeyValues.empty, Eq]

theorem evaluateCase_first_match_witness :
    getValue Example.env Example.strict
      (.Case_ (.mk [Example.idFalsy, Example.idTruthy] [.Const_ "none", .Const_ "some"]
        (.Const_ "other"))) Example.five = .ok "some" ∧
    getValue Example.env Example.strict
      (.Case_ (.mk [Example.idFalsy] [.Const_ "none"] (.Const_ "other"))) Example.five
        = .ok "other" := by
  have hf : evaluateCondition Example.env Example.strict Example.idFalsy Example.five =
      .ok false := by
    simp [evaluateCondition, getValue, Example.idFalsy, Example.five, KeyValues.Get,
      KeyValues.Contains, Eq, Example.env]
    decide
  have ht : evaluateCondition Example.env Example.strict Example.idTruthy Example.five =
      .ok true := by
    simp [evaluateCondition, getValue, Example.idTruthy, Example.five, KeyValues.Get,
      KeyValues.Contains, Eq, Neq, Example.env]
    decide
  have h1 := (evaluateCase_first_match Example.env Example.strict
    [Example.idFalsy, Example.idTruthy] [.Const_ "none", .Const_ "some"] (.Const_ "other")
    Example.five).1 [Example.idFalsy] Example.idTruthy [] (.Const_ "some") rfl
    (by simpa using hf) ht rfl
  have h2 := (evaluateCase_first_match Example.env Example.strict
    [Example.idFalsy] [.Const_ "none"] (.Const_ "other") Example.five).2.1
    (by simpa using hf)
  refine ⟨?_, ?_⟩
  · rw [h1.2, getValue]
  · rw [h2.2, getValue]

/-- C9, on the code.
`CASE WHEN a = 1 OR b = 2 THEN "x" WHEN a = 1 THEN "y" ELSE "z" END AS r` compiles
to a CASE with an ELSE whose first branch has the condition `a = 1 OR b = 2`.
On the record `{a: "1", b: "3"}` that condition evaluates to true (`traverse`,
the evaluator of conditions), so the first branch is the first true one, but
the projection reports the error `unknown expression type` instead of
`{r: "x"}`. On the record `{a: "5", b: "5"}` both conditions evaluate to false,
and the projection reports the same error instead of `{r: "z"}`: the loop of
`evaluateCase` evaluates the branch condition with `evaluateCondition`, which
reports that error on a node whose children are conditions. The plan compiled
from `CASE status WHEN "1" THEN "ok" ELSE "bad" END AS s`, whose condition is a
comparison, does project `{status: "1"}` to `{s: "ok"}` and `{status: "2"}` to
`{s: "bad"}`. -/
theorem evaluateCase_true_branch_not_taken :
    (genProjectOper Example.env Example.strict ⟨[Example.caseWhenOr], none⟩).2 = .ok () ∧
    (genProjectOper Example.env Example.strict
        ⟨[Example.caseWhenOr], none⟩).1.Plan.ProjectOper =
      some ⟨[⟨.Case_ (.mk [Example.aOrB, Example.aIsOne] [.Const_ "x", .Const_ "y"]
        (.Const_ "z")), "r"⟩]⟩ ∧
    traverse Example.env Example.strict Example.aOrB ⟨[("a", "1"), ("b", "3")]⟩ = .ok true ∧
    evaluateCondition Example.env Example.strict Example.aOrB ⟨[("a", "1"), ("b", "3")]⟩ =
      .err "unknown expression type" ∧
    project Example.env
      (genProjectOper Example.env Example.strict ⟨[Example.caseWhenOr], none⟩).1
      ⟨[("a", "1"), ("b", "3")]⟩ = .err "unknown expression type" ∧
    traverse Example.env Example.strict Example.aOrB ⟨[("a", "5"), ("b", "5")]⟩ = .ok false ∧
    traverse Example.env Example.strict Example.aIsOne ⟨[("a", "5"), ("b", "5")]⟩ =
      .ok false ∧
    project Example.env
      (genProjectOper Example.env Example.strict ⟨[Example.caseWhenOr], none⟩).1
      ⟨[("a", "5"), ("b", "5")]⟩ = .err "unknown expression type" ∧
    project Example.env (genProjectOper Example.env Example.strict Example.selectCase).1
      ⟨[("status", "1")]⟩ = .ok ⟨[("s", "ok")]⟩ ∧
    project Example.env (genProjectOper Example.env Example.strict Example.selectCase).1
      ⟨[("status", "2")]⟩ = .ok ⟨[("s", "bad")]⟩ := by
  have hplan : genProjectOper Example.env Example.strict ⟨[Example.caseWhenOr], none⟩ =
      ({ Example.strict with
          Plan := ⟨some ⟨[⟨.Case_ (.mk [Example.aOrB, Example.aIsOne]
            [.Const_ "x", .Const_ "y"] (.Const_ "z")), "r"⟩]⟩, none⟩ }, .ok ()) := rfl
  have hcond : ∀ (p : ProcessorSql) (content : LogContentType),
      evaluateCondition Example.env p Example.aOrB content =
        .err "unknown expression type" := by
    intro p content
    rw [Example.aOrB]
    simp [evaluateCondition, getValue]
  have hcase : ∀ (p : ProcessorSql) (content : LogContentType),
      getValue Example.env p
        (.Case_ (.mk [Example.aOrB, Example.aIsOne] [.Const_ "x", .Const_ "y"]
          (.Const_ "z"))) content = .err "unknown expression type" := by
    intro p content
    rw [getValue, evaluateCase, evaluateCaseLoop, hcond]
    rfl
  have hproj : ∀ content : LogContentType,
      project Example.env
        (genProjectOper Example.env Example.strict ⟨[Example.caseWhenOr], none⟩).1 content =
        .err "unknown expression type" := by
    intro content
    rw [hplan]
    simp only [project, projectLoop, hcase, Result.err_bind]
  refine ⟨rfl, rfl, ?_, hcond _ _, hproj _, ?_, ?_, hproj _, ?_, ?_⟩
  · simp [traverse, evaluateConditionPairs, evaluateCondition, evaluateCompare, getValue,
      Example.aOrB, Cond_.Lexpr, Cond_.Rexpr, Expr_.GetType, KeyValues.Get,
      KeyValues.Contains, AttrType, ConstType, CondType, Eq, And, Or]
  · simp [traverse, evaluateConditionPairs, evaluateCondition, evaluateCompare, getValue,
      Example.aOrB, Cond_.Lexpr, Cond_.Rexpr, Expr_.GetType, KeyValues.Get,
      KeyValues.Contains, AttrType, ConstType, CondType, Eq, And, Or]
    decide
  · simp [traverse, evaluateConditionPairs, evaluateCondition, evaluateCompare, getValue,
      Example.aIsOne, Cond_.Lexpr, Cond_.Rexpr, Expr_.GetType, KeyValues.Get,
      KeyValues.Contains, AttrType, ConstType, CondType, Eq, And, Or]
  · simp [genProjectOper, genProjectLoop, genCase, genWhensSimple, genNonCondExpr,
      Example.selectCase, project, projectLoop, getValue, evaluateCase, evaluateCaseLoop,
      evaluateCondition, evaluateCompare, KeyValues.Get, KeyValues.Contains, KeyValues.Add,
      KeyValues.empty, Eq]
  · simp [genProjectOper, genProjectLoop, genCase, genWhensSimple, genNonCondExpr,
      Example.selectCase, project, projectLoop, getValue, evaluateCase, evaluateCaseLoop,
      evaluateCondition, evaluateCompare, KeyValues.Get, KeyValues.Contains, KeyValues.Add,
      KeyValues.empty, Eq]

/-! ## End to end -/

/-- C10. Compiling the syntax tree of `SELECT id AS x WHERE id != 0` succeeds (given
that upper-casing leaves the operator `!=` as it is); on the record
`{id: "5"}` the compiled plan gives predicate true and projection `{x: "5"}`,
and on the record `{id: "0"}` it gives predicate false. -/
theorem select_id_end_to_end (env : Env) (p : ProcessorSql)
    (h : env.ToUpper "!=" = "!=") :
    (genProjectOper env p Example.selectId).2 = .ok () ∧
    (genPredicateOper env (genProjectOper env p Example.selectId).1 Example.selectId).2
      = .ok () ∧
    predicate env
      (genPredicateOper env (genProjectOper env p Example.selectId).1 Example.selectId).1
      Example.five = .ok true ∧
    project env
      (genPredicateOper env (genProjectOper env p Example.selectId).1 Example.selectId).1
      Example.five = .ok ⟨[("x", "5")]⟩ ∧
    predicate env
      (genPredicateOper env (genProjectOper env p Example.selectId).1 Example.selectId).1
      Example.zero = .ok false := by
  simp [genProjectOper, genProjectLoop, genPredicateOper, genExpr, genNonCondExpr, genComp, h,
    Example.selectId, Example.five, Example.zero, predicate, project, projectLoop, traverse,
    evaluateCondition, evaluateCompare, getValue, Cond_.Lexpr, Cond_.Rexpr, Expr_.GetType,
    KeyValues.Get, KeyValues.Contains, KeyValues.Add, KeyValues.empty, AttrType, ConstType,
    CondType, Eq, Neq, sqlparser.RegexpStr, sqlparser.NotRegexpStr, sqlparser.LikeStr,
    sqlparser.NotLikeStr]

theorem select_id_end_to_end_witness :
    Example.env.Parse "select id as x from t where id != 0" = .ok (.Select Example.selectId) ∧
    (ProcessorSql.Init Example.env
      { Example.strict with Script := "select id as x from t where id != 0" }).2 = .ok () ∧
    predicate Example.env
      (ProcessorSql.Init Example.env
        { Example.strict with Script := "select id as x from t where id != 0" }).1
      Example.five = .ok true ∧
    project Example.env
      (ProcessorSql.Init Example.env
        { Example.strict with Script := "select id as x from t where id != 0" }).1
      Example.five = .ok ⟨[("x", "5")]⟩ ∧
    predicate Example.env
      (ProcessorSql.Init Example.env
        { Example.strict with Script := "select id as x from t where id != 0" }).1
      Example.zero = .ok false := by
  have hparse : Example.env.Parse "select id as x from t where id != 0" =
      .ok (.Select Example.selectId) := rfl
  have h := select_id_end_to_end Example.env
    { Example.strict with
      Script := "select id as x from t where id != 0", Plan := ⟨none, none⟩ } rfl
  have hinit : ProcessorSql.Init Example.env
      { Example.strict with Script := "select id as x from t where id != 0" } =
      genPredicateOper Example.env
        (genProjectOper Example.env
          { Example.strict with
            Script := "select id as x from t where id != 0", Plan := ⟨none, none⟩ }
          Example.selectId).1 Example.selectId := by
    rw [ProcessorSql.Init]
    simp only [hparse]
    rfl
  rw [hinit]
  exact ⟨hparse, h.2.1, h.2.2.1, h.2.2.2.1, h.2.2.2.2⟩

/-! ## Projection -/

/-- Looking a key up after every binding of `key` was replaced by `value`. -/
theorem lookup_rebind (entries : List (String × String)) (key value k : String) :
    (entries.map (fun e => if e.1 == key then (key, value) else e)).lookup k =
      if k = key then (entries.lookup k).map (fun _ => value) else entries.lookup k := by
  induction entries with
  | nil => simp
  | cons e es ih =>
    obtain ⟨a, b⟩ := e
    rw [List.map_cons]
    by_cases ha : a = key
    · subst ha
      have hb0 : (a == a) = true := by simp
      simp only [hb0, if_true, List.lookup_cons]
      rw [ih]
      by_cases hk : k = a
      · subst hk
        simp
      · have hb : (k == a) = false := by simpa using hk
        simp [hk, hb]
    · have hb : (a == key) = false := by simpa using ha
      simp only [hb, Bool.false_eq_true, if_false, List.lookup_cons]
      rw [ih]
      by_cases hk : k = a
      · subst hk
        simp [ha]
      · have hb2 : (k == a) = false := by simpa using hk
        simp [hb2]

/-- After `Add(key, value)` the key reads as `value`. -/
theorem KeyValues.Get_Add_self (kv : KeyValues) (key value : String) :
    (kv.Add key value).Get key = value ∧ (kv.Add key value).Contains key = true := by
  by_cases hc : kv.Contains key = true
  · have hs : (kv.entries.lookup key).isSome = true := hc
    obtain ⟨v, hv⟩ := Option.isSome_iff_exists.mp hs
    unfold KeyValues.Add
    rw [if_pos hc]
    simp only [KeyValues.Get, KeyValues.Contains]
    rw [lookup_rebind]
    simp [hv]
  · have hn : kv.entries.lookup key = none := by
      unfold KeyValues.Contains at hc
      cases hl : kv.entries.lookup key with
      | none => rfl
      | some v => simp [hl] at hc
    unfold KeyValues.Add
    rw [if_neg hc]
    simp only [KeyValues.Get, KeyValues.Contains]
    rw [List.lookup_append, hn]
    simp

/-- `Add(key, value)` leaves every other key as it was. -/
theorem KeyValues.Get_Add_of_ne (kv : KeyValues) (key value k : String) (h : k ≠ key) :
    (kv.Add key value).Get k = kv.Get k ∧ (kv.Add key value).Contains k = kv.Contains k := by
  have hb : (k == key) = false := by simpa using h
  by_cases hc : kv.Contains key = true
  · unfold KeyValues.Add
    rw [if_pos hc]
    simp only [KeyValues.Get, KeyValues.Contains]
    rw [lookup_rebind]
    simp [h]
  · unfold KeyValues.Add
    rw [if_neg hc]
    simp only [KeyValues.Get, KeyValues.Contains]
    rw [List.lookup_append]
    cases kv.entries.lookup k <;> simp [List.lookup_cons, hb]

/-- `Add` of a key the record does not contain appends the binding. -/
theorem KeyValues.Add_of_not_mem (entries : List (String × String)) (key value : String)
    (h : key ∉ entries.map Prod.fst) :
    (KeyValues.mk entries).Add key value = ⟨entries ++ [(key, value)]⟩ := by
  have hc : (KeyValues.mk entries).Contains key = false := by
    unfold KeyValues.Contains
    cases hl : entries.lookup key with
    | none => rfl
    | some v =>
      exfalso
      obtain ⟨l₁, l₂, hl2, _⟩ := List.lookup_eq_some_iff.mp hl
      apply h
      rw [hl2]
      simp
  simp [KeyValues.Add, hc]

/-- Bindings added for other keys leave a key as it was. -/
theorem KeyValues.Get_foldl_Add_of_not_mem (bindings : List (String × String))
    (out : KeyValues) (k : String) (h : k ∉ bindings.map Prod.fst) :
    (bindings.foldl (fun o b => o.Add b.1 b.2) out).Get k = out.Get k ∧
    (bindings.foldl (fun o b => o.Add b.1 b.2) out).Contains k = out.Contains k := by
  induction bindings generalizing out with
  | nil => exact ⟨rfl, rfl⟩
  | cons b bs ih =>
    have hb : k ≠ b.1 := fun hk => h (by simp [hk])
    have hbs : k ∉ bs.map Prod.fst := fun hk => h (by simp [hk])
    have h1 := ih (out.Add b.1 b.2) hbs
    have h2 := KeyValues.Get_Add_of_ne out b.1 b.2 k hb
    rw [List.foldl_cons]
    exact ⟨h1.1.trans h2.1, h1.2.trans h2.2⟩

/-- Adding bindings of pairwise distinct new keys, in order, appends them. -/
theorem KeyValues.foldl_Add_of_nodup (keys : List String) (vals : List String)
    (entries : List (String × String)) (hn : keys.Nodup)
    (hd : ∀ k ∈ keys, k ∉ entries.map Prod.fst) :
    (keys.zip vals).foldl (fun o b => o.Add b.1 b.2) (KeyValues.mk entries) =
      ⟨entries ++ keys.zip vals⟩ := by
  induction keys generalizing vals entries with
  | nil => simp
  | cons k ks ih =>
    cases vals with
    | nil => simp
    | cons v vs =>
      have hk : k ∉ entries.map Prod.fst := hd k (List.mem_cons_self k ks)
      have hks : ks.Nodup := (List.nodup_cons.mp hn).2
      have hkn : k ∉ ks := (List.nodup_cons.mp hn).1
      rw [List.zip_cons_cons, List.foldl_cons, KeyValues.Add_of_not_mem entries k v hk,
        ih vs (entries ++ [(k, v)]) hks]
      · simp
      · intro k2 hk2 hmem
        rw [List.map_append, List.mem_append] at hmem
        rcases hmem with hmem | hmem
        · exact hd k2 (List.mem_cons_of_mem k hk2) hmem
        · simp at hmem
          exact hkn (hmem ▸ hk2)

/-- The loop of `project` when every field evaluates without error: the output
is the record built so far with each field's alias bound, in order, to the
field's value. -/
theorem projectLoop_ok (env : Env) (p : ProcessorSql) (fields : List Field_)
    (vals : List String) (out : KeyValues) (content : LogContentType)
    (h : List.Forall₂ (fun f v => getValue env p f.Expr content = .ok v) fields vals) :
    projectLoop env p fields out content =
      .ok (((fields.map (fun f => f.Alias)).zip vals).foldl (fun o b => o.Add b.1 b.2) out) := by
  induction h generalizing out with
  | nil => rfl
  | cons hv _ ih =>
    rw [projectLoop]
    simp only [hv, Result.ok_bind]
    rw [ih]
    rfl

/-- The loop of `project` stops at the first field whose evaluation reports an
error and returns that error. -/
theorem projectLoop_err (env : Env) (p : ProcessorSql) (pre : List Field_) (f : Field_)
    (post : List Field_) (vals : List String) (e : String) (out : KeyValues)
    (content : LogContentType)
    (h : List.Forall₂ (fun f v => getValue env p f.Expr content = .ok v) pre vals)
    (he : getValue env p f.Expr content = .err e) :
    projectLoop env p (pre ++ f :: post) out content = .err e := by
  induction h generalizing out with
  | nil =>
    rw [List.nil_append, projectLoop]
    simp only [he, Result.err_bind]
  | cons hv _ ih =>
    rw [List.cons_append, projectLoop]
    simp only [hv, Result.ok_bind]
    exact ih _

/-- C11, counterexample on the code. `SELECT id AS x, "c" AS x` compiles to the two
fields `id` as `x` and the constant `c` as `x`. On the record `{id: "5"}` both
evaluate without error, to `5` and to `c`, and the output record is
`{x: "c"}`: the alias of the first field is bound to `c`, not to that field's
value `5`. -/
theorem project_repeated_alias :
    (genProjectOper Example.env Example.strict Example.selectRepeatedAlias).2 = .ok () ∧
    (genProjectOper Example.env Example.strict
        Example.selectRepeatedAlias).1.Plan.ProjectOper =
      some ⟨[⟨.Attr_ "id", "x"⟩, ⟨.Const_ "c", "x"⟩]⟩ ∧
    getValue Example.env
      (genProjectOper Example.env Example.strict Example.selectRepeatedAlias).1
      (.Attr_ "id") Example.five = .ok "5" ∧
    getValue Example.env
      (genProjectOper Example.env Example.strict Example.selectRepeatedAlias).1
      (.Const_ "c") Example.five = .ok "c" ∧
    project Example.env
      (genProjectOper Example.env Example.strict Example.selectRepeatedAlias).1
      Example.five = .ok ⟨[("x", "c")]⟩ ∧
    KeyValues.Get ⟨[("x", "c")]⟩ "x" = "c" := by
  have hplan : genProjectOper Example.env Example.strict Example.selectRepeatedAlias =
      ({ Example.strict with
          Plan := ⟨some ⟨[⟨.Attr_ "id", "x"⟩, ⟨.Const_ "c", "x"⟩]⟩, none⟩ }, .ok ()) := rfl
  refine ⟨rfl, rfl, ?_, ?_, ?_, by decide⟩
  · simp [getValue, Example.five, KeyValues.Get, KeyValues.Contains]
  · simp [getValue]
  · rw [hplan]
    simp [project, projectLoop, getValue, Example.five, KeyValues.Get, KeyValues.Contains,
      KeyValues.Add, KeyValues.empty]

/-- C11, amended. `project` on a plan with the fields `fields`. When every field's
expression evaluates without error, to the values `vals` in order, the output
record is the empty record with each field's alias bound, in order, to that
field's value, a later field rebinding an alias an earlier field bound; so a
field whose alias no later field repeats has its alias bound to its value, and
when the aliases are pairwise distinct the output holds exactly the bindings
alias to value, in field order. When the evaluation of some field reports an
error and all fields before it evaluate without error, `project` returns that
error and no record. -/
theorem project_in_order (env : Env) (p : ProcessorSql) (fields : List Field_)
    (content : LogContentType) (hp : p.Plan.ProjectOper = some ⟨fields⟩) :
    (∀ vals : List String,
      List.Forall₂ (fun f v => getValue env p f.Expr content = .ok v) fields vals →
      project env p content =
        .ok (((fields.map (fun f => f.Alias)).zip vals).foldl (fun o b => o.Add b.1 b.2)
          KeyValues.empty) ∧
      ((fields.map (fun f => f.Alias)).Nodup →
        project env p content = .ok ⟨(fields.map (fun f => f.Alias)).zip vals⟩) ∧
      (∀ (pre : List Field_) (f : Field_) (post : List Field_) (vpre : List String)
        (v : String) (vpost : List String),
        fields = pre ++ f :: post → vals = vpre ++ v :: vpost → pre.length = vpre.length →
        (∀ g ∈ post, g.Alias ≠ f.Alias) →
        ∃ out, project env p content = .ok out ∧ out.Get f.Alias = v ∧
          out.Contains f.Alias = true)) ∧
    (∀ (pre : List Field_) (f : Field_) (post : List Field_) (vals : List String) (e : String),
      fields = pre ++ f :: post →
      List.Forall₂ (fun f v => getValue env p f.Expr content = .ok v) pre vals →
      getValue env p f.Expr content = .err e →
      project env p content = .err e) := by
  have hproj : project env p content = projectLoop env p fields KeyValues.empty content := by
    simp [project, hp]
  rw [hproj]
  refine ⟨fun vals hvals => ⟨projectLoop_ok env p fields vals _ content hvals, ?_, ?_⟩, ?_⟩
  · intro hn
    rw [projectLoop_ok env p fields vals _ content hvals]
    have h := KeyValues.foldl_Add_of_nodup (fields.map (fun f => f.Alias)) vals [] hn
      (by simp)
    rw [List.nil_append] at h
    exact congrArg Result.ok h
  · intro pre f post vpre v vpost hf hv hlen hpost
    refine ⟨_, projectLoop_ok env p fields vals _ content hvals, ?_⟩
    have hlen2 : (pre.map (fun f => f.Alias)).length = vpre.length := by
      simpa using hlen
    have hnot : f.Alias ∉
        ((post.map (fun f => f.Alias)).zip vpost).map Prod.fst := by
      intro hmem
      obtain ⟨b, hb, hbk⟩ := List.mem_map.mp hmem
      have hb1 : b.1 ∈ post.map (fun f => f.Alias) := by
        obtain ⟨k, w⟩ := b
        exact (List.of_mem_zip hb).1
      obtain ⟨g, hg, hgk⟩ := List.mem_map.mp hb1
      exact hpost g hg (hgk.trans hbk)
    subst hf hv
    rw [List.map_append, List.map_cons, List.zip_append hlen2, List.zip_cons_cons,
      List.foldl_append, List.foldl_cons]
    have h1 := KeyValues.Get_foldl_Add_of_not_mem _
      ((((pre.map (fun f => f.Alias)).zip vpre).foldl (fun o b => o.Add b.1 b.2)
        KeyValues.empty).Add f.Alias v) f.Alias hnot
    have h2 := KeyValues.Get_Add_self
      (((pre.map (fun f => f.Alias)).zip vpre).foldl (fun o b => o.Add b.1 b.2)
        KeyValues.empty) f.Alias v
    exact ⟨h1.1.trans h2.1, h1.2.trans h2.2⟩
  · intro pre f post vals e hf hvals he
    subst hf
    exact projectLoop_err env p pre f post vals e _ content hvals he

theorem project_in_order_witness :
    project Example.env
      { Example.strict with
        Plan := ⟨some ⟨[⟨.Attr_ "id", "x"⟩, ⟨.Const_ "c", "y"⟩]⟩, none⟩ }
      Example.five = .ok ⟨[("x", "5"), ("y", "c")]⟩ ∧
    project Example.env
      { Example.strict with
        Plan := ⟨some ⟨[⟨.Attr_ "id", "x"⟩, ⟨.Attr_ "missing", "m"⟩, ⟨.Const_ "c", "y"⟩]⟩,
          none⟩ }
      Example.five = .err (attributeNotFound "missing") := by
  have hid : ∀ p : ProcessorSql,
      getValue Example.env p (.Attr_ "id") Example.five = .ok "5" := by
    intro p
    simp [getValue, Example.five, KeyValues.Get, KeyValues.Contains]
  have hc : ∀ p : ProcessorSql,
      getValue Example.env p (.Const_ "c") Example.five = .ok "c" := by
    intro p
    simp [getValue]
  have h1 := (project_in_order Example.env
    { Example.strict with
      Plan := ⟨some ⟨[⟨.Attr_ "id", "x"⟩, ⟨.Const_ "c", "y"⟩]⟩, none⟩ }
    [⟨.Attr_ "id", "x"⟩, ⟨.Const_ "c", "y"⟩] Example.five rfl).1 ["5", "c"]
    (List.Forall₂.cons (hid _) (List.Forall₂.cons (hc _) List.Forall₂.nil))
  have h2 := (project_in_order Example.env
    { Example.strict with
      Plan := ⟨some ⟨[⟨.Attr_ "id", "x"⟩, ⟨.Attr_ "missing", "m"⟩, ⟨.Const_ "c", "y"⟩]⟩,
        none⟩ }
    [⟨.Attr_ "id", "x"⟩, ⟨.Attr_ "missing", "m"⟩, ⟨.Const_ "c", "y"⟩] Example.five rfl).2
    [⟨.Attr_ "id", "x"⟩] ⟨.Attr_ "missing", "m"⟩ [⟨.Const_ "c", "y"⟩] ["5"]
    (attributeNotFound "missing") rfl
    (List.Forall₂.cons (hid _) List.Forall₂.nil)
    (by
      simp [getValue, Example.five, Example.strict, newProcessorSql, KeyValues.Get,
        KeyValues.Contains]
      rfl)
  exact ⟨h1.2.1 (by decide), h2⟩

/-! ## Truthiness of a bare expression -/

/-- C12. For a leaf condition whose right operand is the `None_` sentinel: when the
left operand evaluates without error to `v`, the comparator `=` gives
`isZeroNumber v` and the comparator `!=` gives its negation, with no error;
when the left operand's evaluation reports an error, that error is returned.
`traverse` gives the same on such a node as long as the left operand is not
itself a condition (or nil). A bare column lowers to such a node with `!=`
and a negated one to such a node with `=`. -/
theorem evaluateCondition_none (env : Env) (p : ProcessorSql) (left : Expr_)
    (pre : Option Regexp) (content : LogContentType) :
    (∀ v : String, getValue env p left content = .ok v →
      evaluateCondition env p (.mk left .None_ ⟨Eq, pre⟩) content =
        .ok (env.isZeroNumber v) ∧
      evaluateCondition env p (.mk left .None_ ⟨Neq, pre⟩) content =
        .ok (!env.isZeroNumber v)) ∧
    (∀ e : String, getValue env p left content = .err e →
      evaluateCondition env p (.mk left .None_ ⟨Eq, pre⟩) content = .err e ∧
      evaluateCondition env p (.mk left .None_ ⟨Neq, pre⟩) content = .err e) ∧
    (∀ (lt : ExprType) (comp : Comp_), left.GetType = .ok lt → lt ≠ CondType →
      traverse env p (.mk left .None_ comp) content =
        evaluateCondition env p (.mk left .None_ comp) content) ∧
    (∀ name : String,
      genExpr env (.ColName name) = .ok (.Cond_ (.mk (.Attr_ name) .None_ ⟨Neq, none⟩)) ∧
      genExpr env (.NotExpr (.ColName name)) =
        .ok (.Cond_ (.mk (.Attr_ name) .None_ ⟨Eq, none⟩))) := by
  refine ⟨fun v hv => ?_, fun e he => ?_, fun lt comp hl hlt => ?_, fun name => ⟨rfl, rfl⟩⟩
  · constructor
    · rw [evaluateCondition]
      simp [hv]
    · rw [evaluateCondition]
      simp [hv, Neq, Eq]
  · constructor
    · rw [evaluateCondition]
      simp [he]
    · rw [evaluateCondition]
      simp [he]
  · exact traverse_leaf env p left .None_ comp content lt NoneType hl rfl hlt (by decide)

theorem evaluateCondition_none_witness :
    evaluateCondition Example.env Example.strict Example.idFalsy Example.zero = .ok true ∧
    evaluateCondition Example.env Example.strict Example.idTruthy Example.zero = .ok false ∧
    evaluateCondition Example.env Example.strict Example.idTruthy Example.five = .ok true ∧
    evaluateCondition Example.env Example.strict (.mk (.Attr_ "missing") .None_ ⟨Neq, none⟩)
      Example.five = .err (attributeNotFound "missing") := by
  have h0 : getValue Example.env Example.strict (.Attr_ "id") Example.zero = .ok "0" := by
    simp [getValue, Example.zero, KeyValues.Get, KeyValues.Contains]
  have h5 : getValue Example.env Example.strict (.Attr_ "id") Example.five = .ok "5" := by
    simp [getValue, Example.five, KeyValues.Get, KeyValues.Contains]
  have hm : getValue Example.env Example.strict (.Attr_ "missing") Example.five =
      .err (attributeNotFound "missing") := by
    simp [getValue, Example.five, Example.strict, newProcessorSql, KeyValues.Get,
      KeyValues.Contains]
    rfl
  have z0 : Example.env.isZeroNumber "0" = true := by decide
  have z5 : Example.env.isZeroNumber "5" = false := by decide
  have a := (evaluateCondition_none Example.env Example.strict (.Attr_ "id") none
    Example.zero).1 "0" h0
  have b := (evaluateCondition_none Example.env Example.strict (.Attr_ "id") none
    Example.five).1 "5" h5
  have c := (evaluateCondition_none Example.env Example.strict (.Attr_ "missing") none
    Example.five).2.1 (attributeNotFound "missing") hm
  rw [z0] at a
  rw [z5] at b
  exact ⟨a.1, a.2, b.2, c.2⟩

/-! ## Function calls -/

/-- The loop of `evaluteFunc` appends one string per argument, in order, when
every argument resolves without error. -/
theorem evaluteFuncLoop_ok (env : Env) (p : ProcessorSql) (items : List Expr_)
    (vals : List String) (param : List String) (content : LogContentType)
    (h : List.Forall₂ (fun item v => argumentValue env p content item = some (.ok v))
      items vals) :
    evaluteFuncLoop env p items param content = .ok (param ++ vals) := by
  induction h generalizing param with
  | nil => rw [evaluteFuncLoop]; simp
  | @cons item v rest vs hv _ ih =>
    cases item with
    | Attr_ name =>
      simp only [argumentValue, Option.some.injEq] at hv
      rw [getValue] at hv
      rw [evaluteFuncLoop]
      by_cases hc : content.Get name = "" ∧ p.NoKeyError = true ∧ content.Contains name = false
      · simp [hc] at hv
      · simp only [hc, if_false, Result.ok.injEq] at hv
        simp only [hc, if_false]
        rw [ih, hv]
        simp
    | Const_ value =>
      simp only [argumentValue, Option.some.injEq, Result.ok.injEq] at hv
      rw [evaluteFuncLoop, ih, hv]
      simp
    | Func_ ps f =>
      simp only [argumentValue, Option.some.injEq] at hv
      rw [evaluteFuncLoop]
      simp only [hv, Result.ok_bind]
      rw [ih]
      simp
    | Cond_ c =>
      simp only [argumentValue] at hv
      rw [evaluteFuncLoop]
      cases ht : traverse env p c content with
      | ok b =>
        simp only [ht, Option.some.injEq, Result.ok.injEq] at hv
        simp only [Result.ok_bind]
        rw [ih, ← hv]
        simp [FormatBool]
      | err e => simp [ht] at hv
      | panic e => simp [ht] at hv
    | nil => simp [argumentValue] at hv
    | Case_ c => simp [argumentValue] at hv
    | None_ => simp [argumentValue] at hv

/-- The loop of `evaluteFunc` stops at the first argument whose resolution
reports an error and returns that error. -/
theorem evaluteFuncLoop_err (env : Env) (p : ProcessorSql) (pre : List Expr_) (item : Expr_)
    (post : List Expr_) (vals : List String) (e : String) (param : List String)
    (content : LogContentType)
    (h : List.Forall₂ (fun item v => argumentValue env p content item = some (.ok v))
      pre vals)
    (he : argumentValue env p content item = some (.err e)) :
    evaluteFuncLoop env p (pre ++ item :: post) param content = .err e := by
  have hsplit : evaluteFuncLoop env p (pre ++ item :: post) param content =
      evaluteFuncLoop env p (item :: post) (param ++ vals) content := by
    induction h generalizing param with
    | nil => simp
    | @cons x v rest vs hv _ ih =>
      have hone := evaluteFuncLoop_ok env p [x] [v] param content
        (List.Forall₂.cons hv List.Forall₂.nil)
      rw [List.cons_append]
      have hstep : ∀ tl : List Expr_, evaluteFuncLoop env p (x :: tl) param content =
          evaluteFuncLoop env p tl (param ++ [v]) content := by
        intro tl
        cases x with
        | Attr_ name =>
          simp only [argumentValue, Option.some.injEq] at hv
          rw [getValue] at hv
          rw [evaluteFuncLoop]
          by_cases hc : content.Get name = "" ∧ p.NoKeyError = true ∧
              content.Contains name = false
          · simp [hc] at hv
          · simp only [hc, if_false, Result.ok.injEq] at hv
            simp only [hc, if_false]
            rw [hv]
        | Const_ value =>
          simp only [argumentValue, Option.some.injEq, Result.ok.injEq] at hv
          rw [evaluteFuncLoop, hv]
        | Func_ ps f =>
          simp only [argumentValue, Option.some.injEq] at hv
          rw [evaluteFuncLoop]
          simp only [hv, Result.ok_bind]
        | Cond_ c =>
          simp only [argumentValue] at hv
          rw [evaluteFuncLoop]
          cases ht : traverse env p c content with
          | ok b =>
            simp only [ht, Option.some.injEq, Result.ok.injEq] at hv
            simp only [Result.ok_bind]
            rw [← hv]
            simp [FormatBool]
          | err e => simp [ht] at hv
          | panic e => simp [ht] at hv
        | nil => simp [argumentValue] at hv
        | Case_ c => simp [argumentValue] at hv
        | None_ => simp [argumentValue] at hv
      rw [hstep, ih]
      simp
  rw [hsplit]
  cases item with
  | Attr_ name =>
    simp only [argumentValue, Option.some.injEq] at he
    rw [getValue] at he
    rw [evaluteFuncLoop]
    by_cases hc : content.Get name = "" ∧ p.NoKeyError = true ∧ content.Contains name = false
    · simp only [hc, and_self, if_true, Result.err.injEq] at he
      simp [hc, he]
    · simp [hc] at he
  | Const_ value => simp [argumentValue] at he
  | Func_ ps f =>
    simp only [argumentValue, Option.some.injEq] at he
    rw [evaluteFuncLoop]
    simp only [he, Result.err_bind]
  | Cond_ c =>
    simp only [argumentValue] at he
    rw [evaluteFuncLoop]
    cases ht : traverse env p c content with
    | ok b => simp [ht] at he
    | err e2 =>
      simp only [ht, Option.some.injEq, Result.err.injEq] at he
      simp [he]
    | panic e2 => simp [ht] at he
  | nil => simp [argumentValue] at he
  | Case_ c => simp [argumentValue] at he
  | None_ => simp [argumentValue] at he

/-- C13. `evaluteFunc` (and `getValue`) on a function call whose parameters are
attributes, constants, nested function calls or conditions. When every
parameter resolves without error, to the strings `vals` in parameter order
(the record value for an attribute, the literal for a constant, the result of
`evaluteFunc` for a nested call, `"true"` or `"false"` for a condition
according to `traverse`), there is exactly one string per parameter and the
outcome of the call is the outcome of the bound function's `Process` on
`vals`, its error included. When the resolution of some parameter reports an
error and all parameters before it resolve, the call returns that error. -/
theorem evaluteFunc_arguments (env : Env) (p : ProcessorSql) (items : List Expr_)
    (function : Function) (content : LogContentType) :
    (∀ vals : List String,
      List.Forall₂ (fun item v => argumentValue env p content item = some (.ok v))
        items vals →
      vals.length = items.length ∧
      evaluteFunc env p (.Func_ items function) content = function.process vals ∧
      getValue env p (.Func_ items function) content = function.process vals ∧
      (∀ e : String, function.process vals = .err e →
        evaluteFunc env p (.Func_ items function) content = .err e)) ∧
    (∀ (pre : List Expr_) (item : Expr_) (post : List Expr_) (vals : List String)
      (e : String),
      items = pre ++ item :: post →
      List.Forall₂ (fun item v => argumentValue env p content item = some (.ok v))
        pre vals →
      argumentValue env p content item = some (.err e) →
      evaluteFunc env p (.Func_ items function) content = .err e ∧
      getValue env p (.Func_ items function) content = .err e) := by
  have hget : getValue env p (.Func_ items function) content =
      evaluteFunc env p (.Func_ items function) content := by
    rw [getValue]
  rw [hget]
  constructor
  · intro vals hvals
    have hcall : evaluteFunc env p (.Func_ items function) content =
        function.process vals := by
      rw [evaluteFunc, evaluteFuncLoop_ok env p items vals [] content hvals]
      simp only [List.nil_append, Result.ok_bind]
      cases function.process vals <;> rfl
    refine ⟨hvals.length_eq.symm, hcall, hcall, fun e he => ?_⟩
    rw [hcall, he]
  · intro pre item post vals e hitems hpre he
    subst hitems
    have hcall : evaluteFunc env p (.Func_ (pre ++ item :: post) function) content =
        .err e := by
      rw [evaluteFunc, evaluteFuncLoop_err env p pre item post vals e [] content hpre he]
      rfl
    exact ⟨hcall, hcall⟩

theorem evaluteFunc_arguments_witness :
    getValue Example.env Example.strict
      (.Func_ [.Cond_ Example.idTruthy, .Const_ "NULL", .Attr_ "id"]
        (Aes_encrypt.creator Example.crypto)) Example.five =
      (Aes_encrypt.creator Example.crypto).process ["true", "NULL", "5"] ∧
    (Aes_encrypt.creator Example.crypto).process ["true", "NULL", "5"] = .ok "NULL" ∧
    getValue Example.env Example.strict
      (.Func_ [.Const_ "a", .Attr_ "missing", .Const_ "b"]
        (Aes_encrypt.creator Example.crypto)) Example.five =
      .err (attributeNotFound "missing") := by
  have ht : traverse Example.env Example.strict Example.idTruthy Example.five = .ok true := by
    simp [traverse, evaluateCondition, getValue, Example.idTruthy, Example.five, Cond_.Lexpr,
      Cond_.Rexpr, Expr_.GetType, KeyValues.Get, KeyValues.Contains, AttrType, NoneType,
      CondType, Neq, Eq, Example.env]
    decide
  have h5 : getValue Example.env Example.strict (.Attr_ "id") Example.five = .ok "5" := by
    simp [getValue, Example.five, KeyValues.Get, KeyValues.Contains]
  have hm : getValue Example.env Example.strict (.Attr_ "missing") Example.five =
      .err (attributeNotFound "missing") := by
    simp [getValue, Example.five, Example.strict, newProcessorSql, KeyValues.Get,
      KeyValues.Contains]
    rfl
  have h1 := (evaluteFunc_arguments Example.env Example.strict
    [.Cond_ Example.idTruthy, .Const_ "NULL", .Attr_ "id"]
    (Aes_encrypt.creator Example.crypto) Example.five).1 ["true", "NULL", "5"]
    (List.Forall₂.cons (by simp [argumentValue, ht])
      (List.Forall₂.cons rfl
        (List.Forall₂.cons (by simp [argumentValue, h5]) List.Forall₂.nil)))
  have h2 := (evaluteFunc_arguments Example.env Example.strict
    [.Const_ "a", .Attr_ "missing", .Const_ "b"]
    (Aes_encrypt.creator Example.crypto) Example.five).2
    [.Const_ "a"] (.Attr_ "missing") [.Const_ "b"] ["a"] (attributeNotFound "missing") rfl
    (List.Forall₂.cons rfl List.Forall₂.nil) (by simp [argumentValue, hm])
  exact ⟨h1.2.2.1, by decide, h2.2⟩

/-! ## aes_encrypt -/

/-- C14. `Process` called with at least two parameters of which the first or the
second is the string `"NULL"` returns `"NULL"` with no error, whatever the state
of the object. -/
theorem Aes_encrypt.Process_NULL (crypto : Crypto) (f : Aes_encrypt) (first second : String)
    (rest : List String) (h : first = "NULL" ∨ second = "NULL") :
    Aes_encrypt.Process crypto f (first :: second :: rest) = .ok "NULL" ∧
    (Aes_encrypt.toFunction crypto f).process (first :: second :: rest) = .ok "NULL" := by
  have hp : Aes_encrypt.Process crypto f (first :: second :: rest) = .ok "NULL" := by
    unfold Aes_encrypt.Process
    rcases h with h | h <;> simp [h]
  exact ⟨hp, hp⟩

theorem Aes_encrypt.Process_NULL_witness :
    Aes_encrypt.Process Example.crypto Aes_encrypt.zero
      ["NULL", "0000000000000000000000000000000000000000000000000000000000000000"]
      = .ok "NULL" ∧
    Aes_encrypt.Process Example.crypto Aes_encrypt.zero ["0123456", "NULL", "extra"]
      = .ok "NULL" :=
  ⟨(Aes_encrypt.Process_NULL Example.crypto Aes_encrypt.zero "NULL"
      "0000000000000000000000000000000000000000000000000000000000000000" []
      (Or.inl rfl)).1,
    (Aes_encrypt.Process_NULL Example.crypto Aes_encrypt.zero "0123456" "NULL" ["extra"]
      (Or.inr rfl)).1⟩

/-- C15. `Process` called with fewer than two parameters returns the error
`aes_encrypt: need at least 2 parameters` (with the empty string, as every
error return), whatever the state of the object and whatever the parameter,
a single `"NULL"` included. -/
theorem Aes_encrypt.Process_too_few (crypto : Crypto) (f : Aes_encrypt) (param : List String)
    (h : param.length < 2) :
    Aes_encrypt.Process crypto f param = .err "aes_encrypt: need at least 2 parameters" ∧
    (Aes_encrypt.toFunction crypto f).process param =
      .err "aes_encrypt: need at least 2 parameters" := by
  have hp : Aes_encrypt.Process crypto f param =
      .err "aes_encrypt: need at least 2 parameters" := by
    unfold Aes_encrypt.Process
    simp [h]
  exact ⟨hp, hp⟩

theorem Aes_encrypt.Process_too_few_witness :
    Aes_encrypt.Process Example.crypto Aes_encrypt.zero ["hello"] =
      .err "aes_encrypt: need at least 2 parameters" ∧
    Aes_encrypt.Process Example.crypto Aes_encrypt.zero ["NULL"] =
      .err "aes_encrypt: need at least 2 parameters" ∧
    Aes_encrypt.Process Example.crypto Aes_encrypt.zero [] =
      .err "aes_encrypt: need at least 2 parameters" :=
  ⟨(Aes_encrypt.Process_too_few Example.crypto Aes_encrypt.zero ["hello"] (by decide)).1,
    (Aes_encrypt.Process_too_few Example.crypto Aes_encrypt.zero ["NULL"] (by decide)).1,
    (Aes_encrypt.Process_too_few Example.crypto Aes_encrypt.zero [] (by decide)).1⟩

/-- `hex.Decode` returns no error exactly on an even number of hexadecimal digits. -/
theorem hex.Decode_ok_iff : ∀ (src dst : List Nat),
    (hex.Decode src dst).2 = none ↔
      (src.length % 2 = 0 ∧ ∀ b ∈ src, (hex.fromHexChar b).isSome = true)
  | [], dst => by simp [hex.Decode]
  | [p], dst => by
    cases hp : hex.fromHexChar p <;> simp [hex.Decode, hp]
  | p :: q :: rest, dst => by
    cases hp : hex.fromHexChar p with
    | none => simp [hex.Decode, hp]
    | some a =>
      cases hq : hex.fromHexChar q with
      | none => simp [hex.Decode, hp, hq]
      | some b =>
        have ih := hex.Decode_ok_iff rest (dst ++ [a * 16 + b])
        simp only [hex.Decode, hp, hq]
        rw [ih]
        simp only [List.length_cons, List.mem_cons, forall_eq_or_imp, hp, hq,
          Option.isSome_some, true_and]
        constructor <;> (rintro ⟨h1, h2⟩; exact ⟨by omega, h2⟩)

/-- When `hex.Decode` returns no error it has decoded one byte per two digits. -/
theorem hex.Decode_length : ∀ (src dst : List Nat), (hex.Decode src dst).2 = none →
    (hex.Decode src dst).1.length = dst.length + src.length / 2
  | [], dst => by simp [hex.Decode]
  | [p], dst => by
    cases hp : hex.fromHexChar p <;> simp [hex.Decode, hp]
  | p :: q :: rest, dst => by
    cases hp : hex.fromHexChar p with
    | none => simp [hex.Decode, hp]
    | some a =>
      cases hq : hex.fromHexChar q with
      | none => simp [hex.Decode, hp, hq]
      | some b =>
        have ih := hex.Decode_length rest (dst ++ [a * 16 + b])
        simp only [hex.Decode, hp, hq]
        intro h
        rw [ih h]
        simp only [List.length_append, List.length_cons, List.length_nil]
        omega

/-- `parseKey` returns no error exactly when the key decodes without error to
16, 24 or 32 bytes, and it then sets the block size to 16. -/
theorem Aes_encrypt.parseKey_ok_iff (f : Aes_encrypt) (key : String) :
    ((f.parseKey key).2 = none ↔
      ((hex.DecodeString key).2 = none ∧
        ((hex.DecodeString key).1.length = 16 ∨ (hex.DecodeString key).1.length = 24 ∨
          (hex.DecodeString key).1.length = 32))) ∧
    ((f.parseKey key).2 = none → (f.parseKey key).1.blockSize = 16) := by
  unfold Aes_encrypt.parseKey
  cases hd : (hex.DecodeString key).2 with
  | some e => simp [hd]
  | none =>
    unfold aes.NewCipher
    by_cases hk : (hex.DecodeString key).1.length = 16 ∨
        (hex.DecodeString key).1.length = 24 ∨ (hex.DecodeString key).1.length = 32
    · simp [hd, hk, aes.BlockSize]
    · simp [hd, hk]

/-- `parseIV` returns no error on an object whose block size is 16. -/
theorem Aes_encrypt.parseIV_ok (f : Aes_encrypt) (h : f.blockSize = 16) :
    f.parseIV.2 = none := by
  have hiv : hex.DecodeString (String.mk (List.replicate (16 * 2) '0')) =
      (List.replicate 16 0, none) := by decide
  unfold Aes_encrypt.parseIV
  simp only [hiv, h]
  rfl

/-- C16. `Init` returns no error exactly when it receives at least two parameters
and `hex.DecodeString` decodes the second one without error to a key of 16,
24 or 32 bytes, that is, when the second parameter consists of 32, 48 or 64
hexadecimal digits; in every other case it returns an error. This holds
whatever the state of the object before the call. `Init("aes_encrypt", key)`
with a key of 64 zero digits succeeds. -/
theorem Aes_encrypt.Init_ok_iff (f : Aes_encrypt) (param : List String) :
    ((f.Init param).2 = none ↔
      (2 ≤ param.length ∧ (hex.DecodeString (param.getD 1 "")).2 = none ∧
        ((hex.DecodeString (param.getD 1 "")).1.length = 16 ∨
          (hex.DecodeString (param.getD 1 "")).1.length = 24 ∨
          (hex.DecodeString (param.getD 1 "")).1.length = 32))) ∧
    ((f.Init param).2 = none ↔
      (2 ≤ param.length ∧
        (∀ b ∈ stringBytes (param.getD 1 ""), (hex.fromHexChar b).isSome = true) ∧
        ((stringBytes (param.getD 1 "")).length = 32 ∨
          (stringBytes (param.getD 1 "")).length = 48 ∨
          (stringBytes (param.getD 1 "")).length = 64))) ∧
    ((Aes_encrypt.zero.Init
      ["aes_encrypt",
        "0000000000000000000000000000000000000000000000000000000000000000"]).2 = none) := by
  generalize hkey : param.getD 1 "" = key
  have h1 : (f.Init param).2 = none ↔
      (2 ≤ param.length ∧ (hex.DecodeString key).2 = none ∧
        ((hex.DecodeString key).1.length = 16 ∨ (hex.DecodeString key).1.length = 24 ∨
          (hex.DecodeString key).1.length = 32)) := by
    unfold Aes_encrypt.Init
    by_cases hlen : param.length < 2
    · rw [if_pos hlen]
      constructor
      · intro h
        cases h
      · rintro ⟨h, _⟩
        omega
    · have hlen2 : 2 ≤ param.length := by omega
      rw [if_neg hlen, hkey]
      have hpk := Aes_encrypt.parseKey_ok_iff f key
      rcases hres : f.parseKey key with ⟨f1, e1⟩
      rw [hres] at hpk
      cases e1 with
      | some e =>
        constructor
        · intro h
          cases h
        · intro h
          have hn := hpk.1.mpr h.2
          cases hn
      | none =>
        have hb : f1.blockSize = 16 := hpk.2 rfl
        have hiv := Aes_encrypt.parseIV_ok f1 hb
        rcases hres2 : f1.parseIV with ⟨f2, e2⟩
        rw [hres2] at hiv
        simp only at hiv
        subst hiv
        exact ⟨fun _ => ⟨hlen2, hpk.1.mp rfl⟩, fun _ => by simp [hres2]⟩
  refine ⟨h1, ?_, by decide⟩
  rw [h1]
  unfold hex.DecodeString
  constructor
  · rintro ⟨hlen, hd, hk⟩
    have hl := hex.Decode_length _ _ hd
    have ho := (hex.Decode_ok_iff _ _).mp hd
    rw [hl] at hk
    simp only [List.length_nil, Nat.zero_add] at hk
    refine ⟨hlen, ho.2, ?_⟩
    omega
  · rintro ⟨hlen, hall, hk⟩
    have hd : (hex.Decode (stringBytes key) []).2 = none :=
      (hex.Decode_ok_iff _ _).mpr ⟨by omega, hall⟩
    have hl := hex.Decode_length _ _ hd
    refine ⟨hlen, hd, ?_⟩
    rw [hl]
    simp only [List.length_nil, Nat.zero_add]
    omega

theorem Aes_encrypt.Init_ok_iff_witness :
    (Aes_encrypt.zero.Init ["aes_encrypt", "000102030405060708090a0b0c0d0e0f"]).2 = none ∧
    (Aes_encrypt.zero.Init ["aes_encrypt", "00"]).2 =
      some "aes_encrypt create cipher with key error: crypto/aes: invalid key size 1" ∧
    (Aes_encrypt.zero.Init ["aes_encrypt", "xyz"]).2.isSome = true ∧
    (Aes_encrypt.zero.Init ["aes_encrypt"]).2 =
      some "aes_encrypt: need at least 2 parameters" :=
  ⟨(Aes_encrypt.Init_ok_iff Aes_encrypt.zero
      ["aes_encrypt", "000102030405060708090a0b0c0d0e0f"]).2.1.mpr
        ⟨by decide, by decide, by decide⟩,
    by decide, by decide, by decide⟩

/-! ## CASE branches -/

/-- On a node whose two children are conditions `evaluateCondition` reports
`unknown expression type`, whatever the comparator and the record. -/
theorem evaluateCondition_of_conditions (env : Env) (p : ProcessorSql) (l r : Cond_)
    (comp : Comp_) (content : LogContentType) :
    evaluateCondition env p (.mk (.Cond_ l) (.Cond_ r) comp) content =
      .err "unknown expression type" := by
  rw [evaluateCondition]
  simp [getValue]
  intro h
  cases h

/-- C17, on the code. `CASE WHEN a = 1 AND b = 2 THEN "x" ELSE "y" END AS r` compiles
to a CASE whose one branch has the condition `a = 1 AND b = 2`. On the record
`{a: "1", b: "2"}` predicate evaluation (`traverse`) of that condition returns
true with no error, but projecting the CASE reports the error
`unknown expression type` instead of taking the branch; on `{a: "1", b: "3"}`
`traverse` returns false and the projection reports the same error. -/
theorem evaluateCase_and_branch_errors :
    (genProjectOper Example.env Example.strict ⟨[Example.caseWhenAnd], none⟩).2 = .ok () ∧
    (genProjectOper Example.env Example.strict
        ⟨[Example.caseWhenAnd], none⟩).1.Plan.ProjectOper =
      some ⟨[⟨.Case_ (.mk [Example.aAndB] [.Const_ "x"] (.Const_ "y")), "r"⟩]⟩ ∧
    traverse Example.env Example.strict Example.aAndB ⟨[("a", "1"), ("b", "2")]⟩ = .ok true ∧
    getValue Example.env Example.strict
      (.Case_ (.mk [Example.aAndB] [.Const_ "x"] (.Const_ "y")))
      ⟨[("a", "1"), ("b", "2")]⟩ = .err "unknown expression type" ∧
    project Example.env
      (genProjectOper Example.env Example.strict ⟨[Example.caseWhenAnd], none⟩).1
      ⟨[("a", "1"), ("b", "2")]⟩ = .err "unknown expression type" ∧
    traverse Example.env Example.strict Example.aAndB ⟨[("a", "1"), ("b", "3")]⟩ = .ok false ∧
    project Example.env
      (genProjectOper Example.env Example.strict ⟨[Example.caseWhenAnd], none⟩).1
      ⟨[("a", "1"), ("b", "3")]⟩ = .err "unknown expression type" := by
  have hplan : genProjectOper Example.env Example.strict ⟨[Example.caseWhenAnd], none⟩ =
      ({ Example.strict with
          Plan := ⟨some ⟨[⟨.Case_ (.mk [Example.aAndB] [.Const_ "x"] (.Const_ "y")), "r"⟩]⟩,
            none⟩ }, .ok ()) := rfl
  have hcase : ∀ (p : ProcessorSql) (content : LogContentType),
      getValue Example.env p
        (.Case_ (.mk [Example.aAndB] [.Const_ "x"] (.Const_ "y"))) content =
        .err "unknown expression type" := by
    intro p content
    rw [getValue, evaluateCase, evaluateCaseLoop, Example.aAndB,
      evaluateCondition_of_conditions]
    rfl
  have hproj : ∀ content : LogContentType,
      project Example.env
        (genProjectOper Example.env Example.strict ⟨[Example.caseWhenAnd], none⟩).1 content =
        .err "unknown expression type" := by
    intro content
    rw [hplan]
    simp only [project, projectLoop, hcase, Result.err_bind]
  refine ⟨rfl, rfl, ?_, hcase _ _, hproj _, ?_, hproj _⟩
  · simp [traverse, evaluateConditionPairs, evaluateCondition, evaluateCompare, getValue,
      Example.aAndB, Cond_.Lexpr, Cond_.Rexpr, Expr_.GetType, KeyValues.Get,
      KeyValues.Contains, AttrType, ConstType, CondType, Eq, And]
    decide
  · simp [traverse, evaluateConditionPairs, evaluateCondition, evaluateCompare, getValue,
      Example.aAndB, Cond_.Lexpr, Cond_.Rexpr, Expr_.GetType, KeyValues.Get,
      KeyValues.Contains, AttrType, ConstType, CondType, Eq, And]
    decide

/-- C18, on the code. The simple form `CASE a WHEN 1 THEN b ELSE c END AS r` compiles
to a CASE whose THEN is the attribute `b` and whose ELSE is the attribute `c`.
The searched form `CASE WHEN a = 1 THEN b ELSE c END AS r` does not compile:
`genProjectOper` faults in the type assertion of the THEN expression to
`*sqlparser.SQLVal`, and with a literal THEN it faults in the same assertion
on the ELSE expression. -/
theorem genProjectOper_searched_case_faults :
    (genProjectLoop Example.env [Example.caseColumns] []).2 = .ok () ∧
    (genProjectLoop Example.env [Example.caseColumns] []).1 =
      [⟨.Case_ (.mk [.mk (.Attr_ "a") (.Const_ "1") ⟨Eq, none⟩] [.Attr_ "b"] (.Attr_ "c")),
        "r"⟩] ∧
    (genProjectOper Example.env Example.strict ⟨[Example.caseWhenColumns], none⟩).2 =
      .panic "interface conversion: sqlparser.Expr is *sqlparser.ColName, not *sqlparser.SQLVal" ∧
    genCase Example.env none
        [.mk (.ComparisonExpr "=" (.ColName "a") (.SQLVal "1")) (.ColName "b")]
        (some (.ColName "c")) =
      .panic "interface conversion: sqlparser.Expr is *sqlparser.ColName, not *sqlparser.SQLVal" ∧
    genCase Example.env none
        [.mk (.ComparisonExpr "=" (.ColName "a") (.SQLVal "1")) (.SQLVal "x")]
        (some (.ColName "c")) =
      .panic "interface conversion: sqlparser.Expr is *sqlparser.ColName, not *sqlparser.SQLVal" := by
  exact ⟨rfl, rfl, rfl, rfl, rfl⟩

/-! ## Invariants of compiled plans -/

theorem everyCondList_append (P : Expr_ → Expr_ → Comp_ → Bool) (a b : List Expr_) :
    everyCondList P (a ++ b) = (everyCondList P a && everyCondList P b) := by
  induction a with
  | nil => simp [everyCondList]
  | cons x xs ih => simp [everyCondList, ih, Bool.and_assoc]

theorem everyCondConds_append (P : Expr_ → Expr_ → Comp_ → Bool) (a b : List Cond_) :
    everyCondConds P (a ++ b) = (everyCondConds P a && everyCondConds P b) := by
  induction a with
  | nil => simp [everyCondConds]
  | cons x xs ih => simp [everyCondConds, ih, Bool.and_assoc]

/-- The comparator `genComp` builds does not depend on anything but the operator
and the right operand; a node built from two operands satisfies every property
that holds of compiled nodes. -/
theorem everyCond_comparison (P : Expr_ → Expr_ → Comp_ → Bool) (hP : HoldsOfCompiled P)
    (left right : Expr_) (comp : Comp_)
    (hl : left.isOperand = true ∧ left.everyCond P = true)
    (hr : right.isOperand = true ∧ right.everyCond P = true) :
    (Cond_.mk left right comp).everyCond P = true := by
  simp [Cond_.everyCond, hP.1 left right comp hl.1 hr.1, hl.2, hr.2]

mutual

/-- An expression `genNonCondExpr` returns is an operand, and every condition
node in it satisfies every property that holds of compiled nodes. -/
theorem genNonCondExpr_everyCond (env : Env) (P : Expr_ → Expr_ → Comp_ → Bool)
    (hP : HoldsOfCompiled P) :
    ∀ (e : sqlparser.Expr) (r : Expr_), genNonCondExpr env e = .ok r →
      r.isOperand = true ∧ r.everyCond P = true
  | .ColName name, r, h => by
    simp only [genNonCondExpr, Result.ok.injEq] at h
    subst h
    exact ⟨rfl, rfl⟩
  | .SQLVal val, r, h => by
    simp only [genNonCondExpr, Result.ok.injEq] at h
    subst h
    exact ⟨rfl, rfl⟩
  | .NullVal, r, h => by
    simp only [genNonCondExpr, Result.ok.injEq] at h
    subst h
    exact ⟨rfl, rfl⟩
  | .FuncExpr name exprs, r, h => by
    rw [genNonCondExpr] at h
    cases hp : genFuncParam env exprs [] with
    | err e => simp [hp] at h
    | panic e => simp [hp] at h
    | ok param =>
      have ih := genFuncParam_everyCond env P hP exprs [] param rfl hp
      simp only [hp, Result.ok_bind] at h
      cases hf : env.FunctionMap (env.ToLower name) with
      | none => simp [hf] at h
      | some o =>
        cases o with
        | none => simp [hf] at h
        | some creator =>
          simp only [hf, Result.ok.injEq] at h
          subst h
          exact ⟨rfl, by simpa [Expr_.everyCond] using ih⟩
  | .AndExpr _ _, r, h => by simp [genNonCondExpr] at h
  | .OrExpr _ _, r, h => by simp [genNonCondExpr] at h
  | .NotExpr _, r, h => by simp [genNonCondExpr] at h
  | .ParenExpr _, r, h => by simp [genNonCondExpr] at h
  | .ComparisonExpr _ _ _, r, h => by simp [genNonCondExpr] at h
  | .BinaryExpr _ _ _, r, h => by simp [genNonCondExpr] at h
  | .UnaryExpr _ _, r, h => by simp [genNonCondExpr] at h
  | .CaseExpr _ _ _, r, h => by simp [genNonCondExpr] at h
  | .Other _, r, h => by simp [genNonCondExpr] at h

/-- The parameters `genFuncParam` returns keep the property of the parameters it
started from. -/
theorem genFuncParam_everyCond (env : Env) (P : Expr_ → Expr_ → Comp_ → Bool)
    (hP : HoldsOfCompiled P) :
    ∀ (exprs : List sqlparser.SelectExpr) (param ps : List Expr_),
      everyCondList P param = true → genFuncParam env exprs param = .ok ps →
      everyCondList P ps = true
  | [], param, ps, hparam, h => by
    simp only [genFuncParam, Result.ok.injEq] at h
    subst h
    exact hparam
  | .StarExpr :: rest, param, ps, hparam, h => by simp [genFuncParam] at h
  | .Nextval _ :: rest, param, ps, hparam, h => by simp [genFuncParam] at h
  | .AliasedExpr (.ColName name) _ :: rest, param, ps, hparam, h => by
    rw [genFuncParam] at h
    exact genFuncParam_everyCond env P hP rest _ ps
      (by simp [everyCondList_append, hparam, everyCondList, Expr_.everyCond]) h
  | .AliasedExpr (.SQLVal val) _ :: rest, param, ps, hparam, h => by
    rw [genFuncParam] at h
    exact genFuncParam_everyCond env P hP rest _ ps
      (by simp [everyCondList_append, hparam, everyCondList, Expr_.everyCond]) h
  | .AliasedExpr .NullVal _ :: rest, param, ps, hparam, h => by
    rw [genFuncParam] at h
    exact genFuncParam_everyCond env P hP rest _ ps
      (by simp [everyCondList_append, hparam, everyCondList, Expr_.everyCond]) h
  | .AliasedExpr (.FuncExpr name exprs) _ :: rest, param, ps, hparam, h => by
    rw [genFuncParam] at h
    cases hr : genNonCondExpr env (.FuncExpr name exprs) with
    | err e => simp [hr] at h
    | panic e => simp [hr] at h
    | ok res =>
      have ih := genNonCondExpr_everyCond env P hP (.FuncExpr name exprs) res hr
      simp only [hr, Result.ok_bind] at h
      exact genFuncParam_everyCond env P hP rest _ ps
        (by simp [everyCondList_append, hparam, everyCondList, ih.2]) h
  | .AliasedExpr (.ComparisonExpr operator l r) _ :: rest, param, ps, hparam, h => by
    rw [genFuncParam] at h
    cases hl : genNonCondExpr env l with
    | err e => simp [hl] at h
    | panic e => simp [hl] at h
    | ok left =>
      cases hr : genNonCondExpr env r with
      | err e => simp [hl, hr] at h
      | panic e => simp [hl, hr] at h
      | ok right =>
        have ihl := genNonCondExpr_everyCond env P hP l left hl
        have ihr := genNonCondExpr_everyCond env P hP r right hr
        simp only [hl, hr, Result.ok_bind] at h
        cases hc : genComp env operator right with
        | err e => simp [hc] at h
        | panic e => simp [hc] at h
        | ok comp =>
          simp only [hc] at h
          have hnode := everyCond_comparison P hP left right comp ihl ihr
          exact genFuncParam_everyCond env P hP rest _ ps
            (by simp [everyCondList_append, hparam, everyCondList, Expr_.everyCond, hnode]) h
  | .AliasedExpr (.AndExpr _ _) _ :: rest, param, ps, hparam, h => by
    simp only [genFuncParam] at h
    exact genFuncParam_everyCond env P hP rest param ps hparam h
  | .AliasedExpr (.OrExpr _ _) _ :: rest, param, ps, hparam, h => by
    simp only [genFuncParam] at h
    exact genFuncParam_everyCond env P hP rest param ps hparam h
  | .AliasedExpr (.NotExpr _) _ :: rest, param, ps, hparam, h => by
    simp only [genFuncParam] at h
    exact genFuncParam_everyCond env P hP rest param ps hparam h
  | .AliasedExpr (.ParenExpr _) _ :: rest, param, ps, hparam, h => by
    simp only [genFuncParam] at h
    exact genFuncParam_everyCond env P hP rest param ps hparam h
  | .AliasedExpr (.BinaryExpr _ _ _) _ :: rest, param, ps, hparam, h => by
    simp only [genFuncParam] at h
    exact genFuncParam_everyCond env P hP rest param ps hparam h
  | .AliasedExpr (.UnaryExpr _ _) _ :: rest, param, ps, hparam, h => by
    simp only [genFuncParam] at h
    exact genFuncParam_everyCond env P hP rest param ps hparam h
  | .AliasedExpr (.CaseExpr _ _ _) _ :: rest, param, ps, hparam, h => by
    simp only [genFuncParam] at h
    exact genFuncParam_everyCond env P hP rest param ps hparam h
  | .AliasedExpr (.Other _) _ :: rest, param, ps, hparam, h => by
    simp only [genFuncParam] at h
    exact genFuncParam_everyCond env P hP rest param ps hparam h

end

/-- A node pairing an operand with the `None_` sentinel under `!=` or `=`
satisfies every property that holds of compiled nodes. -/
theorem everyCond_bare (P : Expr_ → Expr_ → Comp_ → Bool) (hP : HoldsOfCompiled P)
    (expr : Expr_) (h : expr.isOperand = true ∧ expr.everyCond P = true) :
    (Cond_.mk expr .None_ ⟨Neq, none⟩).everyCond P = true ∧
    (Cond_.mk expr .None_ ⟨Eq, none⟩).everyCond P = true := by
  have hb := hP.2.1 expr h.1
  simp [Cond_.everyCond, Expr_.everyCond, hb.1, hb.2, h.2]

/-- An expression `genExpr` returns is a condition, and every condition node in it
satisfies every property that holds of compiled nodes. -/
theorem genExpr_everyCond (env : Env) (P : Expr_ → Expr_ → Comp_ → Bool)
    (hP : HoldsOfCompiled P) :
    ∀ (e : sqlparser.Expr) (r : Expr_), genExpr env e = .ok r →
      ∃ c : Cond_, r = .Cond_ c ∧ c.everyCond P = true
  | .ComparisonExpr operator l r, res, h => by
    rw [genExpr] at h
    cases hl : genNonCondExpr env l with
    | err e => simp [hl] at h
    | panic e => simp [hl] at h
    | ok left =>
      cases hr : genNonCondExpr env r with
      | err e => simp [hl, hr] at h
      | panic e => simp [hl, hr] at h
      | ok right =>
        have ihl := genNonCondExpr_everyCond env P hP l left hl
        have ihr := genNonCondExpr_everyCond env P hP r right hr
        simp only [hl, hr, Result.ok_bind] at h
        cases hc : genComp env operator right with
        | err e => simp [hc] at h
        | panic e => simp [hc] at h
        | ok comp =>
          simp only [hc, Result.ok.injEq] at h
          exact ⟨_, h.symm, everyCond_comparison P hP left right comp ihl ihr⟩
  | .AndExpr l r, res, h => by
    rw [genExpr] at h
    cases hl : genExpr env l with
    | err e => simp [hl] at h
    | panic e => simp [hl] at h
    | ok left =>
      cases hr : genExpr env r with
      | err e => simp [hl, hr] at h
      | panic e => simp [hl, hr] at h
      | ok right =>
        obtain ⟨cl, hcl, hl2⟩ := genExpr_everyCond env P hP l left hl
        obtain ⟨cr, hcr, hr2⟩ := genExpr_everyCond env P hP r right hr
        simp only [hl, hr, Result.ok_bind, Result.ok.injEq] at h
        subst hcl hcr
        refine ⟨_, h.symm, ?_⟩
        simp [Cond_.everyCond, Expr_.everyCond, (hP.2.2 cl cr).1, hl2, hr2]
  | .OrExpr l r, res, h => by
    rw [genExpr] at h
    cases hl : genExpr env l with
    | err e => simp [hl] at h
    | panic e => simp [hl] at h
    | ok left =>
      cases hr : genExpr env r with
      | err e => simp [hl, hr] at h
      | panic e => simp [hl, hr] at h
      | ok right =>
        obtain ⟨cl, hcl, hl2⟩ := genExpr_everyCond env P hP l left hl
        obtain ⟨cr, hcr, hr2⟩ := genExpr_everyCond env P hP r right hr
        simp only [hl, hr, Result.ok_bind, Result.ok.injEq] at h
        subst hcl hcr
        refine ⟨_, h.symm, ?_⟩
        simp [Cond_.everyCond, Expr_.everyCond, (hP.2.2 cl cr).2, hl2, hr2]
  | .ColName name, res, h => by
    rw [genExpr] at h
    cases hx : genNonCondExpr env (.ColName name) with
    | err e => simp [hx] at h
    | panic e => simp [hx] at h
    | ok expr =>
      simp only [hx, Result.ok_bind, Result.ok.injEq] at h
      exact ⟨_, h.symm,
        (everyCond_bare P hP expr (genNonCondExpr_everyCond env P hP _ expr hx)).1⟩
  | .SQLVal val, res, h => by
    rw [genExpr] at h
    cases hx : genNonCondExpr env (.SQLVal val) with
    | err e => simp [hx] at h
    | panic e => simp [hx] at h
    | ok expr =>
      simp only [hx, Result.ok_bind, Result.ok.injEq] at h
      exact ⟨_, h.symm,
        (everyCond_bare P hP expr (genNonCondExpr_everyCond env P hP _ expr hx)).1⟩
  | .FuncExpr name exprs, res, h => by
    rw [genExpr] at h
    cases hx : genNonCondExpr env (.FuncExpr name exprs) with
    | err e => simp [hx] at h
    | panic e => simp [hx] at h
    | ok expr =>
      simp only [hx, Result.ok_bind, Result.ok.injEq] at h
      exact ⟨_, h.symm,
        (everyCond_bare P hP expr (genNonCondExpr_everyCond env P hP _ expr hx)).1⟩
  | .NullVal, res, h => by
    rw [genExpr] at h
    cases hx : genNonCondExpr env .NullVal with
    | err e => simp [hx] at h
    | panic e => simp [hx] at h
    | ok expr =>
      simp only [hx, Result.ok_bind, Result.ok.injEq] at h
      exact ⟨_, h.symm,
        (everyCond_bare P hP expr (genNonCondExpr_everyCond env P hP _ expr hx)).1⟩
  | .UnaryExpr _ e, res, h => by
    rw [genExpr] at h
    cases hx : genNonCondExpr env e with
    | err e => simp [hx] at h
    | panic e => simp [hx] at h
    | ok expr =>
      simp only [hx, Result.ok_bind, Result.ok.injEq] at h
      exact ⟨_, h.symm,
        (everyCond_bare P hP expr (genNonCondExpr_everyCond env P hP _ expr hx)).2⟩
  | .NotExpr e, res, h => by
    rw [genExpr] at h
    cases hx : genNonCondExpr env e with
    | err e => simp [hx] at h
    | panic e => simp [hx] at h
    | ok expr =>
      simp only [hx, Result.ok_bind, Result.ok.injEq] at h
      exact ⟨_, h.symm,
        (everyCond_bare P hP expr (genNonCondExpr_everyCond env P hP _ expr hx)).2⟩
  | .ParenExpr e, res, h => by
    rw [genExpr] at h
    exact genExpr_everyCond env P hP e res h
  | .BinaryExpr _ _ _, res, h => by simp [genExpr] at h
  | .CaseExpr _ _ _, res, h => by simp [genExpr] at h
  | .Other _, res, h => by simp [genExpr] at h

/-- The branches `genWhensSimple` returns keep the property of the branches it
started from. -/
theorem genWhensSimple_everyCond (env : Env) (P : Expr_ → Expr_ → Comp_ → Bool)
    (hP : HoldsOfCompiled P) (operand : sqlparser.Expr) (whens : List sqlparser.When)
    (conds : List Cond_) (thens : List Expr_) (cs : List Cond_) (ts : List Expr_)
    (hc : everyCondConds P conds = true) (ht : everyCondList P thens = true)
    (h : genWhensSimple env operand whens conds thens = .ok (cs, ts)) :
    everyCondConds P cs = true ∧ everyCondList P ts = true := by
  induction whens generalizing conds thens with
  | nil =>
    simp only [genWhensSimple, Result.ok.injEq, Prod.mk.injEq] at h
    obtain ⟨h1, h2⟩ := h
    subst h1 h2
    exact ⟨hc, ht⟩
  | cons w rest ih =>
    obtain ⟨cond, val⟩ := w
    cases operand with
    | ColName name =>
      rw [genWhensSimple] at h
      cases hx : genNonCondExpr env cond with
      | err e => simp [hx] at h
      | panic e => simp [hx] at h
      | ok res =>
        cases hy : genNonCondExpr env val with
        | err e => simp [hx, hy] at h
        | panic e => simp [hx, hy] at h
        | ok res2 =>
          simp only [hx, hy, Result.ok_bind] at h
          have i1 := genNonCondExpr_everyCond env P hP cond res hx
          have i2 := genNonCondExpr_everyCond env P hP val res2 hy
          have hnode := everyCond_comparison P hP (.Attr_ name) res ⟨Eq, none⟩
            ⟨rfl, rfl⟩ i1
          exact ih _ _
            (by simp [everyCondConds_append, hc, everyCondConds, hnode])
            (by simp [everyCondList_append, ht, everyCondList, i2.2]) h
    | _ => simp [genWhensSimple] at h

/-- The branches `genWhensSearched` returns keep the property of the branches it
started from. -/
theorem genWhensSearched_everyCond (env : Env) (P : Expr_ → Expr_ → Comp_ → Bool)
    (hP : HoldsOfCompiled P) (whens : List sqlparser.When)
    (conds : List Cond_) (thens : List Expr_) (cs : List Cond_) (ts : List Expr_)
    (hc : everyCondConds P conds = true) (ht : everyCondList P thens = true)
    (h : genWhensSearched env whens conds thens = .ok (cs, ts)) :
    everyCondConds P cs = true ∧ everyCondList P ts = true := by
  induction whens generalizing conds thens with
  | nil =>
    simp only [genWhensSearched, Result.ok.injEq, Prod.mk.injEq] at h
    obtain ⟨h1, h2⟩ := h
    subst h1 h2
    exact ⟨hc, ht⟩
  | cons w rest ih =>
    obtain ⟨cond, val⟩ := w
    rw [genWhensSearched] at h
    cases hx : genExpr env cond with
    | err e => simp [hx] at h
    | panic e => simp [hx] at h
    | ok condExpr =>
      obtain ⟨c, hc1, hc2⟩ := genExpr_everyCond env P hP cond condExpr hx
      subst hc1
      simp only [hx, Result.ok_bind] at h
      cases val with
      | SQLVal v =>
        simp only at h
        exact ih _ _
          (by simp [everyCondConds_append, hc, everyCondConds, hc2])
          (by simp [everyCondList_append, ht, everyCondList, Expr_.everyCond]) h
      | _ => simp at h

/-- Every condition node of a CASE that `genCase` returns satisfies every property
that holds of compiled nodes. -/
theorem genCase_everyCond (env : Env) (P : Expr_ → Expr_ → Comp_ → Bool)
    (hP : HoldsOfCompiled P) (operand : Option sqlparser.Expr)
    (whens : List sqlparser.When) (els : Option sqlparser.Expr) (c : Case_)
    (h : genCase env operand whens els = .ok c) : c.everyCond P = true := by
  unfold genCase at h
  cases operand with
  | some e =>
    simp only at h
    cases hw : genWhensSimple env e whens [] [] with
    | err x => simp [hw] at h
    | panic x => simp [hw] at h
    | ok pair =>
      obtain ⟨cs, ts⟩ := pair
      have hinv := genWhensSimple_everyCond env P hP e whens [] [] cs ts rfl rfl hw
      simp only [hw, Result.ok_bind] at h
      cases els with
      | none =>
        simp only [Result.ok.injEq] at h
        subst h
        simp [Case_.everyCond, hinv.1, hinv.2, Expr_.everyCond]
      | some elseExpr =>
        simp only at h
        cases hx : genNonCondExpr env elseExpr with
        | err x => simp [hx] at h
        | panic x => simp [hx] at h
        | ok res =>
          have i1 := genNonCondExpr_everyCond env P hP elseExpr res hx
          simp only [hx, Result.ok_bind, Result.ok.injEq] at h
          subst h
          simp [Case_.everyCond, hinv.1, hinv.2, i1.2]
  | none =>
    simp only at h
    cases hw : genWhensSearched env whens [] [] with
    | err x => simp [hw] at h
    | panic x => simp [hw] at h
    | ok pair =>
      obtain ⟨cs, ts⟩ := pair
      have hinv := genWhensSearched_everyCond env P hP whens [] [] cs ts rfl rfl hw
      simp only [hw, Result.ok_bind] at h
      cases els with
      | none =>
        simp only [Result.ok.injEq] at h
        subst h
        simp [Case_.everyCond, hinv.1, hinv.2, Expr_.everyCond]
      | some elseExpr =>
        cases elseExpr with
        | SQLVal v =>
          simp only [Result.ok.injEq] at h
          subst h
          simp [Case_.everyCond, hinv.1, hinv.2, Expr_.everyCond]
        | _ => simp at h

/-- The fields `genProjectLoop` leaves behind, whatever its outcome, keep the
property of the fields it started from. -/
theorem genProjectLoop_everyCond (env : Env) (P : Expr_ → Expr_ → Comp_ → Bool)
    (hP : HoldsOfCompiled P) (exprs : List sqlparser.SelectExpr) (fields : List Field_)
    (hf : everyCondList P (fields.map (fun f => f.Expr)) = true) :
    everyCondList P ((genProjectLoop env exprs fields).1.map (fun f => f.Expr)) = true := by
  induction exprs generalizing fields with
  | nil => simpa [genProjectLoop] using hf
  | cons field rest ih =>
    have hother : ∀ (e : sqlparser.Expr) (asName : String),
        (genProjectLoop env (.AliasedExpr e asName :: rest) fields =
          match genNonCondExpr env e with
          | .ok expr =>
            genProjectLoop env rest
              (fields ++ [⟨expr, if asName = "" then getName expr else asName⟩])
          | .err x => (fields, .err x)
          | .panic x => (fields, .panic x)) →
        everyCondList P
          ((genProjectLoop env (.AliasedExpr e asName :: rest) fields).1.map
            (fun f => f.Expr)) = true := by
      intro e asName heq
      rw [heq]
      cases hx : genNonCondExpr env e with
      | err x => simpa using hf
      | panic x => simpa using hf
      | ok expr =>
        have i1 := genNonCondExpr_everyCond env P hP e expr hx
        exact ih _ (by simp [everyCondList_append, hf, everyCondList, i1.2])
    cases field with
    | StarExpr =>
      simp only [genProjectLoop]
      exact ih fields hf
    | Nextval e =>
      simp only [genProjectLoop]
      exact hf
    | AliasedExpr e asName =>
      cases e with
      | CaseExpr operand whens els =>
        simp only [genProjectLoop]
        cases hx : genCase env operand whens els with
        | err x => simpa using hf
        | panic x => simpa using hf
        | ok caseExpr =>
          have i1 := genCase_everyCond env P hP operand whens els caseExpr hx
          exact ih _
            (by simp [everyCondList_append, hf, everyCondList, Expr_.everyCond, i1])
      | _ => exact hother _ _ (by simp only [genProjectLoop])

/-- Every condition node of the plan that `genProjectOper` followed by
`genPredicateOper` leaves behind, whatever their outcomes and whatever the
plan was before, satisfies every property that holds of compiled nodes. -/
theorem compiled_plan_everyCond (env : Env) (P : Expr_ → Expr_ → Comp_ → Bool)
    (hP : HoldsOfCompiled P) (p : ProcessorSql) (stmt : sqlparser.Select) :
    (genPredicateOper env (genProjectOper env p stmt).1 stmt).1.Plan.everyCond P = true := by
  have hfields := genProjectLoop_everyCond env P hP stmt.SelectExprs [] rfl
  unfold genPredicateOper
  cases hw : stmt.Where with
  | none => simpa [SelectPlan.everyCond, genProjectOper] using hfields
  | some whereExpr =>
    simp only
    cases hx : genExpr env whereExpr with
    | err x => simpa [SelectPlan.everyCond, genProjectOper] using hfields
    | panic x => simpa [SelectPlan.everyCond, genProjectOper] using hfields
    | ok root =>
      obtain ⟨c, hc1, hc2⟩ := genExpr_everyCond env P hP whereExpr root hx
      subst hc1
      simp only [SelectPlan.everyCond, genProjectOper, Bool.and_eq_true]
      exact ⟨hfields, hc2⟩

/-- Every condition node of the plan `Init` leaves behind for a script that parses
to a SELECT, whatever the outcome of `Init`, satisfies every property that
holds of compiled nodes. -/
theorem Init_plan_everyCond (env : Env) (P : Expr_ → Expr_ → Comp_ → Bool)
    (hP : HoldsOfCompiled P) (p : ProcessorSql) (stmt : sqlparser.Select)
    (hparse : env.Parse p.Script = .ok (.Select stmt)) :
    (ProcessorSql.Init env p).1.Plan.everyCond P = true := by
  have hfields := genProjectLoop_everyCond env P hP stmt.SelectExprs [] rfl
  have hall := compiled_plan_everyCond env P hP { p with Plan := ⟨none, none⟩ } stmt
  unfold ProcessorSql.Init
  simp only [hparse]
  cases hr : (genProjectLoop env stmt.SelectExprs []).2 with
  | ok u =>
    have hgp : genProjectOper env { p with Plan := ⟨none, none⟩ } stmt =
        ((genProjectOper env { p with Plan := ⟨none, none⟩ } stmt).1, .ok ()) := by
      simp [genProjectOper, hr]
    rw [hgp]
    exact hall
  | err x =>
    have hgp : genProjectOper env { p with Plan := ⟨none, none⟩ } stmt =
        ((genProjectOper env { p with Plan := ⟨none, none⟩ } stmt).1, .err x) := by
      simp [genProjectOper, hr]
    rw [hgp]
    simpa [SelectPlan.everyCond, genProjectOper] using hfields
  | panic x =>
    have hgp : genProjectOper env { p with Plan := ⟨none, none⟩ } stmt =
        ((genProjectOper env { p with Plan := ⟨none, none⟩ } stmt).1, .panic x) := by
      simp [genProjectOper, hr]
    rw [hgp]
    simpa [SelectPlan.everyCond, genProjectOper] using hfields

/-- The shape of the spec's Condition invariant, with both operands present, holds
of the nodes the compiler builds. -/
theorem condShape_holdsOfCompiled :
    HoldsOfCompiled (fun l r comp => condShape l r comp && operandsPresent l r) := by
  refine ⟨?_, ?_, ?_⟩
  · intro l r comp hl hr
    cases l <;> cases r <;>
      simp_all [Expr_.isOperand, condShape, operandsPresent, Expr_.isCond]
  · intro l hl
    cases l <;> simp_all [Expr_.isOperand, condShape, operandsPresent, Expr_.isCond]
  · intro l r
    simp [condShape, operandsPresent, Expr_.isCond, And, Or]

/-- The comparator paired with a `None_` right operand is `=` or `!=` in the nodes
the compiler builds. -/
theorem noneComparator_holdsOfCompiled :
    HoldsOfCompiled (fun _ r comp => noneComparator r comp) := by
  refine ⟨?_, ?_, ?_⟩
  · intro l r comp _ hr
    cases r <;> simp_all [Expr_.isOperand, noneComparator]
  · intro l _
    simp [noneComparator, Eq, Neq]
  · intro l r
    simp [noneComparator]

/-- C19. A successful result of `genExpr` is a Condition, and every Condition node
in it (the root of a compiled predicate tree included) has both operands
present and satisfies: either both children are Conditions and the comparator
is `AND` or `OR`, or neither child is a Condition. On a node of that shape
`traverse` takes neither of its two `unexpected children type` returns: it is
`evaluateConditionPairs` when both children are Conditions and
`evaluateCondition` when neither is. -/
theorem genExpr_condition_shape (env : Env) :
    (∀ (e : sqlparser.Expr) (r : Expr_), genExpr env e = .ok r →
      ∃ c : Cond_, r = .Cond_ c ∧
        c.everyCond (fun l r comp => condShape l r comp && operandsPresent l r) = true) ∧
    (∀ (p : ProcessorSql) (stmt : sqlparser.Select) (root : Cond_),
      (genPredicateOper env p stmt).2 = .ok () →
      (genPredicateOper env p stmt).1.Plan.PredicateOper = some ⟨some root⟩ →
      root.everyCond (fun l r comp => condShape l r comp && operandsPresent l r) = true) ∧
    (∀ (p : ProcessorSql) (l r : Expr_) (comp : Comp_) (content : LogContentType),
      condShape l r comp = true → operandsPresent l r = true →
      (l.isCond = true ∧ r.isCond = true ∧ (comp.Name = And ∨ comp.Name = Or) ∧
        traverse env p (.mk l r comp) content =
          evaluateConditionPairs env p (.mk l r comp) content) ∨
      (l.isCond = false ∧ r.isCond = false ∧
        traverse env p (.mk l r comp) content =
          evaluateCondition env p (.mk l r comp) content)) := by
  refine ⟨genExpr_everyCond env _ condShape_holdsOfCompiled, ?_, ?_⟩
  · intro p stmt root _ hroot
    unfold genPredicateOper at hroot
    cases hw : stmt.Where with
    | none => simp [hw] at hroot
    | some whereExpr =>
      simp only [hw] at hroot
      cases hx : genExpr env whereExpr with
      | err x => simp [hx] at hroot
      | panic x => simp [hx] at hroot
      | ok r =>
        obtain ⟨c, hc1, hc2⟩ := genExpr_everyCond env _ condShape_holdsOfCompiled whereExpr r hx
        subst hc1
        simp only [hx, Option.some.injEq, PredicateOper_.mk.injEq] at hroot
        subst hroot
        exact hc2
  · intro p l r comp content hs hp
    cases l <;> cases r <;>
      simp [condShape, operandsPresent, Expr_.isCond] at hs hp ⊢ <;>
      first
        | exact ⟨hs, traverse_pairs env p _ _ comp content⟩
        | (rw [traverse]
           simp [Cond_.Lexpr, Cond_.Rexpr, Expr_.GetType, AttrType, ConstType, FuncType,
             CondType, CaseType, NoneType])

theorem genExpr_condition_shape_witness :
    genExpr Example.env
      (.AndExpr (.ComparisonExpr "=" (.ColName "a") (.SQLVal "1"))
        (.ComparisonExpr "=" (.ColName "b") (.SQLVal "2"))) = .ok (.Cond_ Example.aAndB) ∧
    Example.aAndB.everyCond (fun l r comp => condShape l r comp && operandsPresent l r)
      = true ∧
    traverse Example.env Example.strict Example.aAndB Example.five =
      evaluateConditionPairs Example.env Example.strict Example.aAndB Example.five := by
  have hgen : genExpr Example.env
      (.AndExpr (.ComparisonExpr "=" (.ColName "a") (.SQLVal "1"))
        (.ComparisonExpr "=" (.ColName "b") (.SQLVal "2"))) = .ok (.Cond_ Example.aAndB) := rfl
  obtain ⟨c, hc, hev⟩ := (genExpr_condition_shape Example.env).1 _ _ hgen
  cases hc
  refine ⟨hgen, hev, ?_⟩
  rcases (genExpr_condition_shape Example.env).2.2 Example.strict
    (.Cond_ (.mk (.Attr_ "a") (.Const_ "1") ⟨Eq, none⟩))
    (.Cond_ (.mk (.Attr_ "b") (.Const_ "2") ⟨Eq, none⟩)) ⟨And, none⟩ Example.five rfl rfl
    with h | h
  · exact h.2.2.2
  · exact absurd h.1 (by decide)

/-- C20. In every condition node the compiler builds, a right operand that is the
`None_` sentinel comes with the comparator `=` or `!=`: this holds of every
condition node in a result of `genExpr`, of every condition node (in the
projected fields and in the predicate tree) of the plan that `genProjectOper`
and `genPredicateOper` build, and of the plan `Init` leaves behind for a
script that parses to a SELECT. -/
theorem none_operand_comparator (env : Env) :
    (∀ (e : sqlparser.Expr) (r : Expr_), genExpr env e = .ok r →
      r.everyCond (fun _ r comp => noneComparator r comp) = true) ∧
    (∀ (p : ProcessorSql) (stmt : sqlparser.Select),
      (genPredicateOper env (genProjectOper env p stmt).1 stmt).1.Plan.everyCond
        (fun _ r comp => noneComparator r comp) = true) ∧
    (∀ (p : ProcessorSql) (stmt : sqlparser.Select),
      env.Parse p.Script = .ok (.Select stmt) →
      (ProcessorSql.Init env p).1.Plan.everyCond
        (fun _ r comp => noneComparator r comp) = true) := by
  refine ⟨?_, compiled_plan_everyCond env _ noneComparator_holdsOfCompiled,
    Init_plan_everyCond env _ noneComparator_holdsOfCompiled⟩
  intro e r h
  obtain ⟨c, hc1, hc2⟩ := genExpr_everyCond env _ noneComparator_holdsOfCompiled e r h
  subst hc1
  simpa [Expr_.everyCond] using hc2

theorem none_operand_comparator_witness :
    genExpr Example.env (.NotExpr (.ColName "id")) = .ok (.Cond_ Example.idFalsy) ∧
    (Expr_.Cond_ Example.idFalsy).everyCond (fun _ r comp => noneComparator r comp) = true ∧
    noneComparator .None_ ⟨Lt, none⟩ = false ∧
    (ProcessorSql.Init Example.env
      { Example.strict with Script := "select id as x from t where id != 0" }).1.Plan.everyCond
        (fun _ r comp => noneComparator r comp) = true := by
  have h := none_operand_comparator Example.env
  exact ⟨rfl, h.1 (.NotExpr (.ColName "id")) _ rfl, by decide,
    h.2.2 { Example.strict with Script := "select id as x from t where id != 0" }
      Example.selectId rfl⟩

/-! ## Derived aliases -/

/-- The loop of `getName` over the arguments of a call passes over a comparison:
it adds nothing to the name. -/
theorem getNameLoop_cond (c : Cond_) (rest : List Expr_) :
    getNameLoop (.Cond_ c :: rest) = getNameLoop rest := by
  simp [getNameLoop]

mutual

/-- `getName` is the canonical rendering of the spec on every expression in which
no call has a comparison among its arguments. -/
theorem getName_eq_canonicalName : ∀ e : Expr_, plainArguments e = true →
    getName e = canonicalName e
  | .Attr_ _, _ => rfl
  | .Const_ _, _ => rfl
  | .None_, _ => rfl
  | .nil, _ => rfl
  | .Case_ _, _ => rfl
  | .Func_ param function, h => by
    have ih := getNameLoop_eq_canonicalNames param (by simpa [plainArguments] using h)
    simp [getName, canonicalName, ih]
  | .Cond_ (.mk lexpr rexpr comp), h => by
    simp only [plainArguments, Bool.and_eq_true] at h
    have i1 := getName_eq_canonicalName lexpr h.1
    have i2 := getName_eq_canonicalName rexpr h.2
    simp [getName, canonicalName, i1, i2]

/-- The loop of `getName` renders a list of arguments as the spec does when none
of them is a comparison. -/
theorem getNameLoop_eq_canonicalNames : ∀ items : List Expr_,
    plainArgumentList items = true → getNameLoop items = canonicalNames items
  | [], _ => rfl
  | .Attr_ _ :: rest, h => by
    have ih := getNameLoop_eq_canonicalNames rest (by simpa [plainArgumentList] using h)
    simp [getNameLoop, canonicalNames, canonicalName, ih]
  | .Const_ _ :: rest, h => by
    have ih := getNameLoop_eq_canonicalNames rest (by simpa [plainArgumentList] using h)
    simp [getNameLoop, canonicalNames, canonicalName, ih]
  | .None_ :: rest, h => by
    have ih := getNameLoop_eq_canonicalNames rest (by simpa [plainArgumentList] using h)
    simp [getNameLoop, canonicalNames, canonicalName, ih]
  | .nil :: rest, h => by
    have ih := getNameLoop_eq_canonicalNames rest (by simpa [plainArgumentList] using h)
    simp [getNameLoop, canonicalNames, canonicalName, ih]
  | .Case_ _ :: rest, h => by
    have ih := getNameLoop_eq_canonicalNames rest (by simpa [plainArgumentList] using h)
    simp [getNameLoop, canonicalNames, canonicalName, ih]
  | .Cond_ _ :: rest, h => by simp [plainArgumentList] at h
  | .Func_ ps f :: rest, h => by
    simp only [plainArgumentList, Bool.and_eq_true] at h
    have i1 := getName_eq_canonicalName (.Func_ ps f) h.1
    have i2 := getNameLoop_eq_canonicalNames rest h.2
    simp only [getNameLoop, canonicalNames, i1, i2]

end

/-- C21, on the code. For the projected call `aes_encrypt(a = 1, b)` without explicit
alias the derived alias is `aes_encrypt(b)`: the comparison argument is left
out of the rendering, although `getName` renders the comparison itself as
`a = 1`; the canonical rendering of the spec is `aes_encrypt(a = 1b)`. The
call `aes_encrypt(b)` gets the same alias. -/
theorem getName_omits_comparison_argument :
    genNonCondExpr Example.env Example.callWithComparison =
      .ok (.Func_ [.Cond_ (.mk (.Attr_ "a") (.Const_ "1") ⟨"=", none⟩), .Attr_ "b"]
        ((Aes_encrypt.creator Example.crypto).init ["a = 1", "b"]).1) ∧
    (genProjectLoop Example.env [.AliasedExpr Example.callWithComparison ""] []).1.map
      (fun f => f.Alias) = ["aes_encrypt(b)"] ∧
    getName (.Cond_ (.mk (.Attr_ "a") (.Const_ "1") ⟨"=", none⟩)) = "a = 1" ∧
    canonicalName
      (.Func_ [.Cond_ (.mk (.Attr_ "a") (.Const_ "1") ⟨"=", none⟩), .Attr_ "b"]
        ((Aes_encrypt.creator Example.crypto).init ["a = 1", "b"]).1) =
      "aes_encrypt(a = 1b)" ∧
    (genProjectLoop Example.env [.AliasedExpr Example.callWithColumn ""] []).1.map
      (fun f => f.Alias) = ["aes_encrypt(b)"] := by
  refine ⟨rfl, by decide, by decide, by decide, by decide⟩

/-! ## Arguments of a call -/

/-- The argument loop of `genNonCondExpr` passes over a parenthesised, arithmetic
or CASE argument: it adds no parameter and reports no error. -/
theorem genFuncParam_passes_over (env : Env) (rest : List sqlparser.SelectExpr)
    (param : List Expr_) (asName operator : String) (e l r : sqlparser.Expr)
    (operand els : Option sqlparser.Expr) (whens : List sqlparser.When) :
    genFuncParam env (.AliasedExpr (.ParenExpr e) asName :: rest) param =
      genFuncParam env rest param ∧
    genFuncParam env (.AliasedExpr (.BinaryExpr operator l r) asName :: rest) param =
      genFuncParam env rest param ∧
    genFuncParam env (.AliasedExpr (.CaseExpr operand whens els) asName :: rest) param =
      genFuncParam env rest param := by
  refine ⟨?_, ?_, ?_⟩ <;> simp only [genFuncParam]

/-- C22, on the code. Lowering the call
`aes_encrypt(a + 1, "000102030405060708090a0b0c0d0e0f")` to the registered
function returns no error: the arithmetic argument is dropped and the lowered
call has one parameter for the two arguments of the source call. The same
argument on its own is a compile error for `genNonCondExpr`. -/
theorem genNonCondExpr_drops_argument :
    genNonCondExpr Example.env Example.callWithArithmetic =
      .ok (.Func_ [.Const_ "000102030405060708090a0b0c0d0e0f"]
        ((Aes_encrypt.creator Example.crypto).init
          ["000102030405060708090a0b0c0d0e0f"]).1) ∧
    genFuncParam Example.env
      [.AliasedExpr (.BinaryExpr "+" (.ColName "a") (.SQLVal "1")) "",
        .AliasedExpr (.SQLVal "000102030405060708090a0b0c0d0e0f") ""] [] =
      .ok [.Const_ "000102030405060708090a0b0c0d0e0f"] ∧
    genNonCondExpr Example.env (.BinaryExpr "+" (.ColName "a") (.SQLVal "1")) =
      .err "unsupported expression type: *sqlparser.BinaryExpr" := by
  exact ⟨rfl, rfl, rfl⟩

/-! ## CASE without ELSE -/

/-- A CASE expression without ELSE lowers to a `Case_` whose `ElseExpr` is nil, in
both forms. -/
theorem genCase_without_else (env : Env) (operand : Option sqlparser.Expr)
    (whens : List sqlparser.When) (c : Case_)
    (h : genCase env operand whens none = .ok c) :
    c = .mk c.CondExpr c.ThenExpr .nil := by
  unfold genCase at h
  cases operand with
  | some e =>
    simp only at h
    cases hw : genWhensSimple env e whens [] [] with
    | err x => simp [hw] at h
    | panic x => simp [hw] at h
    | ok pair =>
      simp only [hw, Result.ok_bind, Result.ok.injEq] at h
      subst h
      rfl
  | none =>
    simp only at h
    cases hw : genWhensSearched env whens [] [] with
    | err x => simp [hw] at h
    | panic x => simp [hw] at h
    | ok pair =>
      simp only [hw, Result.ok_bind, Result.ok.injEq] at h
      subst h
      rfl

/-- C23. For a Case node whose `ElseExpr` is nil, as `genProjectOper` leaves it for a
CASE expression without ELSE: on a record on which every branch condition
evaluates to false, `evaluateCase` (and `getValue` on the node) returns the
error `unknown expression type`, so neither a fault nor an empty string, and
`project` on a plan that holds the node in a field returns that error, and no
record, when the fields before it evaluate without error. -/
theorem evaluateCase_without_else (env : Env) (p : ProcessorSql) (conds : List Cond_)
    (thens : List Expr_) (content : LogContentType)
    (hall : ∀ c ∈ conds, evaluateCondition env p c content = .ok false) :
    evaluateCase env p (.mk conds thens .nil) content = .err "unknown expression type" ∧
    getValue env p (.Case_ (.mk conds thens .nil)) content =
      .err "unknown expression type" ∧
    (∀ (pre post : List Field_) (asName : String) (vals : List String),
      p.Plan.ProjectOper = some ⟨pre ++ ⟨.Case_ (.mk conds thens .nil), asName⟩ :: post⟩ →
      List.Forall₂ (fun f v => getValue env p f.Expr content = .ok v) pre vals →
      project env p content = .err "unknown expression type") ∧
    (∀ (operand : Option sqlparser.Expr) (whens : List sqlparser.When) (c : Case_),
      genCase env operand whens none = .ok c → c = .mk c.CondExpr c.ThenExpr .nil) := by
  have hcase : evaluateCase env p (.mk conds thens .nil) content =
      .err "unknown expression type" := by
    rw [evaluateCase]
    have h := evaluateCaseLoop_skip env p conds [] 0 thens .nil content hall
    rw [List.append_nil] at h
    rw [h, evaluateCaseLoop]
    simp only [getValue]
  have hget : getValue env p (.Case_ (.mk conds thens .nil)) content =
      .err "unknown expression type" := by
    rw [getValue, hcase]
  refine ⟨hcase, hget, ?_, fun operand whens c h => genCase_without_else env operand whens c h⟩
  intro pre post asName vals hp hpre
  simp only [project, hp]
  exact projectLoop_err env p pre ⟨.Case_ (.mk conds thens .nil), asName⟩ post vals
    "unknown expression type" _ content hpre hget

theorem evaluateCase_without_else_witness :
    (genProjectOper Example.env Example.strict Example.selectCaseNoElse).2 = .ok () ∧
    (genProjectOper Example.env Example.strict Example.selectCaseNoElse).1.Plan.ProjectOper =
      some ⟨[⟨.Case_ (.mk [.mk (.Attr_ "status") (.Const_ "1") ⟨Eq, none⟩] [.Const_ "ok"]
        .nil), "s"⟩]⟩ ∧
    project Example.env
      (genProjectOper Example.env Example.strict Example.selectCaseNoElse).1
      ⟨[("status", "2")]⟩ = .err "unknown expression type" ∧
    project Example.env
      (genProjectOper Example.env Example.strict Example.selectCaseNoElse).1
      ⟨[("status", "1")]⟩ = .ok ⟨[("s", "ok")]⟩ := by
  have hplan : (genProjectOper Example.env Example.strict
      Example.selectCaseNoElse).1.Plan.ProjectOper =
      some ⟨[⟨.Case_ (.mk [.mk (.Attr_ "status") (.Const_ "1") ⟨Eq, none⟩] [.Const_ "ok"]
        .nil), "s"⟩]⟩ := rfl
  have hfalse : ∀ c ∈ [Cond_.mk (.Attr_ "status") (.Const_ "1") ⟨Eq, none⟩],
      evaluateCondition Example.env
        (genProjectOper Example.env Example.strict Example.selectCaseNoElse).1 c
        ⟨[("status", "2")]⟩ = .ok false := by
    intro c hc
    simp only [List.mem_singleton] at hc
    subst hc
    simp [evaluateCondition, evaluateCompare, getValue, KeyValues.Get, KeyValues.Contains, Eq]
  have h := (evaluateCase_without_else Example.env
    (genProjectOper Example.env Example.strict Example.selectCaseNoElse).1
    [.mk (.Attr_ "status") (.Const_ "1") ⟨Eq, none⟩] [.Const_ "ok"] ⟨[("status", "2")]⟩
    hfalse).2.2.1 [] [] "s" [] hplan List.Forall₂.nil
  refine ⟨rfl, hplan, h, ?_⟩
  simp [project, hplan, projectLoop, getValue, evaluateCase, evaluateCaseLoop,
    evaluateCondition, evaluateCompare, KeyValues.Get, KeyValues.Contains, KeyValues.Add,
    KeyValues.empty, Eq]

/-! ## aes_encrypt before a successful Init -/

/-- On an object whose block size is 0, `Process` with two parameters neither of
which is `"NULL"` faults in the remainder of `paddingWithPKCS7`. -/
theorem Aes_encrypt.Process_blockSize_zero (crypto : Crypto) (f : Aes_encrypt)
    (first second : String) (rest : List String) (hb : f.blockSize = 0)
    (h1 : first ≠ "NULL") (h2 : second ≠ "NULL") :
    Aes_encrypt.Process crypto f (first :: second :: rest) =
      .panic "runtime error: integer divide by zero" := by
  simp [Aes_encrypt.Process, Aes_encrypt.encrypt, Aes_encrypt.paddingWithPKCS7, hb, h1, h2]

/-- An `Init` that returns an error leaves the block size as it was. -/
theorem Aes_encrypt.Init_error_blockSize (f : Aes_encrypt) (param : List String)
    (e : String) (h : (f.Init param).2 = some e) :
    (f.Init param).1.blockSize = f.blockSize := by
  unfold Aes_encrypt.Init at h ⊢
  by_cases hlen : param.length < 2
  · rw [if_pos hlen]
  · rw [if_neg hlen] at h ⊢
    generalize param.getD 1 "" = key at h ⊢
    have hpk := Aes_encrypt.parseKey_ok_iff f key
    rcases hres : f.parseKey key with ⟨f1, e1⟩
    rw [hres] at hpk h
    cases e1 with
    | some x =>
      have hf1 : f1 = (f.parseKey key).1 := by rw [hres]
      rw [hf1]
      unfold Aes_encrypt.parseKey
      cases hd : (hex.DecodeString key).2 with
      | some y => simp [hd]
      | none =>
        simp only [hd]
        cases hc : aes.NewCipher (hex.DecodeString key).1 with
        | ok c =>
          exfalso
          have hnone : (f.parseKey key).2 = none := by
            unfold Aes_encrypt.parseKey
            simp [hd, hc]
          rw [hres] at hnone
          cases hnone
        | error y => simp
    | none =>
      exfalso
      have hb : f1.blockSize = 16 := hpk.2 rfl
      have hiv := Aes_encrypt.parseIV_ok f1 hb
      rcases hres2 : f1.parseIV with ⟨f2, e2⟩
      rw [hres2] at hiv
      simp only at hiv
      subst hiv
      simp [hres2] at h

/-- C25, on the code. On an `Aes_encrypt` whose `Init` was never called, and on one
whose `Init` returned an error (here for the key `"00"`), the block size is 0
and `Process` with two parameters neither of which is `"NULL"` does not
return an error value: it faults with an integer division by zero in
`paddingWithPKCS7`. The same holds through the `Function` that
`genNonCondExpr` binds. -/
theorem Aes_encrypt.Process_uninitialised_faults :
    Aes_encrypt.zero.blockSize = 0 ∧
    Aes_encrypt.Process Example.crypto Aes_encrypt.zero
      ["0123456", "0000000000000000000000000000000000000000000000000000000000000000"] =
      .panic "runtime error: integer divide by zero" ∧
    (Aes_encrypt.zero.Init ["aes_encrypt", "00"]).2 =
      some "aes_encrypt create cipher with key error: crypto/aes: invalid key size 1" ∧
    (Aes_encrypt.zero.Init ["aes_encrypt", "00"]).1.blockSize = 0 ∧
    (Aes_encrypt.zero.Init ["aes_encrypt", "00"]).1.cipher = none ∧
    Aes_encrypt.Process Example.crypto (Aes_encrypt.zero.Init ["aes_encrypt", "00"]).1
      ["0123456", "00"] = .panic "runtime error: integer divide by zero" ∧
    ((Aes_encrypt.creator Example.crypto).init ["aes_encrypt", "00"]).1.process
      ["0123456", "00"] = .panic "runtime error: integer divide by zero" := by
  refine ⟨rfl, ?_, by decide, by decide, by decide, ?_, ?_⟩
  · exact Aes_encrypt.Process_blockSize_zero Example.crypto Aes_encrypt.zero "0123456"
      "0000000000000000000000000000000000000000000000000000000000000000" [] rfl
      (by decide) (by decide)
  · exact Aes_encrypt.Process_blockSize_zero Example.crypto
      (Aes_encrypt.zero.Init ["aes_encrypt", "00"]).1 "0123456" "00" [] (by decide)
      (by decide) (by decide)
  · exact Aes_encrypt.Process_blockSize_zero Example.crypto
      (Aes_encrypt.zero.Init ["aes_encrypt", "00"]).1 "0123456" "00" [] (by decide)
      (by decide) (by decide)

/-! ## PKCS7 padding and the length of the result -/

/-- With a positive block size `b`, `paddingWithPKCS7` returns the bytes of the
data followed by `p` bytes of value `p mod 256`, where `p` is `b` minus the
remainder of the data's length by `b`. -/
theorem Aes_encrypt.paddingWithPKCS7_eq (f : Aes_encrypt) (b : Nat) (data : String)
    (hb : 0 < b) (hf : f.blockSize = (b : Int)) :
    f.paddingWithPKCS7 data =
      .ok (stringBytes data ++
        List.replicate (b - (stringBytes data).length % b)
          ((b - (stringBytes data).length % b) % 256)) := by
  have hlt : (stringBytes data).length % b < b := Nat.mod_lt _ hb
  have htm : Int.tmod ((stringBytes data).length : Int) (b : Int) =
      (((stringBytes data).length % b : Nat) : Int) := rfl
  have hsub : (b : Int) - (((stringBytes data).length % b : Nat) : Int) =
      ((b - (stringBytes data).length % b : Nat) : Int) := by omega
  have hb0 : ¬ ((b : Int) = 0) := by omega
  unfold Aes_encrypt.paddingWithPKCS7
  simp only [hf, hb0, if_false, htm, hsub]
  have hneg : ¬ (((b - (stringBytes data).length % b : Nat) : Int) < 0) := by omega
  simp only [hneg, if_false, Int.toNat_ofNat]

/-- Storing into a slice does not change its length. -/
theorem Aes_encrypt.store_length (dst out : List Nat) :
    (Aes_encrypt.store dst out).length = dst.length := by
  unfold Aes_encrypt.store
  simp only [List.length_take, List.length_append, List.length_drop]
  omega

/-- The string `hex.EncodeToString` returns has two characters per byte. -/
theorem hex.EncodeToString_length (src : List Nat) :
    (hex.EncodeToString src).length = 2 * src.length := by
  unfold hex.EncodeToString
  simp only [String.length]
  induction src with
  | nil => rfl
  | cons x xs ih =>
    simp only [List.flatMap_cons, List.length_append, List.length_cons, List.length_nil, ih]
    omega

/-- What `cryptBlocks` returns has the length of the slice it stores into. -/
theorem Aes_encrypt.cryptBlocks_length (crypto : Crypto) (cipher : Option (List Nat))
    (iv dst src out : List Nat)
    (h : Aes_encrypt.cryptBlocks crypto cipher iv dst src = .ok out) :
    out.length = dst.length := by
  unfold Aes_encrypt.cryptBlocks at h
  cases cipher with
  | none => simp at h
  | some key =>
    simp only at h
    split at h
    · simp at h
    · split at h
      · simp at h
      · split at h
        · simp at h
        · simp only [Result.ok.injEq] at h
          subst h
          exact Aes_encrypt.store_length _ _

/-- The state `parseIV` leaves: the IV is 16 zero bytes, the rest is unchanged. -/
theorem Aes_encrypt.parseIV_state (f : Aes_encrypt) :
    f.parseIV.1.blockSize = f.blockSize ∧ f.parseIV.1.cipher = f.cipher ∧
    f.parseIV.1.iv = some (List.replicate 16 0) := by
  have hiv : hex.DecodeString (String.mk (List.replicate (16 * 2) '0')) =
      (List.replicate 16 0, none) := by decide
  unfold Aes_encrypt.parseIV
  simp only [hiv]
  split <;> exact ⟨rfl, rfl, rfl⟩

/-- The state a successful `parseKey` leaves: a cipher and the block size 16. -/
theorem Aes_encrypt.parseKey_ok_state (f : Aes_encrypt) (key : String)
    (h : (f.parseKey key).2 = none) :
    (f.parseKey key).1.blockSize = 16 ∧ (f.parseKey key).1.cipher.isSome = true := by
  unfold Aes_encrypt.parseKey at h ⊢
  cases hd : (hex.DecodeString key).2 with
  | some e => simp [hd] at h
  | none =>
    simp only [hd] at h ⊢
    cases hc : aes.NewCipher (hex.DecodeString key).1 with
    | ok c => simp [aes.BlockSize]
    | error e => simp [hc] at h

/-- The state a successful `Init` leaves: a cipher, the block size 16 and an IV of
16 zero bytes. -/
theorem Aes_encrypt.Init_ok_state (f : Aes_encrypt) (param : List String)
    (h : (f.Init param).2 = none) :
    (f.Init param).1.blockSize = 16 ∧ (f.Init param).1.cipher.isSome = true ∧
    (f.Init param).1.iv = some (List.replicate 16 0) := by
  unfold Aes_encrypt.Init at h ⊢
  by_cases hlen : param.length < 2
  · rw [if_pos hlen] at h
    cases h
  · rw [if_neg hlen] at h ⊢
    generalize param.getD 1 "" = key at h ⊢
    have hst := Aes_encrypt.parseKey_ok_state f key
    rcases hres : f.parseKey key with ⟨f1, e1⟩
    rw [hres] at hst h
    cases e1 with
    | some x => cases h
    | none =>
      have hk := hst rfl
      have hiv := Aes_encrypt.parseIV_state f1
      rcases hres2 : f1.parseIV with ⟨f2, e2⟩
      rw [hres2] at hiv
      simp only at hiv hk
      cases e2 with
      | some x => simp [hres2] at h
      | none =>
        simp only [hres2]
        exact ⟨hiv.1.trans hk.1, by rw [hiv.2.1]; exact hk.2, hiv.2.2⟩

/-- With a positive block size and an IV, what `encrypt` returns is as long as the
padded data. -/
theorem Aes_encrypt.encrypt_length_iv (crypto : Crypto) (f : Aes_encrypt) (b : Nat)
    (data : String) (iv ct : List Nat) (hb : 0 < b) (hf : f.blockSize = (b : Int))
    (hiv : f.iv = some iv) (h : f.encrypt crypto data = .ok ct) :
    ct.length = (stringBytes data).length + (b - (stringBytes data).length % b) := by
  unfold Aes_encrypt.encrypt at h
  rw [Aes_encrypt.paddingWithPKCS7_eq f b data hb hf] at h
  simp only [Result.ok_bind, hiv] at h
  rw [Aes_encrypt.cryptBlocks_length crypto _ _ _ _ ct h]
  simp

/-- With a positive block size and no IV, what `encrypt` returns is one block
longer than the padded data. -/
theorem Aes_encrypt.encrypt_length_no_iv (crypto : Crypto) (f : Aes_encrypt) (b : Nat)
    (data : String) (ct : List Nat) (hb : 0 < b) (hf : f.blockSize = (b : Int))
    (hiv : f.iv = none) (h : f.encrypt crypto data = .ok ct) :
    ct.length = b + ((stringBytes data).length + (b - (stringBytes data).length % b)) := by
  unfold Aes_encrypt.encrypt at h
  rw [Aes_encrypt.paddingWithPKCS7_eq f b data hb hf] at h
  simp only [Result.ok_bind, hiv, hf] at h
  have h1 : ¬ ((b : Int) + ((stringBytes data ++
      List.replicate (b - (stringBytes data).length % b)
        ((b - (stringBytes data).length % b) % 256)).length : Int) < 0) := by omega
  have h2 : ¬ ((b : Int) < 0) := by omega
  simp only [h1, h2, if_false, Int.toNat_ofNat] at h
  cases hr : crypto.randRead b with
  | none => simp [hr] at h
  | some iv =>
    simp only [hr] at h
    generalize hdst : Aes_encrypt.store _ iv = dst at h
    have hdl : dst.length = b + ((stringBytes data).length +
        (b - (stringBytes data).length % b)) := by
      rw [← hdst, Aes_encrypt.store_length]
      have hcast : ((b : Int) + ((stringBytes data ++
          List.replicate (b - (stringBytes data).length % b)
            ((b - (stringBytes data).length % b) % 256)).length : Int)).toNat =
          b + ((stringBytes data).length + (b - (stringBytes data).length % b)) := by
        simp only [List.length_append, List.length_replicate]
        omega
      rw [List.length_replicate, hcast]
    cases hc : Aes_encrypt.cryptBlocks crypto f.cipher iv (dst.drop b)
        (stringBytes data ++ List.replicate (b - (stringBytes data).length % b)
          ((b - (stringBytes data).length % b) % 256)) with
    | err e => simp [hc] at h
    | panic e => simp [hc] at h
    | ok rest =>
      have hrl := Aes_encrypt.cryptBlocks_length crypto _ _ _ _ rest hc
      simp only [hc, Result.ok_bind, Result.ok.injEq] at h
      subst h
      simp only [List.length_append, List.length_take, hrl, List.length_drop, hdl]
      omega

/-- On an object with a cipher, the block size 16 and an IV of 16 bytes, `encrypt`
returns normally. -/
theorem Aes_encrypt.encrypt_ok (crypto : Crypto) (f : Aes_encrypt) (data : String)
    (iv : List Nat) (hf : f.blockSize = 16) (hc : f.cipher.isSome = true)
    (hiv : f.iv = some iv) (hlen : iv.length = 16) :
    ∃ ct, f.encrypt crypto data = .ok ct := by
  obtain ⟨key, hkey⟩ := Option.isSome_iff_exists.mp hc
  unfold Aes_encrypt.encrypt
  rw [Aes_encrypt.paddingWithPKCS7_eq f 16 data (by decide) (by simpa using hf)]
  simp only [Result.ok_bind, hiv, hkey, Aes_encrypt.cryptBlocks, aes.BlockSize, hlen]
  have h16 : ((stringBytes data).length + (16 - (stringBytes data).length % 16)) % 16 = 0 := by
    omega
  simp [h16]

/-- The smallest multiple of `b` strictly greater than `n` is `n + (b - n % b)`. -/
theorem next_multiple (b n : Nat) (hb : 0 < b) :
    b ∣ n + (b - n % b) ∧ n < n + (b - n % b) ∧
    (∀ m : Nat, b ∣ m → n < m → n + (b - n % b) ≤ m) := by
  have hlt : n % b < b := Nat.mod_lt _ hb
  have hdm : b * (n / b) + n % b = n := Nat.div_add_mod n b
  have heq : n + (b - n % b) = b * (n / b + 1) := by
    rw [Nat.mul_succ]
    omega
  refine ⟨⟨n / b + 1, heq⟩, by omega, ?_⟩
  rintro m ⟨k, rfl⟩ hnm
  have hq : n / b < k := by
    apply (Nat.div_lt_iff_lt_mul hb).mpr
    rw [Nat.mul_comm]
    exact hnm
  rw [heq]
  exact Nat.mul_le_mul_left b hq

/-- An `Init` that returns an error leaves the IV as it was. -/
theorem Aes_encrypt.Init_error_iv (f : Aes_encrypt) (param : List String)
    (e : String) (h : (f.Init param).2 = some e) :
    (f.Init param).1.iv = f.iv := by
  unfold Aes_encrypt.Init at h ⊢
  by_cases hlen : param.length < 2
  · rw [if_pos hlen]
  · rw [if_neg hlen] at h ⊢
    generalize param.getD 1 "" = key at h ⊢
    have hpk := Aes_encrypt.parseKey_ok_iff f key
    rcases hres : f.parseKey key with ⟨f1, e1⟩
    rw [hres] at hpk h
    cases e1 with
    | some x =>
      have hf1 : f1 = (f.parseKey key).1 := by rw [hres]
      rw [hf1]
      unfold Aes_encrypt.parseKey
      cases hd : (hex.DecodeString key).2 with
      | some y => simp [hd]
      | none =>
        simp only [hd]
        cases hc : aes.NewCipher (hex.DecodeString key).1 with
        | ok c =>
          exfalso
          have hnone : (f.parseKey key).2 = none := by
            unfold Aes_encrypt.parseKey
            simp [hd, hc]
          rw [hres] at hnone
          cases hnone
        | error y => simp
    | none =>
      exfalso
      have hb : f1.blockSize = 16 := hpk.2 rfl
      have hiv := Aes_encrypt.parseIV_ok f1 hb
      rcases hres2 : f1.parseIV with ⟨f2, e2⟩
      rw [hres2] at hiv
      simp only at hiv
      subst hiv
      simp [hres2] at h

/-- One call of `Init` keeps this: the block size is 0, or it is 16 and the IV is
16 zero bytes. -/
theorem Aes_encrypt.Init_keeps_state (f : Aes_encrypt) (param : List String)
    (h : f.blockSize = 0 ∨ (f.blockSize = 16 ∧ f.iv = some (List.replicate 16 0))) :
    (f.Init param).1.blockSize = 0 ∨
      ((f.Init param).1.blockSize = 16 ∧
        (f.Init param).1.iv = some (List.replicate 16 0)) := by
  cases he : (f.Init param).2 with
  | none =>
    have hst := Aes_encrypt.Init_ok_state f param he
    exact Or.inr ⟨hst.1, hst.2.2⟩
  | some e =>
    rw [Aes_encrypt.Init_error_blockSize f param e he, Aes_encrypt.Init_error_iv f param e he]
    exact h

/-- Calls of `Init`, from any object on, keep the same. -/
theorem Aes_encrypt.foldl_Init_keeps_state (calls : List (List String)) (f : Aes_encrypt)
    (h : f.blockSize = 0 ∨ (f.blockSize = 16 ∧ f.iv = some (List.replicate 16 0))) :
    (calls.foldl (fun f param => (f.Init param).1) f).blockSize = 0 ∨
      ((calls.foldl (fun f param => (f.Init param).1) f).blockSize = 16 ∧
        (calls.foldl (fun f param => (f.Init param).1) f).iv =
          some (List.replicate 16 0)) := by
  induction calls generalizing f with
  | nil => exact h
  | cons param rest ih =>
    rw [List.foldl_cons]
    exact ih _ (Aes_encrypt.Init_keeps_state f param h)

/-- On every object the package builds, the block size is 0, or it is 16 and the
IV is 16 zero bytes. -/
theorem Aes_encrypt.afterInits_state (calls : List (List String)) :
    (Aes_encrypt.afterInits calls).blockSize = 0 ∨
      ((Aes_encrypt.afterInits calls).blockSize = 16 ∧
        (Aes_encrypt.afterInits calls).iv = some (List.replicate 16 0)) :=
  Aes_encrypt.foldl_Init_keeps_state calls Aes_encrypt.zero (Or.inl rfl)

/-- C24. On an object the package builds (the zero object after any calls of
`Init`) whose block size `b` is positive, `b` is 16. For data of `n` bytes let
`p = b - n % b`. `paddingWithPKCS7` returns `n + p` bytes; `1 ≤ p ≤ b`, and
`n + p` is the smallest multiple of `b` strictly greater than `n`; the first
`n` bytes are the data and each of the last `p` bytes equals `p`. A `Process` on
parameters neither of which is `"NULL"` that returns normally returns a string
of `2 * (n + p)` characters. After an `Init` that returned no error (on any
object) such a `Process` does return normally, with
`2 * (n + (16 - n % 16))` characters, which is 32 for the test's plaintext
`0123456` of 7 bytes. -/
theorem Aes_encrypt.paddingWithPKCS7_spec (calls : List (List String)) (b : Nat)
    (data : String) (hb : 0 < b)
    (hf : (Aes_encrypt.afterInits calls).blockSize = (b : Int)) :
    b = 16 ∧
    (∃ out : List Nat, (Aes_encrypt.afterInits calls).paddingWithPKCS7 data = .ok out ∧
      out.length = (stringBytes data).length + (b - (stringBytes data).length % b) ∧
      1 ≤ b - (stringBytes data).length % b ∧ b - (stringBytes data).length % b ≤ b ∧
      b ∣ out.length ∧ (stringBytes data).length < out.length ∧
      (∀ m : Nat, b ∣ m → (stringBytes data).length < m → out.length ≤ m) ∧
      out.take (stringBytes data).length = stringBytes data ∧
      out.drop (stringBytes data).length =
        List.replicate (b - (stringBytes data).length % b)
          (b - (stringBytes data).length % b)) ∧
    (∀ (crypto : Crypto) (second : String) (rest : List String) (s : String),
      data ≠ "NULL" → second ≠ "NULL" →
      Aes_encrypt.Process crypto (Aes_encrypt.afterInits calls) (data :: second :: rest) =
        .ok s →
      s.length = 2 * ((stringBytes data).length + (b - (stringBytes data).length % b))) ∧
    (∀ (crypto : Crypto) (f0 : Aes_encrypt) (param : List String) (second : String)
      (rest : List String),
      (f0.Init param).2 = none → data ≠ "NULL" → second ≠ "NULL" →
      ∃ s : String, Aes_encrypt.Process crypto (f0.Init param).1 (data :: second :: rest) =
          .ok s ∧
        s.length = 2 * ((stringBytes data).length + (16 - (stringBytes data).length % 16))) ∧
    ((stringBytes "0123456").length = 7 ∧ 2 * (7 + (16 - 7 % 16)) = 32) := by
  have hlt : (stringBytes data).length % b < b := Nat.mod_lt _ hb
  have hnext := next_multiple b (stringBytes data).length hb
  have hstate := Aes_encrypt.afterInits_state calls
  have hb16 : b = 16 ∧ (Aes_encrypt.afterInits calls).iv = some (List.replicate 16 0) := by
    rcases hstate with h0 | ⟨h16, hiv⟩
    · rw [h0] at hf
      omega
    · rw [h16] at hf
      exact ⟨by omega, hiv⟩
  have hprocess : ∀ (crypto : Crypto) (g : Aes_encrypt) (second : String)
      (rest : List String) (s : String), data ≠ "NULL" → second ≠ "NULL" →
      Aes_encrypt.Process crypto g (data :: second :: rest) = .ok s →
      ∃ ct, g.encrypt crypto data = .ok ct ∧ s.length = 2 * ct.length := by
    intro crypto g second rest s h1 h2 h
    unfold Aes_encrypt.Process at h
    simp only [List.length_cons, List.getD_cons_zero, List.getD_cons_succ, h1, h2,
      or_self, if_false] at h
    have hl : ¬ (rest.length + 1 + 1 < 2) := by omega
    simp only [hl, if_false] at h
    cases he : g.encrypt crypto data with
    | err e => simp [he] at h
    | panic e => simp [he] at h
    | ok ct =>
      simp only [he, Result.ok.injEq] at h
      exact ⟨ct, rfl, by rw [← h, hex.EncodeToString_length]⟩
  have hp : (b - (stringBytes data).length % b) % 256 =
      b - (stringBytes data).length % b := Nat.mod_eq_of_lt (by omega)
  refine ⟨hb16.1, ⟨_, Aes_encrypt.paddingWithPKCS7_eq _ b data hb hf, ?_, by omega, by omega,
    ?_, ?_, ?_, ?_, ?_⟩, ?_, ?_, by decide, by decide⟩
  · simp
  · simpa using hnext.1
  · simp only [List.length_append, List.length_replicate]
    omega
  · intro m hd hm
    simpa using hnext.2.2 m hd hm
  · simp
  · simp [hp]
  · intro crypto second rest s h1 h2 h
    obtain ⟨ct, he, hs⟩ := hprocess crypto _ second rest s h1 h2 h
    rw [hs, Aes_encrypt.encrypt_length_iv crypto _ b data _ ct hb hf hb16.2 he]
  · intro crypto f0 param second rest hinit h1 h2
    obtain ⟨h16, hc, hiv⟩ := Aes_encrypt.Init_ok_state f0 param hinit
    obtain ⟨ct, he⟩ := Aes_encrypt.encrypt_ok crypto (f0.Init param).1 data
      (List.replicate 16 0) h16 hc hiv (by simp)
    have hlen := Aes_encrypt.encrypt_length_iv crypto (f0.Init param).1 16 data
      (List.replicate 16 0) ct (by decide) (by simpa using h16) hiv he
    refine ⟨hex.EncodeToString ct, ?_, by rw [hex.EncodeToString_length, hlen]⟩
    unfold Aes_encrypt.Process
    have hl : ¬ (rest.length + 1 + 1 < 2) := by omega
    simp only [List.length_cons, List.getD_cons_zero, List.getD_cons_succ, h1, h2,
      or_self, if_false, hl, he]

theorem Aes_encrypt.paddingWithPKCS7_spec_witness :
    (Aes_encrypt.afterInits [["aes_encrypt",
      "0000000000000000000000000000000000000000000000000000000000000000"]]).blockSize =
      16 ∧
    Aes_encrypt.paddingWithPKCS7
      (Aes_encrypt.afterInits [["aes_encrypt",
        "0000000000000000000000000000000000000000000000000000000000000000"]]) "0123456" =
      .ok [48, 49, 50, 51, 52, 53, 54, 9, 9, 9, 9, 9, 9, 9, 9, 9] ∧
    (∃ s : String,
      Aes_encrypt.Process Example.crypto
        (Aes_encrypt.zero.Init ["aes_encrypt",
          "0000000000000000000000000000000000000000000000000000000000000000"]).1
        ["0123456", "0000000000000000000000000000000000000000000000000000000000000000"] =
        .ok s ∧
      s.length = 2 * ((stringBytes "0123456").length +
        (16 - (stringBytes "0123456").length % 16))) ∧
    2 * ((stringBytes "0123456").length + (16 - (stringBytes "0123456").length % 16)) = 32 :=
  ⟨by decide, by decide,
    (Aes_encrypt.paddingWithPKCS7_spec
        [["aes_encrypt", "0000000000000000000000000000000000000000000000000000000000000000"]]
        16 "0123456" (by decide) (by decide)).2.2.2.1 Example.crypto Aes_encrypt.zero
        ["aes_encrypt", "0000000000000000000000000000000000000000000000000000000000000000"]
        "0000000000000000000000000000000000000000000000000000000000000000" [] (by decide)
        (by decide) (by decide),
    by decide⟩

end Sql
